import Mathlib

/-!
Verification development for the process-lifecycle and open-file core of the
Frostbyte kernel (src/process/process.c and src/fs/file.c).

The kernel state is embedded shallowly: the process table, the three intrusive
queues (ready queue, wait list, zombie list), the global open-file table and
the in-core inode table become a single `KState` structure, and each kernel
operation becomes a function `KState → Option KState` (or returning a result
value as well).  A `none` result models a machine fault: a NULL-pointer
dereference, an out-of-bounds access, or a failed kernel ASSERT — in all of
these the kernel does not complete the operation, so no successor state exists.

Pointers of the C code are replaced by table indices: a `fd_table` slot holds
`Option Nat` (an index into the global file table, `none` = NULL), a file
entry's `inode` field holds `Option Nat` (an index into the inode table), and
the queues hold process-table indices.  Intrusive list nodes carry no data of
their own, so this is a faithful representation.

Numeric table sizes (`PROC_TABLE_SIZE`, `MAX_OPEN_FILES`, the file-table and
inode-table capacities) and the signal numbers live in headers that are not
among the included sources; they are fixed here as representative constants
(the spec fixes the tables to be of constant size, and `exit(128+SIGTERM)`
observing 143 in the spec fixes the POSIX numbering of the signals).  No
theorem below depends on the particular values.
-/

set_option maxRecDepth 40000

namespace Frostbyte

/-- PROC_TABLE_SIZE: number of slots in the process table (slot 0 is idle). -/
def NPROC : Nat := 8

/-- MAX_OPEN_FILES: width of each per-process file-descriptor table. -/
def MAX_OPEN_FILES : Nat := 8

/-- Capacity of the global open-file table (one page of entries in the code). -/
def NFILE : Nat := 8

/-- Capacity of the in-core inode table (root_entry_count in the code). -/
def NINODE : Nat := 8

/-- TOTAL_SIGNALS of the kernel's signal numbering. -/
def TOTAL_SIGNALS : Nat := 32

def SIGHUP : Nat := 1
def SIGINT : Nat := 2
def SIGKILL : Nat := 9
def SIGTERM : Nat := 15
def SIGCHLD : Nat := 17
def SIGCONT : Nat := 18
def SIGSTOP : Nat := 19

/-- The `event` value of a process that is not sleeping. -/
def NONE_EVT : Int := 0

/-- Sleep event used by `wait` to block until some zombie appears. -/
def ZOMBIE_CLEANUP : Int := -2

/-- Sleep event of processes paused while another holds the foreground. -/
def FG_PAUSED : Int := -3

/-- Option bit of `wait`. -/
def WNOHANG : Nat := 1

/-- Process states (enum in process.h, as described by the spec). -/
inductive PState where
  | UNUSED | INIT | READY | RUNNING | SLEEP | KILLED
deriving DecidableEq, Repr

open PState

/-- The part of the saved trap frame (`struct ContextFrame`) the claims look
at: `x0` (syscall return register, zeroed for a forked child) and `x5`
(shutdown notification register for the idle process). -/
structure Frame where
  x0 : Nat
  x5 : Nat
deriving DecidableEq, Repr

/-- Process control block (`struct Process`).  `stackAlloc` / `pageMapAlloc`
record whether the kernel stack page and page-map page of the slot are
currently allocated (`kalloc`ed and not `kfree`d); `regContext` is `none`
while the slot's `reg_context` pointer was never set up (as for the idle
slot, which `alloc_new_process` never touches). -/
structure PCB where
  state : PState
  pid : Int
  ppid : Int
  status : Nat
  signals : Nat
  wpid : Int
  daemon : Bool
  event : Int
  stackAlloc : Bool
  pageMapAlloc : Bool
  regContext : Option Frame
  fd_table : List (Option Nat)
deriving DecidableEq, Repr

/-- A zero-initialized process-table slot. -/
def blankPCB : PCB :=
  { state := UNUSED, pid := 0, ppid := 0, status := 0, signals := 0,
    wpid := 0, daemon := false, event := NONE_EVT, stackAlloc := false,
    pageMapAlloc := false, regContext := none,
    fd_table := List.replicate MAX_OPEN_FILES none }

instance : Inhabited PCB := ⟨blankPCB⟩

/-- Global open-file table entry (`struct FileEntry`): an inode pointer
(`none` = free entry) and a reference count. -/
structure FileEntry where
  inode : Option Nat
  ref_count : Int
deriving DecidableEq, Repr

/-- In-core inode (`struct Inode`): the FAT16 root-directory index it caches
and its reference count (the file-size/cluster/name metadata plays no role in
any claim). -/
structure Inode where
  dir_index : Nat
  ref_count : Int
deriving DecidableEq, Repr

/-- The whole kernel state: process table, the three queues (as lists of
process-table indices), `struct ProcessControl` fields, the PID counter, the
shutdown flag, and the two file-layer tables. -/
structure KState where
  ptable : List PCB
  readyQue : List Nat
  waitList : List Nat
  zombies : List Nat
  curr : Nat
  fg : Option Nat
  pidNum : Int
  shutdown : Bool
  gft : List FileEntry
  itable : List Inode
deriving DecidableEq, Repr

/-- Read process-table slot `i` (all C accesses are in bounds; the default is
never hit on states built by the operations below). -/
def pcbD (s : KState) (i : Nat) : PCB := s.ptable.getD i blankPCB

/-- Update process-table slot `i`. -/
def updP (s : KState) (i : Nat) (f : PCB → PCB) : KState :=
  { s with ptable := s.ptable.set i (f (pcbD s i)) }

/-- `signals &= ~(1 << i)`: clear one pending-signal bit. -/
def clearBit (m i : Nat) : Nat := if m.testBit i then m - (1 <<< i) else m

/-- `push_back(&ready_que, p)`. -/
def pushReady (s : KState) (i : Nat) : KState := { s with readyQue := s.readyQue ++ [i] }

/-- `push_back(&wait_list, p)`. -/
def pushWait (s : KState) (i : Nat) : KState := { s with waitList := s.waitList ++ [i] }

/-- `push_back(&zombies, p)`. -/
def pushZombie (s : KState) (i : Nat) : KState := { s with zombies := s.zombies ++ [i] }

/-- `remove(&ready_que, p)`. -/
def eraseReady (s : KState) (i : Nat) : KState := { s with readyQue := s.readyQue.erase i }

/-- `remove(&wait_list, p)`. -/
def eraseWait (s : KState) (i : Nat) : KState := { s with waitList := s.waitList.erase i }

/-- Replace the ready queue (popping its head, in the scheduler). -/
def setReady (s : KState) (l : List Nat) : KState := { s with readyQue := l }

/-- Replace the wait list (after removing woken processes). -/
def setWait (s : KState) (l : List Nat) : KState := { s with waitList := l }

/-- Replace the zombie list (after `remove_evt` took one zombie out). -/
def setZombies (s : KState) (l : List Nat) : KState := { s with zombies := l }

/-- Move previously woken processes to the ready-queue tail. -/
def appendReady (s : KState) (l : List Nat) : KState :=
  { s with readyQue := s.readyQue ++ l }

/-- `pc.curr_process = p`. -/
def setCurr (s : KState) (n : Nat) : KState := { s with curr := n }

/-- `shutdown = true` (process.c:174). -/
def set_shutdown (s : KState) : KState := { s with shutdown := true }

/-- The foreground-claim step of the scheduler (process.c:184-185): the
dispatched process becomes the foreground process if it is not a daemon and
no process currently holds the slot. -/
def claim_fg (s : KState) (n : Nat) : KState :=
  if ¬ (pcbD s n).daemon ∧ s.fg = none then { s with fg := some n } else s

/-- `find_evt` / `remove_evt` on an intrusive queue: remove the first node
whose `event` field equals `e`, returning it and the remaining queue. -/
def removeEvt (s : KState) (l : List Nat) (e : Int) : Option (Nat × List Nat) :=
  match l.find? (fun i => (pcbD s i).event == e) with
  | some i => some (i, l.erase i)
  | none => none

/-- `get_process(pid)`: first slot with index ≥ 1 whose state is not UNUSED
and whose pid matches (process.c:222). -/
def get_process (s : KState) (pid : Int) : Option Nat :=
  (List.range' 1 (NPROC - 1)).find?
    (fun i => (pcbD s i).state != UNUSED && (pcbD s i).pid == pid)

/-- `switch_parent(curr_ppid, new_ppid)`: reassign the parent of every
non-UNUSED slot (index ≥ 1) whose ppid is `curr_ppid` (process.c:293). -/
def switch_parent (s : KState) (curr_ppid new_ppid : Int) : KState :=
  (List.range' 1 (NPROC - 1)).foldl
    (fun st i =>
      if (pcbD st i).state ≠ UNUSED ∧ (pcbD st i).ppid = curr_ppid then
        updP st i (fun q => { q with ppid := new_ppid })
      else st) s

/-- `wake_up(event)` (process.c:322): clear the event of every ready-queue
member whose event matches, then move every matching wait-list process to the
tail of the ready queue (event cleared, state READY), in wait-list order. -/
def wake_up (s : KState) (event : Int) : KState :=
  let s1 := s.readyQue.foldl
    (fun st i =>
      if (pcbD st i).event = event then updP st i (fun q => { q with event := NONE_EVT }) else st) s
  let p := s1.waitList.partition (fun i => (pcbD s1 i).event == event)
  let s2 := p.1.foldl
    (fun st i => updP st i (fun q => { q with event := NONE_EVT, state := READY }))
    (setWait s1 p.2)
  appendReady s2 p.1

/-- The foreground-handover block of `exit` (process.c:369-372): a dying
foreground process passes the slot to its parent when the parent is not a
daemon, and drops it otherwise. -/
def fg_handover (s : KState) (pid : Int) (parent : Option Nat) : KState :=
  match s.fg with
  | some f =>
    if pid = (pcbD s f).pid then
      { s with fg :=
          match parent with
          | some π => if ¬ (pcbD s π).daemon then some π else none
          | none => none }
    else s
  | none => s

/-- The status-packing and KILLED-marking of `exit` (process.c:351-354):
OR `status & 0x7f` into the packed status when invoked from a signal
handler, `(status & 0xff) << 8` otherwise; then state KILLED and
`event := pid` for the `wait` sweep. -/
def exit_pack (s : KState) (pIdx : Nat) (status : Nat) (sig_handler_req : Bool) : KState :=
  updP s pIdx (fun q =>
    { q with
      status := q.status |||
        (if sig_handler_req then status &&& 0x7f else (status &&& 0xff) <<< 8),
      state := KILLED, event := q.pid })

/-- The parent notification of `exit` (process.c:356-365): a live parent gets
SIGCHLD and the dying process's packed status (`p` is the dying PCB, already
packed), and the dying process is fostered to init (ppid 1) when the parent
is gone, KILLED, or waiting for a specific different pid. -/
def exit_notify (p : PCB) (parent : Option Nat) (s : KState) (pIdx : Nat) : KState :=
  match parent with
  | some π =>
    if (pcbD s π).state ≠ KILLED then
      let s2a := updP s π (fun q =>
        { q with signals := q.signals ||| (1 <<< SIGCHLD), status := p.status })
      if (pcbD s2a π).wpid ≥ 0 ∧ (pcbD s2a π).wpid ≠ p.pid then
        updP s2a pIdx (fun q => { q with ppid := 1 })
      else s2a
    else updP s pIdx (fun q => { q with ppid := 1 })
  | none => updP s pIdx (fun q => { q with ppid := 1 })

/-- The bookkeeping part of `exit` (process.c:351-379), without the dead-state
guard and without the final `schedule()` call: pack the status, mark KILLED,
set `event := pid`, notify/disinherit the parent, reparent children to init,
hand over or drop the foreground slot, wake FG_PAUSED sleepers for a
non-daemon, push onto the zombie list and wake ZOMBIE_CLEANUP sleepers. -/
def exit_book (s : KState) (pIdx : Nat) (status : Nat) (sig_handler_req : Bool) : KState :=
  let s1 := exit_pack s pIdx status sig_handler_req
  let p := pcbD s1 pIdx
  let parent := get_process s1 p.ppid
  let s2 := exit_notify p parent s1 pIdx
  let s3 := switch_parent s2 p.pid 1
  let s4 := fg_handover s3 p.pid parent
  let s5 := if ¬ p.daemon then wake_up s4 FG_PAUSED else s4
  let s6 := pushZombie s5 pIdx
  wake_up s6 ZOMBIE_CLEANUP

/-- Modelled from the spec: `check_pending_signals` and the per-signal default
handlers live in the signal subsystem (signal.c / handler tables), which is
not among the included sources.  Following §4.H of the spec: for each pending
bit, lowest first, the bit is cleared and the default disposition runs —
SIGHUP, SIGINT, SIGKILL and SIGTERM call `exit(p, 128|sig, true)` and remove
`p` from the ready queue; SIGCHLD and SIGCONT are ignored; SIGSTOP moves `p`
from the ready queue to the wait list sleeping on FG_PAUSED.  No modelled
operation installs a user handler, so every disposition is the default. -/
def sig_action (st : KState) (pIdx : Nat) (sig : Nat) : KState :=
  if sig = SIGHUP ∨ sig = SIGINT ∨ sig = SIGKILL ∨ sig = SIGTERM then
    let st1 :=
      if (pcbD st pIdx).state = UNUSED ∨ (pcbD st pIdx).state = KILLED then st
      else exit_book st pIdx (128 ||| sig) true
    eraseReady st1 pIdx
  else if sig = SIGSTOP then
    pushWait
      (updP (eraseReady st pIdx) pIdx (fun q => { q with state := SLEEP, event := FG_PAUSED }))
      pIdx
  else st

/-- Modelled from the spec (see `sig_action`): deliver every pending signal of
`pIdx`, lowest bit first, clearing each bit before its action runs. -/
def check_pending_signals (st : KState) (pIdx : Nat) : KState :=
  (List.range TOTAL_SIGNALS).foldl
    (fun st sig =>
      if (pcbD st pIdx).signals.testBit sig then
        sig_action (updP st pIdx (fun q => { q with signals := clearBit q.signals sig })) pIdx sig
      else st) st

/-- The head-selection loop of `schedule` (process.c:155-168): check signals
on the head of the ready queue; if the head survived the check, pop it and
return it as the selected process; otherwise retry with the new head.  The
loop of the C code is bounded here by explicit fuel; exhausted fuel (`none`)
models a non-terminating selection loop, which never happens on the runs the
claims are about. -/
def scheduleLoop : Nat → KState → Option (KState × Option Nat)
  | 0, _ => none
  | fuel + 1, s =>
    match s.readyQue with
    | [] => some (s, none)
    | hd :: _ =>
      let s' := check_pending_signals s hd
      match s'.readyQue with
      | [] => some (s', none)
      | hd' :: t' =>
        if hd' = hd then some (setReady s' t', some hd)
        else scheduleLoop fuel s'

/-- Fuel for `scheduleLoop`: ample for any run in which each retry is caused
by a signal check removing the head from the queue. -/
def SCHED_FUEL : Nat := 64

/-- The code after `swap` in `switch_process` (process.c:142-146), which
executes in the context of the process being resumed (its saved `existing`
local is itself): on resuming with the shutdown flag set, a process with
pid 0 whose `reg_context` pointer is non-NULL gets `x5 := 1` in its trap
frame.  Only the idle process (pid 0) can satisfy the pid guard, and idle
always resumes at this point rather than at `trap_return`. -/
def resume_mark (s : KState) : KState :=
  let n := s.curr
  if s.shutdown ∧ (pcbD s n).pid = 0 then
    match (pcbD s n).regContext with
    | some fr => updP s n (fun q => { q with regContext := some { fr with x5 := 1 } })
    | none => s
  else s

/-- `schedule()` (process.c:149-188): select a head from the ready queue
(signal checks included); if none, pick the idle slot — first setting the
shutdown flag when both queues are empty and idle has SIGTERM pending.  The
chosen process becomes RUNNING and current, claims the foreground if eligible
and unclaimed, and the context switch runs `resume_mark`. -/
def schedule (s : KState) : Option KState := do
  let (s1, sel) ← scheduleLoop SCHED_FUEL s
  let s2n : KState × Nat :=
    match sel with
    | some h => (s1, h)
    | none =>
      (if s1.waitList = [] ∧ (pcbD s1 0).signals.testBit SIGTERM then
        set_shutdown s1 else s1, 0)
  let s3 := updP s2n.1 s2n.2 (fun q => { q with state := RUNNING })
  let s4 := setCurr s3 s2n.2
  let s5 := claim_fg s4 s2n.2
  some (resume_mark s5)

/-- `exit(process, status, sig_handler_req)` (process.c:347): no-op on a NULL,
UNUSED or KILLED process; otherwise the bookkeeping of `exit_book` followed by
`schedule()` unless invoked from a signal handler. -/
def exit (s : KState) (pIdx : Nat) (status : Nat) (sig_handler_req : Bool) : Option KState :=
  match s.ptable.get? pIdx with
  | none => some s
  | some p =>
    if p.state = UNUSED ∨ p.state = KILLED then some s
    else
      let s1 := exit_book s pIdx status sig_handler_req
      if sig_handler_req then some s1 else schedule s1

/-- `trigger_scheduler()` (process.c:190): on a timer tick, keep running the
current process if the ready queue is empty; otherwise mark it READY,
re-enqueue it at the tail unless it is the idle process, and `schedule()`. -/
def trigger_scheduler (s : KState) : Option KState :=
  if s.readyQue.isEmpty then some s
  else
    let p := s.curr
    let s1 := updP s p (fun q => { q with state := READY })
    let s2 := if (pcbD s1 p).pid ≠ 0 then pushReady s1 p else s1
    schedule s2

/-- `sleep(event)` (process.c:303): the current process goes to SLEEP on
`event`, joins the wait-list tail, and the scheduler picks someone else. -/
def sleepOn (s : KState) (event : Int) : Option KState :=
  let c := s.curr
  let s1 := updP s c (fun q => { q with state := SLEEP, event := event })
  schedule (pushWait s1 c)

/-- `find_unused_slot()` (process.c:30): first UNUSED slot with index ≥ 1
(slot 0 is reserved for the idle process). -/
def find_unused_slot (s : KState) : Option Nat :=
  (List.range' 1 (NPROC - 1)).find? (fun i => (pcbD s i).state == UNUSED)

/-- `alloc_new_process()` (process.c:45): claim the first unused slot,
allocate its kernel stack and page map (the kalloc failures are fatal ASSERTs,
so allocation is modelled as succeeding), set up the initial trap frame, and
assign the next pid from the monotonic counter.  The stale `fd_table` of a
previously reaped occupant is deliberately left in place, as in the code. -/
def alloc_new_process (s : KState) : Option (KState × Nat) :=
  match find_unused_slot s with
  | none => none
  | some i =>
    let s1 := updP s i (fun q =>
      { q with
        stackAlloc := true, state := INIT, status := 0, signals := 0,
        wpid := 0, pid := s.pidNum,
        regContext := some { x0 := 0, x5 := 0 }, pageMapAlloc := true })
    some ({ s1 with pidNum := s.pidNum + 1 }, i)

/-- Take one reference on file entry `e` and on its inode, as the fork loop
does (process.c:488-491).  Faults (`none`) on a free entry, whose NULL inode
pointer the C code would dereference. -/
def acquireEntry (st : KState) (e : Nat) : Option KState := do
  let fe ← st.gft.get? e
  let j ← fe.inode
  let ino ← st.itable.get? j
  let st1 := { st with gft := st.gft.set e { fe with ref_count := fe.ref_count + 1 } }
  some { st1 with itable := st1.itable.set j { ino with ref_count := ino.ref_count + 1 } }

/-- Drop one reference on file entry `e` and on its inode, releasing the
in-core inode (entry's inode pointer set to NULL) when the inode's count hits
zero — the shape shared by the `wait` reaper (process.c:430-437) and the
SIGHUP zombie release (process.c:640-647). -/
def releaseEntry (st : KState) (e : Nat) : Option KState := do
  let fe ← st.gft.get? e
  let j ← fe.inode
  let ino ← st.itable.get? j
  let fe' : FileEntry := { fe with ref_count := fe.ref_count - 1 }
  let ino' : Inode := { ino with ref_count := ino.ref_count - 1 }
  let st1 := { st with gft := st.gft.set e fe', itable := st.itable.set j ino' }
  some (if ino'.ref_count = 0 then
    { st1 with gft := st1.gft.set e { fe' with inode := none } } else st1)

/-- The reaper's walk over a dead process's descriptor table
(process.c:428-438): drop one reference per non-NULL fd slot. -/
def releaseFds (st : KState) (fds : List (Option Nat)) : Option KState :=
  fds.foldlM (fun st o => match o with | none => some st | some e => releaseEntry st e) st

/-- The foreground-yield block shared by `fork` (process.c:474-477) and
`exec` (process.c:527-530): a process whose pid matches the current
foreground process's pid gives the slot up. -/
def fg_yield (s : KState) (pid : Int) : KState :=
  match s.fg with
  | some f => if pid = (pcbD s f).pid then { s with fg := none } else s
  | none => s

/-- `fork()` (process.c:461): allocate a child PCB (-1 if the table is full),
record the parent pid, yield the foreground slot, duplicate the user memory
(`copy_uvm`'s success is the `uvm_ok` input; on failure fork returns -1
leaving the allocated child in place), share the parent's open files with the
reference counts of entry and inode both incremented, copy the trap frame
with `x0 := 0` for the child, and enqueue the READY child.  Returns the child
pid to the parent. -/
def fork (s : KState) (uvm_ok : Bool) : Option (KState × Int) :=
  match alloc_new_process s with
  | none => some (s, -1)
  | some (s2, ci) =>
    let parent := pcbD s2 s2.curr
    let s3 := updP s2 ci (fun q => { q with ppid := parent.pid })
    let s4 := fg_yield s3 parent.pid
    if ¬ uvm_ok then some (s4, -1)
    else do
      let s5 := updP s4 ci (fun q => { q with fd_table := parent.fd_table })
      let s6 ← parent.fd_table.foldlM
        (fun st o => match o with | none => some st | some e => acquireEntry st e) s5
      let pf ← parent.regContext
      let s7 := updP s6 ci (fun q => { q with regContext := some { pf with x0 := 0 } })
      let s8 := updP s7 ci (fun q => { q with state := READY })
      some (pushReady s8 ci, (pcbD s8 ci).pid)

/-- One pass of the body of `wait` (process.c:386-459): the result is the
return value (`ret`) or the decision to block on ZOMBIE_CLEANUP (`block`),
after which the C loop would rerun this body upon waking. -/
inductive WRes where
  | ret (r : Int)
  | block
deriving DecidableEq, Repr

/-- `wait(pid, wstatus, options)` (process.c:386), one iteration of its loop:
reject pid 0 and pids below -1; record `wpid`; determine whether a matching
process exists (for pid -1, scan for children of the caller, picking the
first zombie child's pid; for pid > 0, `get_process`); with none, return -1;
otherwise reap the first zombie whose event matches, or return 0 under
WNOHANG, or block. -/
def wait (s : KState) (pid : Int) (options : Nat) : Option (KState × WRes) :=
  if pid = 0 ∨ pid < -1 then some (s, .ret (-1))
  else
    let s := updP s s.curr (fun q => { q with wpid := pid })
    let cpid := (pcbD s s.curr).pid
    let scan : Bool × Int :=
      if pid = -1 then
        let children := (List.range' 1 (NPROC - 1)).filter
          (fun i => (pcbD s i).state != UNUSED && (pcbD s i).ppid == cpid)
        let firstZ := children.find? (fun i => s.zombies.contains i)
        (¬ children.isEmpty, match firstZ with | some i => (pcbD s i).pid | none => pid)
      else ((get_process s pid).isSome, pid)
    if ¬ scan.1 then some (s, .ret (-1))
    else
      match removeEvt s s.zombies scan.2 with
      | some (zIdx, zs') =>
        let s1 := setZombies s zs'
        if (pcbD s1 zIdx).state ≠ KILLED then some (s1, .ret scan.2)
        else do
          let s2 := updP s1 zIdx (fun q => { q with stackAlloc := false, pageMapAlloc := false })
          let s3 ← releaseFds s2 (pcbD s2 zIdx).fd_table
          let s4 := updP s3 zIdx (fun q => { q with state := UNUSED, daemon := false, status := 0 })
          let s5 := if (pcbD s4 s4.curr).wpid = -1 then wake_up s4 ZOMBIE_CLEANUP else s4
          some (s5, .ret scan.2)
      | none =>
        if options &&& WNOHANG ≠ 0 then some (s, .ret 0)
        else (sleepOn s ZOMBIE_CLEANUP).map (fun s' => (s', .block))

/-- The per-slot body of the `kill(-1, sig)` broadcast loop
(process.c:619-653).  Note the faithful rendering of the zombie-release bug:
the inner loop of the C code redeclares `i`, so it walks the diagonal
`process_table[i].fd_table[i]` for `i` in `[0, MAX_OPEN_FILES)` instead of
the zombie's own descriptor table. -/
def killSlot (st : KState) (i : Nat) (curr_pid : Int) (sig : Nat) : Option KState :=
  let q := pcbD st i
  if q.pid = curr_pid then some st
  else if ¬ (q.state = UNUSED ∨ q.state = KILLED) then
    let st1 := updP st i (fun q => { q with signals := q.signals ||| (1 <<< sig) })
    if (pcbD st1 i).state = SLEEP then
      some (pushReady (updP (eraseWait st1 i) i (fun q => { q with state := READY })) i)
    else some st1
  else if q.state = KILLED ∧ sig = SIGHUP then
    if q.ppid ≠ 1 then do
      let st1 := updP st i (fun q => { q with stackAlloc := false, pageMapAlloc := false })
      let st2 ← (List.range MAX_OPEN_FILES).foldlM
        (fun st j =>
          match (pcbD st j).fd_table.getD j none with
          | none => some st
          | some e => releaseEntry st e) st1
      some (updP st2 i (fun q => { q with state := UNUSED, daemon := false }))
    else some st
  else some st

/-- `kill(pid, signal)` (process.c:613): reject out-of-range signals; pid -1
broadcasts to every slot of index ≥ 2 other than the sender (waking sleepers,
releasing unattended zombies on SIGHUP), then marks init and idle on SIGTERM
and resets the pid counter to 2 on SIGHUP; pid 0 signals the caller's
children; a positive pid signals that process, waking it if asleep. -/
def kill (s : KState) (pid : Int) (sig : Int) : Option (KState × Int) :=
  if sig < 0 ∨ sig > (TOTAL_SIGNALS : Int) - 1 then some (s, -1)
  else
    let sg := sig.toNat
    if pid = -1 then do
      let curr_pid := (pcbD s s.curr).pid
      let s1 ← (List.range' 2 (NPROC - 2)).foldlM (fun st i => killSlot st i curr_pid sg) s
      let s2 :=
        if sg = SIGTERM then
          let sa := updP s1 1 (fun q => { q with signals := q.signals ||| (1 <<< sg) })
          updP sa 0 (fun q => { q with signals := q.signals ||| (1 <<< sg) })
        else s1
      let s3 := if sg = SIGHUP then { s2 with pidNum := 2 } else s2
      some (s3, 0)
    else if pid = 0 then
      let cp := (pcbD s s.curr).pid
      let s1 := (List.range' 2 (NPROC - 2)).foldl
        (fun st i =>
          if (pcbD st i).pid = cp then st
          else if ¬ ((pcbD st i).state = UNUSED ∨ (pcbD st i).state = KILLED) ∧
                  cp = (pcbD st i).ppid then
            let st1 := updP st i (fun q => { q with signals := q.signals ||| (1 <<< sg) })
            if (pcbD st1 i).state = SLEEP then
              pushReady (updP (eraseWait st1 i) i (fun q => { q with state := READY })) i
            else st1
          else st) s
      some (s1, 0)
    else
      match get_process s pid with
      | none => some (s, -1)
      | some t =>
        let s1 := updP s t (fun q => { q with signals := q.signals ||| (1 <<< sg) })
        if (pcbD s1 t).state = SLEEP then
          some (pushReady (updP (eraseWait s1 t) t (fun q => { q with state := READY })) t, 0)
        else some (s1, 0)

/-- `get_inode_entry(dir_entry_index)` (file.c:209): populate the positional
inode-cache slot if free, then take a reference. -/
def get_inode_entry (s : KState) (d : Nat) : Option KState := do
  let ino ← s.itable.get? d
  let ino1 := if ino.ref_count = 0 then { dir_index := d, ref_count := ino.ref_count } else ino
  some { s with itable := s.itable.set d { ino1 with ref_count := ino1.ref_count + 1 } }

/-- `open_file(process, path)` (file.c:229) for the current process.  The
FAT16 directory search (`search_file`) reads the disk, which is outside this
subsystem; its result is the `searchRes` input (`none` = not found). -/
def open_file (s : KState) (searchRes : Option Nat) : Option (KState × Int) :=
  let p := pcbD s s.curr
  match (List.range MAX_OPEN_FILES).find? (fun k => p.fd_table.getD k none == none) with
  | none => some (s, -1)
  | some fd =>
    match (List.range NFILE).find? (fun e => (s.gft.getD e ⟨none, 0⟩).inode == none) with
    | none => some (s, -1)
    | some e =>
      match searchRes with
      | none => some (s, -1)
      | some d => do
        let s1 ← get_inode_entry s d
        let s2 := { s1 with gft := s1.gft.set e { inode := some d, ref_count := 1 } }
        let s3 := updP s2 s.curr (fun q => { q with fd_table := q.fd_table.set fd (some e) })
        some (s3, (fd : Int))

/-- `close_file(process, fd)` (file.c:280) for the current process: a
negative fd returns immediately; any other fd is dereferenced without
validation — an out-of-range fd or a NULL `fd_table` slot faults, and
`inode_put`'s ASSERT halts the kernel on a non-positive inode count. -/
def close_file (s : KState) (fd : Int) : Option KState :=
  if fd < 0 then some s
  else do
    let p := pcbD s s.curr
    let o ← p.fd_table.get? fd.toNat
    let e ← o
    let fe ← s.gft.get? e
    let j ← fe.inode
    let ino ← s.itable.get? j
    if ino.ref_count ≤ 0 then none
    else
      let s1 := { s with itable := s.itable.set j { ino with ref_count := ino.ref_count - 1 } }
      let fe' : FileEntry := { fe with ref_count := fe.ref_count - 1 }
      let s2 := { s1 with gft := s1.gft.set e fe' }
      if fe'.ref_count = 0 then
        some (updP { s2 with gft := s2.gft.set e { fe' with inode := none } }
          s.curr (fun q => { q with fd_table := q.fd_table.set fd.toNat none }))
      else some s2

/-- Slot 0 as set up by `init_idle_process` (process.c:89): RUNNING, pid 0,
daemon, page map from the boot GDT, `reg_context` never assigned. -/
def idlePCB : PCB :=
  { blankPCB with state := RUNNING, pid := 0, daemon := true, pageMapAlloc := true }

/-- Slot 1 as set up by `init_user_process` (process.c:104). -/
def initPCB : PCB :=
  { blankPCB with
    state := READY, pid := 1, ppid := 0, daemon := true,
    stackAlloc := true, pageMapAlloc := true, regContext := some { x0 := 0, x5 := 0 } }

/-- The state after `init_process()` (process.c:122): the idle process in
slot 0 and the init process in slot 1, init on the ready queue, the pid
counter at 2 and the freshly zeroed file and inode tables. -/
def init_state : KState :=
  { ptable := idlePCB :: initPCB :: List.replicate (NPROC - 2) blankPCB,
    readyQue := [1], waitList := [], zombies := [], curr := 0, fg := none,
    pidNum := 2, shutdown := false,
    gft := List.replicate NFILE { inode := none, ref_count := 0 },
    itable := List.replicate NINODE { dir_index := 0, ref_count := 0 } }

/-- One kernel operation, as triggered by a syscall of the current process,
a timer tick, or an external wakeup event.  `fork`'s `copy_uvm` outcome and
`open`'s directory-search outcome are inputs.  A syscall step carries the
side condition `s.curr ≠ 0`: syscalls are issued by the trapped user process,
and the idle process (slot 0) never leaves kernel mode. -/
inductive Step : KState → KState → Prop
  | fork (s : KState) (ok : Bool) (s' : KState) (r : Int) :
      s.curr ≠ 0 → fork s ok = some (s', r) → Step s s'
  | openf (s : KState) (sr : Option Nat) (s' : KState) (r : Int) :
      s.curr ≠ 0 → open_file s sr = some (s', r) → Step s s'
  | closef (s : KState) (fd : Int) (s' : KState) :
      s.curr ≠ 0 → close_file s fd = some s' → Step s s'
  | exit (s : KState) (st : Nat) (s' : KState) :
      s.curr ≠ 0 → exit s s.curr st false = some s' → Step s s'
  | wait (s : KState) (pid : Int) (opts : Nat) (s' : KState) (r : WRes) :
      s.curr ≠ 0 → wait s pid opts = some (s', r) → Step s s'
  | kill (s : KState) (pid sig : Int) (s' : KState) (r : Int) :
      s.curr ≠ 0 → kill s pid sig = some (s', r) → Step s s'
  | trigger (s : KState) (s' : KState) :
      trigger_scheduler s = some s' → Step s s'
  | sleep (s : KState) (e : Int) (s' : KState) :
      s.curr ≠ 0 → sleepOn s e = some s' → Step s s'
  | wake (s : KState) (e : Int) : Step s (wake_up s e)

/-- States reachable from boot by any sequence of kernel operations. -/
inductive Reach : KState → Prop
  | init : Reach init_state
  | step {s s' : KState} : Reach s → Step s s' → Reach s'

/-- Like `Step`, but excluding the `kill(-1, SIGHUP)` broadcast (the only
operation that resets the monotonic pid counter and releases zombies by the
diagonal walk). -/
inductive StepNH : KState → KState → Prop
  | fork (s : KState) (ok : Bool) (s' : KState) (r : Int) :
      s.curr ≠ 0 → fork s ok = some (s', r) → StepNH s s'
  | openf (s : KState) (sr : Option Nat) (s' : KState) (r : Int) :
      s.curr ≠ 0 → open_file s sr = some (s', r) → StepNH s s'
  | closef (s : KState) (fd : Int) (s' : KState) :
      s.curr ≠ 0 → close_file s fd = some s' → StepNH s s'
  | exit (s : KState) (st : Nat) (s' : KState) :
      s.curr ≠ 0 → exit s s.curr st false = some s' → StepNH s s'
  | wait (s : KState) (pid : Int) (opts : Nat) (s' : KState) (r : WRes) :
      s.curr ≠ 0 → wait s pid opts = some (s', r) → StepNH s s'
  | kill (s : KState) (pid sig : Int) (s' : KState) (r : Int) :
      s.curr ≠ 0 → pid ≠ -1 ∨ sig ≠ (SIGHUP : Int) →
      kill s pid sig = some (s', r) → StepNH s s'
  | trigger (s : KState) (s' : KState) :
      trigger_scheduler s = some s' → StepNH s s'
  | sleep (s : KState) (e : Int) (s' : KState) :
      s.curr ≠ 0 → sleepOn s e = some s' → StepNH s s'
  | wake (s : KState) (e : Int) : StepNH s (wake_up s e)

/-- States reachable from boot without any `kill(-1, SIGHUP)` broadcast. -/
inductive ReachNH : KState → Prop
  | init : ReachNH init_state
  | step {s s' : KState} : ReachNH s → StepNH s s' → ReachNH s'

/-- Every restricted step is a step. -/
lemma StepNH.toStep {s s' : KState} (h : StepNH s s') : Step s s' := by
  cases h with
  | fork ok s' r hc he => exact Step.fork _ ok _ r hc he
  | openf sr s' r hc he => exact Step.openf _ sr _ r hc he
  | closef fd s' hc he => exact Step.closef _ fd _ hc he
  | exit st s' hc he => exact Step.exit _ st _ hc he
  | wait pid opts s' r hc he => exact Step.wait _ pid opts _ r hc he
  | kill pid sig s' r hc hn he => exact Step.kill _ pid sig _ r hc he
  | trigger s' he => exact Step.trigger _ _ he
  | sleep e s' hc he => exact Step.sleep _ e _ hc he
  | wake e => exact Step.wake _ e

lemma ReachNH.toReach {s : KState} (h : ReachNH s) : Reach s := by
  induction h with
  | init => exact Reach.init
  | step _ hst ih => exact Reach.step ih hst.toStep

/-!  ## Basic lemmas about the state primitives -/

@[simp] lemma updP_length (s : KState) (i : Nat) (f : PCB → PCB) :
    (updP s i f).ptable.length = s.ptable.length := by
  simp [updP]

lemma pcbD_updP (s : KState) (i : Nat) (f : PCB → PCB) (j : Nat) :
    pcbD (updP s i f) j =
      if j = i ∧ i < s.ptable.length then f (pcbD s i) else pcbD s j := by
  by_cases hj : j = i
  · subst hj
    by_cases hi : j < s.ptable.length
    · simp [pcbD, updP, List.getD_eq_getElem?_getD, List.getElem?_set, hi]
    · simp [pcbD, updP, List.set_eq_of_length_le (Nat.le_of_not_lt hi), hi]
  · simp [pcbD, updP, List.getD_eq_getElem?_getD, List.getElem?_set_ne (Ne.symm hj), hj]

lemma pcbD_updP_self (s : KState) (i : Nat) (f : PCB → PCB) (hi : i < s.ptable.length) :
    pcbD (updP s i f) i = f (pcbD s i) := by
  simp [pcbD_updP, hi]

lemma pcbD_updP_other (s : KState) (i : Nat) (f : PCB → PCB) (j : Nat) (hj : j ≠ i) :
    pcbD (updP s i f) j = pcbD s j := by
  simp [pcbD_updP, hj]

@[simp] lemma updP_readyQue (s : KState) (i : Nat) (f : PCB → PCB) :
    (updP s i f).readyQue = s.readyQue := rfl

@[simp] lemma updP_waitList (s : KState) (i : Nat) (f : PCB → PCB) :
    (updP s i f).waitList = s.waitList := rfl

@[simp] lemma updP_zombies (s : KState) (i : Nat) (f : PCB → PCB) :
    (updP s i f).zombies = s.zombies := rfl

@[simp] lemma updP_curr (s : KState) (i : Nat) (f : PCB → PCB) :
    (updP s i f).curr = s.curr := rfl

@[simp] lemma updP_fg (s : KState) (i : Nat) (f : PCB → PCB) :
    (updP s i f).fg = s.fg := rfl

@[simp] lemma updP_pidNum (s : KState) (i : Nat) (f : PCB → PCB) :
    (updP s i f).pidNum = s.pidNum := rfl

@[simp] lemma updP_shutdown (s : KState) (i : Nat) (f : PCB → PCB) :
    (updP s i f).shutdown = s.shutdown := rfl

@[simp] lemma updP_gft (s : KState) (i : Nat) (f : PCB → PCB) :
    (updP s i f).gft = s.gft := rfl

@[simp] lemma updP_itable (s : KState) (i : Nat) (f : PCB → PCB) :
    (updP s i f).itable = s.itable := rfl

lemma pcbD_congr {s t : KState} (h : s.ptable = t.ptable) (i : Nat) :
    pcbD s i = pcbD t i := by
  simp [pcbD, h]

@[simp] lemma pcbD_pushReady (s : KState) (x : Nat) (i : Nat) :
    pcbD (pushReady s x) i = pcbD s i := rfl
@[simp] lemma pushReady_readyQue (s : KState) (x : Nat) :
    (pushReady s x).readyQue = s.readyQue ++ [x] := rfl
@[simp] lemma pushReady_waitList (s : KState) (x : Nat) :
    (pushReady s x).waitList = s.waitList := rfl
@[simp] lemma pushReady_zombies (s : KState) (x : Nat) :
    (pushReady s x).zombies = s.zombies := rfl
@[simp] lemma pushReady_curr (s : KState) (x : Nat) : (pushReady s x).curr = s.curr := rfl
@[simp] lemma pushReady_fg (s : KState) (x : Nat) : (pushReady s x).fg = s.fg := rfl
@[simp] lemma pushReady_pidNum (s : KState) (x : Nat) :
    (pushReady s x).pidNum = s.pidNum := rfl
@[simp] lemma pushReady_shutdown (s : KState) (x : Nat) :
    (pushReady s x).shutdown = s.shutdown := rfl
@[simp] lemma pushReady_gft (s : KState) (x : Nat) : (pushReady s x).gft = s.gft := rfl
@[simp] lemma pushReady_itable (s : KState) (x : Nat) :
    (pushReady s x).itable = s.itable := rfl
@[simp] lemma pushReady_ptable (s : KState) (x : Nat) :
    (pushReady s x).ptable = s.ptable := rfl

@[simp] lemma pcbD_pushWait (s : KState) (x : Nat) (i : Nat) :
    pcbD (pushWait s x) i = pcbD s i := rfl
@[simp] lemma pushWait_readyQue (s : KState) (x : Nat) :
    (pushWait s x).readyQue = s.readyQue := rfl
@[simp] lemma pushWait_waitList (s : KState) (x : Nat) :
    (pushWait s x).waitList = s.waitList ++ [x] := rfl
@[simp] lemma pushWait_zombies (s : KState) (x : Nat) :
    (pushWait s x).zombies = s.zombies := rfl
@[simp] lemma pushWait_curr (s : KState) (x : Nat) : (pushWait s x).curr = s.curr := rfl
@[simp] lemma pushWait_fg (s : KState) (x : Nat) : (pushWait s x).fg = s.fg := rfl
@[simp] lemma pushWait_pidNum (s : KState) (x : Nat) :
    (pushWait s x).pidNum = s.pidNum := rfl
@[simp] lemma pushWait_shutdown (s : KState) (x : Nat) :
    (pushWait s x).shutdown = s.shutdown := rfl
@[simp] lemma pushWait_gft (s : KState) (x : Nat) : (pushWait s x).gft = s.gft := rfl
@[simp] lemma pushWait_itable (s : KState) (x : Nat) :
    (pushWait s x).itable = s.itable := rfl
@[simp] lemma pushWait_ptable (s : KState) (x : Nat) :
    (pushWait s x).ptable = s.ptable := rfl

@[simp] lemma pcbD_pushZombie (s : KState) (x : Nat) (i : Nat) :
    pcbD (pushZombie s x) i = pcbD s i := rfl
@[simp] lemma pushZombie_readyQue (s : KState) (x : Nat) :
    (pushZombie s x).readyQue = s.readyQue := rfl
@[simp] lemma pushZombie_waitList (s : KState) (x : Nat) :
    (pushZombie s x).waitList = s.waitList := rfl
@[simp] lemma pushZombie_zombies (s : KState) (x : Nat) :
    (pushZombie s x).zombies = s.zombies ++ [x] := rfl
@[simp] lemma pushZombie_curr (s : KState) (x : Nat) : (pushZombie s x).curr = s.curr := rfl
@[simp] lemma pushZombie_fg (s : KState) (x : Nat) : (pushZombie s x).fg = s.fg := rfl
@[simp] lemma pushZombie_pidNum (s : KState) (x : Nat) :
    (pushZombie s x).pidNum = s.pidNum := rfl
@[simp] lemma pushZombie_shutdown (s : KState) (x : Nat) :
    (pushZombie s x).shutdown = s.shutdown := rfl
@[simp] lemma pushZombie_gft (s : KState) (x : Nat) : (pushZombie s x).gft = s.gft := rfl
@[simp] lemma pushZombie_itable (s : KState) (x : Nat) :
    (pushZombie s x).itable = s.itable := rfl
@[simp] lemma pushZombie_ptable (s : KState) (x : Nat) :
    (pushZombie s x).ptable = s.ptable := rfl

@[simp] lemma pcbD_eraseReady (s : KState) (x : Nat) (i : Nat) :
    pcbD (eraseReady s x) i = pcbD s i := rfl
@[simp] lemma eraseReady_readyQue (s : KState) (x : Nat) :
    (eraseReady s x).readyQue = s.readyQue.erase x := rfl
@[simp] lemma eraseReady_waitList (s : KState) (x : Nat) :
    (eraseReady s x).waitList = s.waitList := rfl
@[simp] lemma eraseReady_zombies (s : KState) (x : Nat) :
    (eraseReady s x).zombies = s.zombies := rfl
@[simp] lemma eraseReady_curr (s : KState) (x : Nat) : (eraseReady s x).curr = s.curr := rfl
@[simp] lemma eraseReady_fg (s : KState) (x : Nat) : (eraseReady s x).fg = s.fg := rfl
@[simp] lemma eraseReady_pidNum (s : KState) (x : Nat) :
    (eraseReady s x).pidNum = s.pidNum := rfl
@[simp] lemma eraseReady_shutdown (s : KState) (x : Nat) :
    (eraseReady s x).shutdown = s.shutdown := rfl
@[simp] lemma eraseReady_gft (s : KState) (x : Nat) : (eraseReady s x).gft = s.gft := rfl
@[simp] lemma eraseReady_itable (s : KState) (x : Nat) :
    (eraseReady s x).itable = s.itable := rfl
@[simp] lemma eraseReady_ptable (s : KState) (x : Nat) :
    (eraseReady s x).ptable = s.ptable := rfl

@[simp] lemma pcbD_eraseWait (s : KState) (x : Nat) (i : Nat) :
    pcbD (eraseWait s x) i = pcbD s i := rfl
@[simp] lemma eraseWait_readyQue (s : KState) (x : Nat) :
    (eraseWait s x).readyQue = s.readyQue := rfl
@[simp] lemma eraseWait_waitList (s : KState) (x : Nat) :
    (eraseWait s x).waitList = s.waitList.erase x := rfl
@[simp] lemma eraseWait_zombies (s : KState) (x : Nat) :
    (eraseWait s x).zombies = s.zombies := rfl
@[simp] lemma eraseWait_curr (s : KState) (x : Nat) : (eraseWait s x).curr = s.curr := rfl
@[simp] lemma eraseWait_fg (s : KState) (x : Nat) : (eraseWait s x).fg = s.fg := rfl
@[simp] lemma eraseWait_pidNum (s : KState) (x : Nat) :
    (eraseWait s x).pidNum = s.pidNum := rfl
@[simp] lemma eraseWait_shutdown (s : KState) (x : Nat) :
    (eraseWait s x).shutdown = s.shutdown := rfl
@[simp] lemma eraseWait_gft (s : KState) (x : Nat) : (eraseWait s x).gft = s.gft := rfl
@[simp] lemma eraseWait_itable (s : KState) (x : Nat) :
    (eraseWait s x).itable = s.itable := rfl
@[simp] lemma eraseWait_ptable (s : KState) (x : Nat) :
    (eraseWait s x).ptable = s.ptable := rfl

@[simp] lemma pcbD_setReady (s : KState) (l : List Nat) (i : Nat) :
    pcbD (setReady s l) i = pcbD s i := rfl
@[simp] lemma setReady_readyQue (s : KState) (l : List Nat) :
    (setReady s l).readyQue = l := rfl
@[simp] lemma setReady_waitList (s : KState) (l : List Nat) :
    (setReady s l).waitList = s.waitList := rfl
@[simp] lemma setReady_zombies (s : KState) (l : List Nat) :
    (setReady s l).zombies = s.zombies := rfl
@[simp] lemma setReady_curr (s : KState) (l : List Nat) : (setReady s l).curr = s.curr := rfl
@[simp] lemma setReady_fg (s : KState) (l : List Nat) : (setReady s l).fg = s.fg := rfl
@[simp] lemma setReady_pidNum (s : KState) (l : List Nat) :
    (setReady s l).pidNum = s.pidNum := rfl
@[simp] lemma setReady_shutdown (s : KState) (l : List Nat) :
    (setReady s l).shutdown = s.shutdown := rfl
@[simp] lemma setReady_gft (s : KState) (l : List Nat) : (setReady s l).gft = s.gft := rfl
@[simp] lemma setReady_itable (s : KState) (l : List Nat) :
    (setReady s l).itable = s.itable := rfl
@[simp] lemma setReady_ptable (s : KState) (l : List Nat) :
    (setReady s l).ptable = s.ptable := rfl

@[simp] lemma pcbD_setWait (s : KState) (l : List Nat) (i : Nat) :
    pcbD (setWait s l) i = pcbD s i := rfl
@[simp] lemma setWait_readyQue (s : KState) (l : List Nat) :
    (setWait s l).readyQue = s.readyQue := rfl
@[simp] lemma setWait_waitList (s : KState) (l : List Nat) :
    (setWait s l).waitList = l := rfl
@[simp] lemma setWait_zombies (s : KState) (l : List Nat) :
    (setWait s l).zombies = s.zombies := rfl
@[simp] lemma setWait_curr (s : KState) (l : List Nat) : (setWait s l).curr = s.curr := rfl
@[simp] lemma setWait_fg (s : KState) (l : List Nat) : (setWait s l).fg = s.fg := rfl
@[simp] lemma setWait_pidNum (s : KState) (l : List Nat) :
    (setWait s l).pidNum = s.pidNum := rfl
@[simp] lemma setWait_shutdown (s : KState) (l : List Nat) :
    (setWait s l).shutdown = s.shutdown := rfl
@[simp] lemma setWait_gft (s : KState) (l : List Nat) : (setWait s l).gft = s.gft := rfl
@[simp] lemma setWait_itable (s : KState) (l : List Nat) :
    (setWait s l).itable = s.itable := rfl
@[simp] lemma setWait_ptable (s : KState) (l : List Nat) :
    (setWait s l).ptable = s.ptable := rfl

@[simp] lemma pcbD_setZombies (s : KState) (l : List Nat) (i : Nat) :
    pcbD (setZombies s l) i = pcbD s i := rfl
@[simp] lemma setZombies_readyQue (s : KState) (l : List Nat) :
    (setZombies s l).readyQue = s.readyQue := rfl
@[simp] lemma setZombies_waitList (s : KState) (l : List Nat) :
    (setZombies s l).waitList = s.waitList := rfl
@[simp] lemma setZombies_zombies (s : KState) (l : List Nat) :
    (setZombies s l).zombies = l := rfl
@[simp] lemma setZombies_curr (s : KState) (l : List Nat) :
    (setZombies s l).curr = s.curr := rfl
@[simp] lemma setZombies_fg (s : KState) (l : List Nat) : (setZombies s l).fg = s.fg := rfl
@[simp] lemma setZombies_pidNum (s : KState) (l : List Nat) :
    (setZombies s l).pidNum = s.pidNum := rfl
@[simp] lemma setZombies_shutdown (s : KState) (l : List Nat) :
    (setZombies s l).shutdown = s.shutdown := rfl
@[simp] lemma setZombies_gft (s : KState) (l : List Nat) :
    (setZombies s l).gft = s.gft := rfl
@[simp] lemma setZombies_itable (s : KState) (l : List Nat) :
    (setZombies s l).itable = s.itable := rfl
@[simp] lemma setZombies_ptable (s : KState) (l : List Nat) :
    (setZombies s l).ptable = s.ptable := rfl

@[simp] lemma pcbD_appendReady (s : KState) (l : List Nat) (i : Nat) :
    pcbD (appendReady s l) i = pcbD s i := rfl
@[simp] lemma appendReady_readyQue (s : KState) (l : List Nat) :
    (appendReady s l).readyQue = s.readyQue ++ l := rfl
@[simp] lemma appendReady_waitList (s : KState) (l : List Nat) :
    (appendReady s l).waitList = s.waitList := rfl
@[simp] lemma appendReady_zombies (s : KState) (l : List Nat) :
    (appendReady s l).zombies = s.zombies := rfl
@[simp] lemma appendReady_curr (s : KState) (l : List Nat) :
    (appendReady s l).curr = s.curr := rfl
@[simp] lemma appendReady_fg (s : KState) (l : List Nat) : (appendReady s l).fg = s.fg := rfl
@[simp] lemma appendReady_pidNum (s : KState) (l : List Nat) :
    (appendReady s l).pidNum = s.pidNum := rfl
@[simp] lemma appendReady_shutdown (s : KState) (l : List Nat) :
    (appendReady s l).shutdown = s.shutdown := rfl
@[simp] lemma appendReady_gft (s : KState) (l : List Nat) :
    (appendReady s l).gft = s.gft := rfl
@[simp] lemma appendReady_itable (s : KState) (l : List Nat) :
    (appendReady s l).itable = s.itable := rfl
@[simp] lemma appendReady_ptable (s : KState) (l : List Nat) :
    (appendReady s l).ptable = s.ptable := rfl

@[simp] lemma pcbD_setCurr (s : KState) (n : Nat) (i : Nat) :
    pcbD (setCurr s n) i = pcbD s i := rfl
@[simp] lemma setCurr_readyQue (s : KState) (n : Nat) :
    (setCurr s n).readyQue = s.readyQue := rfl
@[simp] lemma setCurr_waitList (s : KState) (n : Nat) :
    (setCurr s n).waitList = s.waitList := rfl
@[simp] lemma setCurr_zombies (s : KState) (n : Nat) :
    (setCurr s n).zombies = s.zombies := rfl
@[simp] lemma setCurr_curr (s : KState) (n : Nat) : (setCurr s n).curr = n := rfl
@[simp] lemma setCurr_fg (s : KState) (n : Nat) : (setCurr s n).fg = s.fg := rfl
@[simp] lemma setCurr_pidNum (s : KState) (n : Nat) : (setCurr s n).pidNum = s.pidNum := rfl
@[simp] lemma setCurr_shutdown (s : KState) (n : Nat) :
    (setCurr s n).shutdown = s.shutdown := rfl
@[simp] lemma setCurr_gft (s : KState) (n : Nat) : (setCurr s n).gft = s.gft := rfl
@[simp] lemma setCurr_itable (s : KState) (n : Nat) : (setCurr s n).itable = s.itable := rfl
@[simp] lemma setCurr_ptable (s : KState) (n : Nat) : (setCurr s n).ptable = s.ptable := rfl

@[simp] lemma pcbD_set_shutdown (s : KState) (i : Nat) :
    pcbD (set_shutdown s) i = pcbD s i := rfl
@[simp] lemma set_shutdown_readyQue (s : KState) :
    (set_shutdown s).readyQue = s.readyQue := rfl
@[simp] lemma set_shutdown_waitList (s : KState) :
    (set_shutdown s).waitList = s.waitList := rfl
@[simp] lemma set_shutdown_zombies (s : KState) :
    (set_shutdown s).zombies = s.zombies := rfl
@[simp] lemma set_shutdown_curr (s : KState) : (set_shutdown s).curr = s.curr := rfl
@[simp] lemma set_shutdown_fg (s : KState) : (set_shutdown s).fg = s.fg := rfl
@[simp] lemma set_shutdown_pidNum (s : KState) : (set_shutdown s).pidNum = s.pidNum := rfl
@[simp] lemma set_shutdown_shutdown (s : KState) : (set_shutdown s).shutdown = true := rfl
@[simp] lemma set_shutdown_gft (s : KState) : (set_shutdown s).gft = s.gft := rfl
@[simp] lemma set_shutdown_itable (s : KState) : (set_shutdown s).itable = s.itable := rfl
@[simp] lemma set_shutdown_ptable (s : KState) : (set_shutdown s).ptable = s.ptable := rfl

@[simp] lemma pcbD_claim_fg (s : KState) (n : Nat) (i : Nat) :
    pcbD (claim_fg s n) i = pcbD s i := by
  unfold claim_fg; split <;> rfl
@[simp] lemma claim_fg_readyQue (s : KState) (n : Nat) :
    (claim_fg s n).readyQue = s.readyQue := by
  unfold claim_fg; split <;> rfl
@[simp] lemma claim_fg_waitList (s : KState) (n : Nat) :
    (claim_fg s n).waitList = s.waitList := by
  unfold claim_fg; split <;> rfl
@[simp] lemma claim_fg_zombies (s : KState) (n : Nat) :
    (claim_fg s n).zombies = s.zombies := by
  unfold claim_fg; split <;> rfl
@[simp] lemma claim_fg_curr (s : KState) (n : Nat) : (claim_fg s n).curr = s.curr := by
  unfold claim_fg; split <;> rfl
@[simp] lemma claim_fg_pidNum (s : KState) (n : Nat) : (claim_fg s n).pidNum = s.pidNum := by
  unfold claim_fg; split <;> rfl
@[simp] lemma claim_fg_shutdown (s : KState) (n : Nat) :
    (claim_fg s n).shutdown = s.shutdown := by
  unfold claim_fg; split <;> rfl
@[simp] lemma claim_fg_gft (s : KState) (n : Nat) : (claim_fg s n).gft = s.gft := by
  unfold claim_fg; split <;> rfl
@[simp] lemma claim_fg_itable (s : KState) (n : Nat) : (claim_fg s n).itable = s.itable := by
  unfold claim_fg; split <;> rfl
@[simp] lemma claim_fg_ptable (s : KState) (n : Nat) : (claim_fg s n).ptable = s.ptable := by
  unfold claim_fg; split <;> rfl

@[simp] lemma resume_mark_readyQue (s : KState) :
    (resume_mark s).readyQue = s.readyQue := by
  unfold resume_mark
  dsimp only
  split
  · rcases (pcbD s s.curr).regContext with _ | fr <;> rfl
  · rfl
@[simp] lemma resume_mark_waitList (s : KState) :
    (resume_mark s).waitList = s.waitList := by
  unfold resume_mark
  dsimp only
  split
  · rcases (pcbD s s.curr).regContext with _ | fr <;> rfl
  · rfl
@[simp] lemma resume_mark_zombies (s : KState) :
    (resume_mark s).zombies = s.zombies := by
  unfold resume_mark
  dsimp only
  split
  · rcases (pcbD s s.curr).regContext with _ | fr <;> rfl
  · rfl
@[simp] lemma resume_mark_curr (s : KState) : (resume_mark s).curr = s.curr := by
  unfold resume_mark
  dsimp only
  split
  · rcases (pcbD s s.curr).regContext with _ | fr <;> rfl
  · rfl
@[simp] lemma resume_mark_fg (s : KState) : (resume_mark s).fg = s.fg := by
  unfold resume_mark
  dsimp only
  split
  · rcases (pcbD s s.curr).regContext with _ | fr <;> rfl
  · rfl
@[simp] lemma resume_mark_pidNum (s : KState) : (resume_mark s).pidNum = s.pidNum := by
  unfold resume_mark
  dsimp only
  split
  · rcases (pcbD s s.curr).regContext with _ | fr <;> rfl
  · rfl
@[simp] lemma resume_mark_shutdown (s : KState) :
    (resume_mark s).shutdown = s.shutdown := by
  unfold resume_mark
  dsimp only
  split
  · rcases (pcbD s s.curr).regContext with _ | fr <;> rfl
  · rfl
@[simp] lemma resume_mark_gft (s : KState) : (resume_mark s).gft = s.gft := by
  unfold resume_mark
  dsimp only
  split
  · rcases (pcbD s s.curr).regContext with _ | fr <;> rfl
  · rfl
@[simp] lemma resume_mark_itable (s : KState) : (resume_mark s).itable = s.itable := by
  unfold resume_mark
  dsimp only
  split
  · rcases (pcbD s s.curr).regContext with _ | fr <;> rfl
  · rfl

@[simp] lemma fg_yield_ptable (s : KState) (p : Int) : (fg_yield s p).ptable = s.ptable := by
  unfold fg_yield
  rcases s.fg with _ | f
  · rfl
  · dsimp only
    split <;> rfl

@[simp] lemma fg_yield_pidNum (s : KState) (p : Int) : (fg_yield s p).pidNum = s.pidNum := by
  unfold fg_yield
  rcases s.fg with _ | f
  · rfl
  · dsimp only
    split <;> rfl

@[simp] lemma fg_yield_readyQue (s : KState) (p : Int) :
    (fg_yield s p).readyQue = s.readyQue := by
  unfold fg_yield
  rcases s.fg with _ | f
  · rfl
  · dsimp only
    split <;> rfl

@[simp] lemma fg_yield_waitList (s : KState) (p : Int) :
    (fg_yield s p).waitList = s.waitList := by
  unfold fg_yield
  rcases s.fg with _ | f
  · rfl
  · dsimp only
    split <;> rfl

@[simp] lemma fg_yield_zombies (s : KState) (p : Int) :
    (fg_yield s p).zombies = s.zombies := by
  unfold fg_yield
  rcases s.fg with _ | f
  · rfl
  · dsimp only
    split <;> rfl

@[simp] lemma fg_yield_curr (s : KState) (p : Int) : (fg_yield s p).curr = s.curr := by
  unfold fg_yield
  rcases s.fg with _ | f
  · rfl
  · dsimp only
    split <;> rfl

@[simp] lemma fg_yield_gft (s : KState) (p : Int) : (fg_yield s p).gft = s.gft := by
  unfold fg_yield
  rcases s.fg with _ | f
  · rfl
  · dsimp only
    split <;> rfl

@[simp] lemma fg_yield_itable (s : KState) (p : Int) : (fg_yield s p).itable = s.itable := by
  unfold fg_yield
  rcases s.fg with _ | f
  · rfl
  · dsimp only
    split <;> rfl

@[simp] lemma fg_yield_shutdown (s : KState) (p : Int) :
    (fg_yield s p).shutdown = s.shutdown := by
  unfold fg_yield
  rcases s.fg with _ | f
  · rfl
  · dsimp only
    split <;> rfl

@[simp] lemma fg_handover_ptable (s : KState) (p : Int) (π : Option Nat) :
    (fg_handover s p π).ptable = s.ptable := by
  unfold fg_handover
  rcases s.fg with _ | f
  · rfl
  · dsimp only
    split <;> rfl

@[simp] lemma fg_handover_readyQue (s : KState) (p : Int) (π : Option Nat) :
    (fg_handover s p π).readyQue = s.readyQue := by
  unfold fg_handover
  rcases s.fg with _ | f
  · rfl
  · dsimp only
    split <;> rfl

@[simp] lemma fg_handover_waitList (s : KState) (p : Int) (π : Option Nat) :
    (fg_handover s p π).waitList = s.waitList := by
  unfold fg_handover
  rcases s.fg with _ | f
  · rfl
  · dsimp only
    split <;> rfl

@[simp] lemma fg_handover_zombies (s : KState) (p : Int) (π : Option Nat) :
    (fg_handover s p π).zombies = s.zombies := by
  unfold fg_handover
  rcases s.fg with _ | f
  · rfl
  · dsimp only
    split <;> rfl

@[simp] lemma fg_handover_curr (s : KState) (p : Int) (π : Option Nat) :
    (fg_handover s p π).curr = s.curr := by
  unfold fg_handover
  rcases s.fg with _ | f
  · rfl
  · dsimp only
    split <;> rfl

@[simp] lemma fg_handover_pidNum (s : KState) (p : Int) (π : Option Nat) :
    (fg_handover s p π).pidNum = s.pidNum := by
  unfold fg_handover
  rcases s.fg with _ | f
  · rfl
  · dsimp only
    split <;> rfl

@[simp] lemma fg_handover_shutdown (s : KState) (p : Int) (π : Option Nat) :
    (fg_handover s p π).shutdown = s.shutdown := by
  unfold fg_handover
  rcases s.fg with _ | f
  · rfl
  · dsimp only
    split <;> rfl

@[simp] lemma fg_handover_gft (s : KState) (p : Int) (π : Option Nat) :
    (fg_handover s p π).gft = s.gft := by
  unfold fg_handover
  rcases s.fg with _ | f
  · rfl
  · dsimp only
    split <;> rfl

@[simp] lemma fg_handover_itable (s : KState) (p : Int) (π : Option Nat) :
    (fg_handover s p π).itable = s.itable := by
  unfold fg_handover
  rcases s.fg with _ | f
  · rfl
  · dsimp only
    split <;> rfl

@[simp] lemma pcbD_fg_handover (s : KState) (p : Int) (π : Option Nat) (i : Nat) :
    pcbD (fg_handover s p π) i = pcbD s i :=
  pcbD_congr (fg_handover_ptable s p π) i

@[simp] lemma pcbD_fg_yield (s : KState) (p : Int) (i : Nat) :
    pcbD (fg_yield s p) i = pcbD s i :=
  pcbD_congr (fg_yield_ptable s p) i

/-- An invariant preserved by every element step is preserved by `foldl`. -/
lemma foldl_preserve {α : Type} (P : KState → Prop) (f : KState → α → KState) (l : List α)
    (h : ∀ st a, a ∈ l → P st → P (f st a)) :
    ∀ st, P st → P (l.foldl f st) := by
  induction l with
  | nil => intro st hst; simpa using hst
  | cons a t ih =>
    intro st hst
    simp only [List.foldl_cons]
    exact ih (fun st b hb hP => h st b (List.mem_cons_of_mem _ hb) hP) _
      (h st a (List.mem_cons_self _ _) hst)

/-- An invariant preserved by every successful element step is preserved by
`foldlM` over `Option`. -/
lemma foldlM_preserve {α : Type} (P : KState → Prop) (f : KState → α → Option KState)
    (l : List α) (h : ∀ st a st', a ∈ l → P st → f st a = some st' → P st') :
    ∀ st st', P st → l.foldlM f st = some st' → P st' := by
  induction l with
  | nil =>
    intro st st' hst heq
    simp only [List.foldlM_nil, Option.pure_def, Option.some.injEq] at heq
    exact heq ▸ hst
  | cons a t ih =>
    intro st st' hst heq
    simp only [List.foldlM_cons] at heq
    rcases Option.bind_eq_some.mp heq with ⟨st1, h1, h2⟩
    exact ih (fun st b st' hb => h st b st' (List.mem_cons_of_mem _ hb)) st1 st'
      (h st a st1 (List.mem_cons_self _ _) hst h1) h2

lemma get_process_spec (s : KState) (pid : Int) (π : Nat) (h : get_process s pid = some π) :
    π < s.ptable.length ∧ 1 ≤ π ∧ π < NPROC ∧
    (pcbD s π).state ≠ UNUSED ∧ (pcbD s π).pid = pid := by
  have hp := List.find?_some h
  have hm := List.mem_of_find?_eq_some h
  rw [List.mem_range'] at hm
  simp only [Bool.and_eq_true, bne_iff_ne, ne_eq, beq_iff_eq] at hp
  refine ⟨?_, by omega, by omega, hp.1, hp.2⟩
  by_contra hlen
  have : pcbD s π = blankPCB := by
    simp [pcbD, List.getD_eq_getElem?_getD, List.getElem?_eq_none (Nat.le_of_not_lt hlen)]
  rw [this] at hp
  exact hp.1 rfl

/-!  ## Concrete trace states shared by several claims

Each is obtained from the previous by one kernel operation, so all are
reachable (without any `kill(-1, SIGHUP)`, except where noted). -/

/-- Run an optional kernel operation, keeping the state on fault (never hit
on these traces). -/
def stepD (f : KState → Option KState) (s : KState) : KState := (f s).getD s

/-- Run an optional kernel operation returning a value as well. -/
def stepD2 {α : Type} (f : KState → Option (KState × α)) (s : KState) : KState :=
  ((f s).map Prod.fst).getD s

/-- Boot, then one timer tick: init (slot 1, pid 1) is the running process. -/
def sInit : KState := stepD trigger_scheduler init_state

/-- ... init opens the file at root-directory index 0 (gets fd 0). -/
def sOpen : KState := stepD2 (fun s => open_file s (some 0)) sInit

/-- ... init forks a child (slot 2, pid 2) sharing the open file. -/
def sFork : KState := stepD2 (fun s => fork s true) sOpen

/-- ... init broadcasts `kill(-1, SIGHUP)`, resetting the pid counter to 2. -/
def sHup : KState := stepD2 (fun s => kill s (-1) 1) sFork

/-- ... init forks again: the new child (slot 3) gets pid 2 again. -/
def sFork2 : KState := stepD2 (fun s => fork s true) sHup

lemma reach_sInit : Reach sInit :=
  Reach.step Reach.init (Step.trigger _ _ (by decide))

lemma reach_sOpen : Reach sOpen :=
  Reach.step reach_sInit (Step.openf _ (some 0) _ 0 (by decide) (by decide))

lemma reach_sFork : Reach sFork :=
  Reach.step reach_sOpen (Step.fork _ true _ 2 (by decide) (by decide))

lemma reach_sHup : Reach sHup :=
  Reach.step reach_sFork (Step.kill _ (-1) 1 _ 0 (by decide) (by decide))

lemma reach_sFork2 : Reach sFork2 :=
  Reach.step reach_sHup (Step.fork _ true _ 2 (by decide) (by decide))

/-- From `sFork`, a timer tick: the child (slot 2, pid 2) is dispatched. -/
def sMid : KState := stepD trigger_scheduler sFork

/-- ... the child forks a grandchild (slot 3, pid 3, ppid 2). -/
def sGrand : KState := stepD2 (fun s => fork s true) sMid

/-- ... another tick: init (slot 1, pid 1) runs again, with the grandchild
(pid 3, a child of pid 2, not of init) alive in the table. -/
def sBack : KState := stepD trigger_scheduler sGrand

lemma reach_sMid : Reach sMid :=
  Reach.step reach_sFork (Step.trigger _ _ (by decide))

lemma reach_sGrand : Reach sGrand :=
  Reach.step reach_sMid (Step.fork _ true _ 3 (by decide) (by decide))

lemma reach_sBack : Reach sBack :=
  Reach.step reach_sGrand (Step.trigger _ _ (by decide))

/-- From `sInit`: init forks a shell A (slot 2, pid 2). -/
def uForkA : KState := stepD2 (fun s => fork s true) sInit

/-- ... a tick dispatches A. -/
def uRunA : KState := stepD trigger_scheduler uForkA

/-- ... A opens the file at root-directory index 0 (fd 0, entry 0, inode 0). -/
def uOpenA : KState := stepD2 (fun s => open_file s (some 0)) uRunA

/-- ... A forks B (slot 3, pid 3), sharing the open file: entry 0 and inode 0
both at ref_count 2. -/
def uForkB : KState := stepD2 (fun s => fork s true) uOpenA

/-- ... A blocks in `wait(-1)`; init runs. -/
def uWaitA : KState := stepD2 (fun s => wait s (-1) 0) uForkB

/-- ... a tick dispatches B. -/
def uRunB : KState := stepD trigger_scheduler uWaitA

/-- ... B exits: it becomes a zombie (slot 3 KILLED, ppid 2) holding fd 0;
the wake-up puts A back on the ready queue and init runs. -/
def uExitB : KState := stepD (fun s => exit s s.curr 0 false) uRunB

/-- ... init broadcasts `kill(-1, SIGHUP)`: the unattended zombie B is
released by the buggy diagonal fd walk. -/
def uHup : KState := stepD2 (fun s => kill s (-1) 1) uExitB

lemma reach_uForkA : Reach uForkA :=
  Reach.step reach_sInit (Step.fork _ true _ 2 (by decide) (by decide))

lemma reach_uRunA : Reach uRunA :=
  Reach.step reach_uForkA (Step.trigger _ _ (by decide))

lemma reach_uOpenA : Reach uOpenA :=
  Reach.step reach_uRunA (Step.openf _ (some 0) _ 0 (by decide) (by decide))

lemma reach_uForkB : Reach uForkB :=
  Reach.step reach_uOpenA (Step.fork _ true _ 3 (by decide) (by decide))

lemma reach_uWaitA : Reach uWaitA :=
  Reach.step reach_uForkB (Step.wait _ (-1) 0 _ .block (by decide) (by decide))

lemma reach_uRunB : Reach uRunB :=
  Reach.step reach_uWaitA (Step.trigger _ _ (by decide))

lemma reach_uExitB : Reach uExitB :=
  Reach.step reach_uRunB (Step.exit _ 0 _ (by decide) (by decide))

lemma reach_uHup : Reach uHup :=
  Reach.step reach_uExitB (Step.kill _ (-1) 1 _ 0 (by decide) (by decide))

/-- From `sInit`: `kill(-1, SIGTERM)` marks init and idle. -/
def uTerm : KState := stepD2 (fun s => kill s (-1) 15) sInit

/-- ... init (the last process) exits: both queues are empty, idle has
SIGTERM pending, so `schedule` sets the shutdown flag and dispatches idle. -/
def uDown : KState := stepD (fun s => exit s s.curr 0 false) uTerm

lemma reach_uTerm : Reach uTerm :=
  Reach.step reach_sInit (Step.kill _ (-1) 15 _ 0 (by decide) (by decide))

lemma reach_uDown : Reach uDown :=
  Reach.step reach_uTerm (Step.exit _ 0 _ (by decide) (by decide))

/-!  ## C9: closing an invalid fd -/

/-- C9, counterexample.  The claim states that `close_file` on any invalid
fd — including an in-range fd whose `fd_table` slot is NULL — is a no-op
performing no dereference.  In the reachable state `sInit` the running
process (init, slot 1) has an empty descriptor table, and `close_file` on
fd 0 dereferences the NULL slot (`process->fd_table[fd]->inode`), modelled
as the fault `none`, rather than leaving the state unchanged. -/
theorem close_file_invalid_fd_faults :
    close_file sInit 0 = none ∧ Reach sInit ∧ sInit.curr = 1 ∧
    (pcbD sInit 1).fd_table.getD 0 none = none :=
  ⟨by decide, reach_sInit, by decide, by decide⟩

/-- C9 (amended): `close_file` is a no-op only for a negative fd (the sole
guard in the code, file.c:282); a non-negative invalid fd is dereferenced
unchecked. -/
theorem close_file_neg_fd_noop (s : KState) (fd : Int) (h : fd < 0) :
    close_file s fd = some s := by
  simp [close_file, h]

theorem close_file_neg_fd_noop_witness :
    (-1 : Int) < 0 ∧ close_file sInit (-1) = some sInit :=
  ⟨by decide, close_file_neg_fd_noop sInit (-1) (by decide)⟩

/-!  ## C10: fork after a failed copy_uvm -/

/-- C10: when `fork` finds a free slot but `copy_uvm` fails, it returns -1
with the child still allocated: the slot that was UNUSED before the call is
left in state INIT with its kernel stack and page map allocated and the pid
counter already advanced past the pid it consumed (process.c:478-481 returns
without any rollback). -/
theorem fork_uvm_failure_leaks_child (s : KState) (ci : Nat)
    (hl : s.ptable.length = NPROC) (h : find_unused_slot s = some ci) :
    ∃ s', fork s false = some (s', -1) ∧
      (pcbD s ci).state = UNUSED ∧
      (pcbD s' ci).state = INIT ∧ (pcbD s' ci).stackAlloc = true ∧
      (pcbD s' ci).pageMapAlloc = true ∧ (pcbD s' ci).pid = s.pidNum ∧
      s'.pidNum = s.pidNum + 1 := by
  have hci : ci < s.ptable.length := by
    have hm := List.mem_of_find?_eq_some h
    rw [List.mem_range'] at hm
    omega
  have hstate : (pcbD s ci).state = UNUSED := by
    have := List.find?_some h
    simpa using this
  simp only [fork, alloc_new_process, h, ite_true, not_false_iff]
  refine ⟨_, rfl, hstate, ?_, ?_, ?_, ?_, ?_⟩ <;>
    simp [pcbD, updP, List.getD_eq_getElem?_getD, List.getElem?_set, hci]

theorem fork_uvm_failure_leaks_child_witness :
    ∃ s', fork sInit false = some (s', -1) ∧
      (pcbD sInit 2).state = UNUSED ∧
      (pcbD s' 2).state = INIT ∧ (pcbD s' 2).stackAlloc = true ∧
      (pcbD s' 2).pageMapAlloc = true ∧ (pcbD s' 2).pid = sInit.pidNum ∧
      s'.pidNum = sInit.pidNum + 1 :=
  fork_uvm_failure_leaks_child sInit 2 (by decide) (by decide)

/-!  ## Field-preservation machinery -/

lemma pcbD_eq_of_get? {s : KState} {i : Nat} {p : PCB} (h : s.ptable.get? i = some p) :
    pcbD s i = p := by
  rw [List.get?_eq_getElem?] at h
  simp [pcbD, List.getD_eq_getElem?_getD, h]

lemma updP_keep {α : Type} (g : PCB → α) (s : KState) (i : Nat) (f : PCB → PCB)
    (hf : g (f (pcbD s i)) = g (pcbD s i)) (j : Nat) :
    g (pcbD (updP s i f) j) = g (pcbD s j) := by
  rw [pcbD_updP]
  split
  · next hc => rw [hc.1]; exact hf
  · rfl

/-- `t` differs from `s` at most in its process table. -/
def ptOnly (s t : KState) : Prop := ∃ pt, t = { s with ptable := pt }

lemma ptOnly_rfl (s : KState) : ptOnly s s := ⟨s.ptable, rfl⟩

lemma ptOnly_updP {s t : KState} (h : ptOnly s t) (i : Nat) (f : PCB → PCB) :
    ptOnly s (updP t i f) := by
  rcases h with ⟨pt, rfl⟩
  exact ⟨_, rfl⟩

lemma ptOnly.readyQue {s t : KState} (h : ptOnly s t) : t.readyQue = s.readyQue := by
  rcases h with ⟨pt, rfl⟩; rfl

lemma ptOnly.waitList {s t : KState} (h : ptOnly s t) : t.waitList = s.waitList := by
  rcases h with ⟨pt, rfl⟩; rfl

lemma ptOnly.zombies {s t : KState} (h : ptOnly s t) : t.zombies = s.zombies := by
  rcases h with ⟨pt, rfl⟩; rfl

lemma ptOnly.curr {s t : KState} (h : ptOnly s t) : t.curr = s.curr := by
  rcases h with ⟨pt, rfl⟩; rfl

lemma ptOnly.fg {s t : KState} (h : ptOnly s t) : t.fg = s.fg := by
  rcases h with ⟨pt, rfl⟩; rfl

lemma ptOnly.pidNum {s t : KState} (h : ptOnly s t) : t.pidNum = s.pidNum := by
  rcases h with ⟨pt, rfl⟩; rfl

lemma ptOnly.shutdown {s t : KState} (h : ptOnly s t) : t.shutdown = s.shutdown := by
  rcases h with ⟨pt, rfl⟩; rfl

lemma ptOnly.gft {s t : KState} (h : ptOnly s t) : t.gft = s.gft := by
  rcases h with ⟨pt, rfl⟩; rfl

lemma ptOnly.itable {s t : KState} (h : ptOnly s t) : t.itable = s.itable := by
  rcases h with ⟨pt, rfl⟩; rfl

lemma switch_parent_ptOnly (s : KState) (a b : Int) : ptOnly s (switch_parent s a b) := by
  unfold switch_parent
  refine foldl_preserve (ptOnly s) _ _ ?_ s (ptOnly_rfl s)
  intro st i _ h
  dsimp only
  split
  · exact ptOnly_updP h i _
  · exact h

lemma switch_parent_keep {α : Type} (g : PCB → α) (s : KState) (a b : Int)
    (hg : ∀ q, g { q with ppid := b } = g q) (j : Nat) :
    g (pcbD (switch_parent s a b) j) = g (pcbD s j) := by
  unfold switch_parent
  refine foldl_preserve (fun st => ∀ j, g (pcbD st j) = g (pcbD s j)) _ _ ?_ s
    (fun _ => rfl) j
  intro st i _ hP j
  dsimp only
  split
  · rw [updP_keep g st i _ (hg _) j]; exact hP j
  · exact hP j

lemma wake_up_keep {α : Type} (g : PCB → α) (s : KState) (e : Int)
    (hg1 : ∀ q, g { q with event := NONE_EVT } = g q)
    (hg2 : ∀ q, g { q with event := NONE_EVT, state := READY } = g q) (j : Nat) :
    g (pcbD (wake_up s e) j) = g (pcbD s j) := by
  have h1 := foldl_preserve (fun st => ∀ j, g (pcbD st j) = g (pcbD s j))
    (fun st i =>
      if (pcbD st i).event = e then updP st i (fun q => { q with event := NONE_EVT }) else st)
    s.readyQue
    (by
      intro st a _ hP j
      dsimp only
      split
      · rw [updP_keep g st a _ (hg1 _) j]; exact hP j
      · exact hP j) s (fun _ => rfl)
  set s1 := s.readyQue.foldl
    (fun st i =>
      if (pcbD st i).event = e then updP st i (fun q => { q with event := NONE_EVT }) else st) s
  have h2 := foldl_preserve (fun st => ∀ j, g (pcbD st j) = g (pcbD s j))
    (fun st i => updP st i (fun q => { q with event := NONE_EVT, state := READY }))
    (s1.waitList.partition (fun i => (pcbD s1 i).event == e)).1
    (by
      intro st a _ hP j
      dsimp only
      rw [updP_keep g st a _ (hg2 _) j]; exact hP j)
    (setWait s1 (s1.waitList.partition (fun i => (pcbD s1 i).event == e)).2)
    (fun j => h1 j)
  exact h2 j

lemma wake_up_untouched (s : KState) (e : Int) (i : Nat)
    (hr : i ∉ s.readyQue) (hw : i ∉ s.waitList) :
    pcbD (wake_up s e) i = pcbD s i ∧
    i ∉ (wake_up s e).readyQue ∧ i ∉ (wake_up s e).waitList ∧
    (wake_up s e).zombies = s.zombies ∧ (wake_up s e).curr = s.curr ∧
    (wake_up s e).fg = s.fg ∧ (wake_up s e).pidNum = s.pidNum ∧
    (wake_up s e).shutdown = s.shutdown ∧
    (wake_up s e).gft = s.gft ∧ (wake_up s e).itable = s.itable := by
  have h1 := foldl_preserve
    (fun st => pcbD st i = pcbD s i ∧ st.readyQue = s.readyQue ∧
      st.waitList = s.waitList ∧ st.zombies = s.zombies ∧ st.curr = s.curr ∧
      st.fg = s.fg ∧ st.pidNum = s.pidNum ∧ st.shutdown = s.shutdown ∧
      st.gft = s.gft ∧ st.itable = s.itable)
    (fun st j =>
      if (pcbD st j).event = e then updP st j (fun q => { q with event := NONE_EVT }) else st)
    s.readyQue
    (by
      intro st a ha hP
      dsimp only
      split
      · exact ⟨by rw [pcbD_updP_other st a _ i (fun hia => hr (hia ▸ ha))]; exact hP.1,
          by simp [hP.2.1], by simp [hP.2.2.1], by simp [hP.2.2.2.1],
          by simp [hP.2.2.2.2.1], by simp [hP.2.2.2.2.2.1],
          by simp [hP.2.2.2.2.2.2.1], by simp [hP.2.2.2.2.2.2.2.1],
          by simp [hP.2.2.2.2.2.2.2.2.1], by simp [hP.2.2.2.2.2.2.2.2.2]⟩
      · exact hP) s ⟨rfl, rfl, rfl, rfl, rfl, rfl, rfl, rfl, rfl, rfl⟩
  set s1 := s.readyQue.foldl
    (fun st j =>
      if (pcbD st j).event = e then updP st j (fun q => { q with event := NONE_EVT }) else st) s
    with hs1def
  obtain ⟨hp1, hr1, hw1, hz1, hc1, hf1, hn1, hsh1, hg1, hi1⟩ := h1
  have hpart : (s1.waitList.partition (fun j => (pcbD s1 j).event == e)).1
      = s1.waitList.filter (fun j => (pcbD s1 j).event == e) := by
    simp [List.partition_eq_filter_filter]
  have hmem1 : ∀ a ∈ (s1.waitList.partition (fun j => (pcbD s1 j).event == e)).1,
      a ∈ s.waitList := by
    intro a ha
    rw [hpart] at ha
    exact hw1 ▸ List.mem_of_mem_filter ha
  have h2 := foldl_preserve
    (fun st => pcbD st i = pcbD s i ∧ st.readyQue = s.readyQue ∧
      st.waitList = (s1.waitList.partition (fun j => (pcbD s1 j).event == e)).2 ∧
      st.zombies = s.zombies ∧ st.curr = s.curr ∧ st.fg = s.fg ∧
      st.pidNum = s.pidNum ∧ st.shutdown = s.shutdown ∧
      st.gft = s.gft ∧ st.itable = s.itable)
    (fun st j => updP st j (fun q => { q with event := NONE_EVT, state := READY }))
    (s1.waitList.partition (fun j => (pcbD s1 j).event == e)).1
    (by
      intro st a ha hP
      dsimp only
      exact ⟨by rw [pcbD_updP_other st a _ i (fun hia => hw (hia ▸ hmem1 a ha))]; exact hP.1,
        by simp [hP.2.1], by simp [hP.2.2.1], by simp [hP.2.2.2.1],
        by simp [hP.2.2.2.2.1], by simp [hP.2.2.2.2.2.1],
        by simp [hP.2.2.2.2.2.2.1], by simp [hP.2.2.2.2.2.2.2.1],
        by simp [hP.2.2.2.2.2.2.2.2.1], by simp [hP.2.2.2.2.2.2.2.2.2]⟩)
    (setWait s1 (s1.waitList.partition (fun j => (pcbD s1 j).event == e)).2)
    ⟨hp1, hr1, rfl, hz1, hc1, hf1, hn1, hsh1, hg1, hi1⟩
  obtain ⟨hp2, hr2, hw2, hz2, hc2, hf2, hn2, hsh2, hg2, hi2⟩ := h2
  refine ⟨hp2, ?_, ?_, hz2, hc2, hf2, hn2, hsh2, hg2, hi2⟩
  · show i ∉ _ ++ (s1.waitList.partition (fun j => (pcbD s1 j).event == e)).1
    rw [List.mem_append, hr2]
    rintro (h | h)
    · exact hr h
    · exact hw (hmem1 i h)
  · intro hmem
    apply hw
    rw [← hw1]
    have hpart2 : (s1.waitList.partition (fun j => (pcbD s1 j).event == e)).2
        = s1.waitList.filter (fun j => !((pcbD s1 j).event == e)) := by
      simp [List.partition_eq_filter_filter]
      rfl
    refine List.mem_of_mem_filter (p := fun j => !((pcbD s1 j).event == e)) ?_
    rw [← hpart2, ← hw2]
    exact hmem

lemma exit_notify_ptOnly (p : PCB) (parent : Option Nat) (s : KState) (pIdx : Nat) :
    ptOnly s (exit_notify p parent s pIdx) := by
  unfold exit_notify
  rcases parent with _ | π
  · exact ptOnly_updP (ptOnly_rfl s) _ _
  · dsimp only
    split
    · split
      · exact ptOnly_updP (ptOnly_updP (ptOnly_rfl s) _ _) _ _
      · exact ptOnly_updP (ptOnly_rfl s) _ _
    · exact ptOnly_updP (ptOnly_rfl s) _ _

lemma exit_notify_keep_self (p : PCB) (parent : Option Nat) (s : KState) (pIdx : Nat)
    (hps : p.status = (pcbD s pIdx).status) :
    (pcbD (exit_notify p parent s pIdx) pIdx).status = (pcbD s pIdx).status ∧
    (pcbD (exit_notify p parent s pIdx) pIdx).state = (pcbD s pIdx).state := by
  unfold exit_notify
  rcases parent with _ | π
  · constructor
    · exact updP_keep PCB.status s pIdx _ rfl pIdx
    · exact updP_keep PCB.state s pIdx _ rfl pIdx
  · have hkey : (pcbD (updP s π (fun q =>
          { q with signals := q.signals ||| (1 <<< SIGCHLD), status := p.status })) pIdx).status
        = (pcbD s pIdx).status ∧
        (pcbD (updP s π (fun q =>
          { q with signals := q.signals ||| (1 <<< SIGCHLD), status := p.status })) pIdx).state
        = (pcbD s pIdx).state := by
      rw [pcbD_updP]
      split
      · next hc =>
        refine ⟨hps, ?_⟩
        show (pcbD s π).state = (pcbD s pIdx).state
        rw [hc.1]
      · exact ⟨rfl, rfl⟩
    dsimp only
    split
    · split
      · constructor
        · rw [updP_keep PCB.status _ pIdx _ rfl pIdx]; exact hkey.1
        · rw [updP_keep PCB.state _ pIdx _ rfl pIdx]; exact hkey.2
      · exact hkey
    · constructor
      · exact updP_keep PCB.status s pIdx _ rfl pIdx
      · exact updP_keep PCB.state s pIdx _ rfl pIdx

/-- Effect of the exit bookkeeping on the dying process itself: its status is
the packed value, its state is KILLED, and it sits on neither the ready queue
nor the wait list afterwards (given it was on neither before). -/
lemma exit_book_self (s : KState) (pIdx : Nat) (st : Nat) (fh : Bool)
    (hlen : pIdx < s.ptable.length)
    (hr : pIdx ∉ s.readyQue) (hw : pIdx ∉ s.waitList) :
    (pcbD (exit_book s pIdx st fh) pIdx).status =
      (pcbD s pIdx).status ||| (if fh then st &&& 0x7f else (st &&& 0xff) <<< 8) ∧
    (pcbD (exit_book s pIdx st fh) pIdx).state = KILLED ∧
    pIdx ∉ (exit_book s pIdx st fh).readyQue ∧
    pIdx ∉ (exit_book s pIdx st fh).waitList := by
  unfold exit_book
  set s1 := exit_pack s pIdx st fh with hs1
  set pp := pcbD s1 pIdx with hpp
  set parent := get_process s1 pp.ppid with hparent
  set s2 := exit_notify pp parent s1 pIdx with hs2
  set s3 := switch_parent s2 pp.pid 1 with hs3
  set s4 := fg_handover s3 pp.pid parent with hs4
  set s5 := if ¬ pp.daemon then wake_up s4 FG_PAUSED else s4 with hs5
  have h1stat : pp.status =
      (pcbD s pIdx).status ||| (if fh then st &&& 0x7f else (st &&& 0xff) <<< 8) := by
    rw [hpp, hs1]
    unfold exit_pack
    rw [pcbD_updP_self _ _ _ hlen]
  have h1state : pp.state = KILLED := by
    rw [hpp, hs1]
    unfold exit_pack
    rw [pcbD_updP_self _ _ _ hlen]
  have hq1r : s1.readyQue = s.readyQue := by rw [hs1]; rfl
  have hq1w : s1.waitList = s.waitList := by rw [hs1]; rfl
  have h2 := exit_notify_keep_self pp parent s1 pIdx (by rw [hpp])
  rw [← hs2, ← hpp] at h2
  have hq2 : ptOnly s1 s2 := hs2 ▸ exit_notify_ptOnly pp parent s1 pIdx
  have h3stat : (pcbD s3 pIdx).status = (pcbD s2 pIdx).status := by
    rw [hs3]; exact switch_parent_keep PCB.status s2 _ 1 (fun q => rfl) pIdx
  have h3state : (pcbD s3 pIdx).state = (pcbD s2 pIdx).state := by
    rw [hs3]; exact switch_parent_keep PCB.state s2 _ 1 (fun q => rfl) pIdx
  have hq3 : ptOnly s2 s3 := hs3 ▸ switch_parent_ptOnly s2 _ 1
  have h4 : pcbD s4 pIdx = pcbD s3 pIdx := by rw [hs4]; exact pcbD_fg_handover s3 _ _ pIdx
  have hq4r : s4.readyQue = s.readyQue := by
    rw [hs4, fg_handover_readyQue, hq3.readyQue, hq2.readyQue, hq1r]
  have hq4w : s4.waitList = s.waitList := by
    rw [hs4, fg_handover_waitList, hq3.waitList, hq2.waitList, hq1w]
  have h4stat : (pcbD s4 pIdx).status = pp.status := by
    rw [h4, h3stat, h2.1]
  have h4state : (pcbD s4 pIdx).state = KILLED := by
    rw [h4, h3state, h2.2, h1state]
  have hr4 : pIdx ∉ s4.readyQue := by rw [hq4r]; exact hr
  have hw4 : pIdx ∉ s4.waitList := by rw [hq4w]; exact hw
  have h5 : (pcbD s5 pIdx).status = pp.status ∧ (pcbD s5 pIdx).state = KILLED ∧
      pIdx ∉ s5.readyQue ∧ pIdx ∉ s5.waitList := by
    rw [hs5]
    by_cases hd : pp.daemon
    · rw [if_neg (by simp [hd])]
      exact ⟨h4stat, h4state, hr4, hw4⟩
    · rw [if_pos (by simp [hd])]
      obtain ⟨hu, hur, huw, _⟩ := wake_up_untouched s4 FG_PAUSED pIdx hr4 hw4
      exact ⟨by rw [hu]; exact h4stat, by rw [hu]; exact h4state, hur, huw⟩
  obtain ⟨hu6, hur6, huw6, _⟩ := wake_up_untouched
    (pushZombie s5 pIdx) ZOMBIE_CLEANUP pIdx
    (by show pIdx ∉ s5.readyQue; exact h5.2.2.1)
    (by show pIdx ∉ s5.waitList; exact h5.2.2.2)
  refine ⟨?_, ?_, hur6, huw6⟩
  · rw [hu6]
    show (pcbD s5 pIdx).status = _
    rw [h5.1, h1stat]
  · rw [hu6]
    show (pcbD s5 pIdx).state = KILLED
    exact h5.2.1

lemma exit_notify_untouched (p : PCB) (parent : Option Nat) (s : KState) (pIdx i : Nat)
    (hne : pIdx ≠ i) (hki : (pcbD s i).state = KILLED) :
    pcbD (exit_notify p parent s pIdx) i = pcbD s i := by
  unfold exit_notify
  rcases parent with _ | π
  · exact pcbD_updP_other s pIdx _ i (Ne.symm hne)
  · dsimp only
    split
    · next hπ =>
      have hπi : i ≠ π := fun h => hπ (by rw [← h]; exact hki)
      split
      · rw [pcbD_updP_other _ pIdx _ i (Ne.symm hne), pcbD_updP_other _ π _ i hπi]
      · rw [pcbD_updP_other _ π _ i hπi]
    · rw [pcbD_updP_other _ pIdx _ i (Ne.symm hne)]

/-- The exit bookkeeping of one process leaves the status, the KILLED state,
and the off-queue position of any other already-KILLED process alone. -/
lemma exit_book_killed_keep (s : KState) (pIdx : Nat) (st : Nat) (fh : Bool) (i : Nat)
    (hne : pIdx ≠ i) (hki : (pcbD s i).state = KILLED)
    (hr : i ∉ s.readyQue) (hw : i ∉ s.waitList) :
    (pcbD (exit_book s pIdx st fh) i).status = (pcbD s i).status ∧
    (pcbD (exit_book s pIdx st fh) i).state = KILLED ∧
    i ∉ (exit_book s pIdx st fh).readyQue ∧ i ∉ (exit_book s pIdx st fh).waitList := by
  unfold exit_book
  set s1 := exit_pack s pIdx st fh with hs1
  set pp := pcbD s1 pIdx with hpp
  set parent := get_process s1 pp.ppid with hparent
  set s2 := exit_notify pp parent s1 pIdx with hs2
  set s3 := switch_parent s2 pp.pid 1 with hs3
  set s4 := fg_handover s3 pp.pid parent with hs4
  set s5 := if ¬ pp.daemon then wake_up s4 FG_PAUSED else s4 with hs5
  have h1 : pcbD s1 i = pcbD s i := by
    rw [hs1]; exact pcbD_updP_other s pIdx _ i (Ne.symm hne)
  have hq1r : s1.readyQue = s.readyQue := by rw [hs1]; rfl
  have hq1w : s1.waitList = s.waitList := by rw [hs1]; rfl
  have h2 : pcbD s2 i = pcbD s i := by
    rw [hs2, exit_notify_untouched pp parent s1 pIdx i hne (by rw [h1]; exact hki), h1]
  have hq2 : ptOnly s1 s2 := hs2 ▸ exit_notify_ptOnly pp parent s1 pIdx
  have h3stat : (pcbD s3 i).status = (pcbD s i).status := by
    rw [hs3, switch_parent_keep PCB.status s2 _ 1 (fun q => rfl) i, h2]
  have h3state : (pcbD s3 i).state = KILLED := by
    rw [hs3, switch_parent_keep PCB.state s2 _ 1 (fun q => rfl) i, h2]; exact hki
  have hq3 : ptOnly s2 s3 := hs3 ▸ switch_parent_ptOnly s2 _ 1
  have h4 : pcbD s4 i = pcbD s3 i := by rw [hs4]; exact pcbD_fg_handover s3 _ _ i
  have hq4r : s4.readyQue = s.readyQue := by
    rw [hs4, fg_handover_readyQue, hq3.readyQue, hq2.readyQue, hq1r]
  have hq4w : s4.waitList = s.waitList := by
    rw [hs4, fg_handover_waitList, hq3.waitList, hq2.waitList, hq1w]
  have hr4 : i ∉ s4.readyQue := by rw [hq4r]; exact hr
  have hw4 : i ∉ s4.waitList := by rw [hq4w]; exact hw
  have h5 : (pcbD s5 i).status = (pcbD s i).status ∧ (pcbD s5 i).state = KILLED ∧
      i ∉ s5.readyQue ∧ i ∉ s5.waitList := by
    rw [hs5]
    by_cases hd : pp.daemon
    · rw [if_neg (by simp [hd])]
      exact ⟨by rw [h4, h3stat], by rw [h4]; exact h3state, hr4, hw4⟩
    · rw [if_pos (by simp [hd])]
      obtain ⟨hu, hur, huw, _⟩ := wake_up_untouched s4 FG_PAUSED i hr4 hw4
      exact ⟨by rw [hu, h4, h3stat], by rw [hu, h4]; exact h3state, hur, huw⟩
  obtain ⟨hu6, hur6, huw6, _⟩ := wake_up_untouched
    (pushZombie s5 pIdx) ZOMBIE_CLEANUP i
    (by show i ∉ s5.readyQue; exact h5.2.2.1)
    (by show i ∉ s5.waitList; exact h5.2.2.2)
  refine ⟨?_, ?_, hur6, huw6⟩
  · rw [hu6]
    show (pcbD s5 i).status = _
    exact h5.1
  · rw [hu6]
    show (pcbD s5 i).state = KILLED
    exact h5.2.1

lemma sig_action_killed_keep (st : KState) (hd sig : Nat) (i : Nat)
    (hne : hd ≠ i) (hki : (pcbD st i).state = KILLED)
    (hr : i ∉ st.readyQue) (hw : i ∉ st.waitList) :
    (pcbD (sig_action st hd sig) i).status = (pcbD st i).status ∧
    (pcbD (sig_action st hd sig) i).state = KILLED ∧
    i ∉ (sig_action st hd sig).readyQue ∧ i ∉ (sig_action st hd sig).waitList := by
  unfold sig_action
  split
  · dsimp only
    split
    · refine ⟨rfl, hki, ?_, hw⟩
      intro hmem
      exact hr (List.mem_of_mem_erase hmem)
    · obtain ⟨ha, hb, hc, hdq⟩ := exit_book_killed_keep st hd (128 ||| sig) true i hne hki hr hw
      refine ⟨ha, hb, ?_, hdq⟩
      intro hmem
      exact hc (List.mem_of_mem_erase hmem)
  · split
    · refine ⟨?_, ?_, ?_, ?_⟩
      · rw [pcbD_pushWait, pcbD_updP_other _ hd _ i (Ne.symm hne), pcbD_eraseReady]
      · rw [pcbD_pushWait, pcbD_updP_other _ hd _ i (Ne.symm hne), pcbD_eraseReady]
        exact hki
      · simp only [pushWait_readyQue, updP_readyQue, eraseReady_readyQue]
        intro hmem
        exact hr (List.mem_of_mem_erase hmem)
      · simp only [pushWait_waitList, updP_waitList, eraseReady_waitList]
        rw [List.mem_append]
        rintro (h | h)
        · exact hw h
        · exact hne ((List.mem_singleton.mp h).symm)
    · exact ⟨rfl, hki, hr, hw⟩

lemma cps_killed_keep (s : KState) (hd : Nat) (i : Nat)
    (hne : hd ≠ i) (hki : (pcbD s i).state = KILLED)
    (hr : i ∉ s.readyQue) (hw : i ∉ s.waitList) :
    (pcbD (check_pending_signals s hd) i).status = (pcbD s i).status ∧
    (pcbD (check_pending_signals s hd) i).state = KILLED ∧
    i ∉ (check_pending_signals s hd).readyQue ∧
    i ∉ (check_pending_signals s hd).waitList := by
  unfold check_pending_signals
  refine foldl_preserve
    (fun st => (pcbD st i).status = (pcbD s i).status ∧ (pcbD st i).state = KILLED ∧
      i ∉ st.readyQue ∧ i ∉ st.waitList) _ _ ?_ s ⟨rfl, hki, hr, hw⟩
  intro st a _ hP
  dsimp only
  split
  · obtain ⟨h1, h2, h3, h4⟩ := sig_action_killed_keep
      (updP st hd (fun q => { q with signals := clearBit q.signals a })) hd a i hne
      (by rw [pcbD_updP_other _ hd _ i (Ne.symm hne)]; exact hP.2.1)
      (by simpa using hP.2.2.1) (by simpa using hP.2.2.2)
    refine ⟨?_, h2, h3, h4⟩
    rw [h1, pcbD_updP_other _ hd _ i (Ne.symm hne)]
    exact hP.1
  · exact hP

lemma scheduleLoop_killed_keep (i : Nat) :
    ∀ (fuel : Nat) (s s1 : KState) (sel : Option Nat),
    scheduleLoop fuel s = some (s1, sel) →
    (pcbD s i).state = KILLED → i ∉ s.readyQue → i ∉ s.waitList →
    (pcbD s1 i).status = (pcbD s i).status ∧ (pcbD s1 i).state = KILLED ∧
    i ∉ s1.readyQue ∧ i ∉ s1.waitList := by
  intro fuel
  induction fuel with
  | zero => intro s s1 sel he; simp [scheduleLoop] at he
  | succ n ih =>
    intro s s1 sel he hki hr hw
    rw [scheduleLoop] at he
    rcases hq : s.readyQue with _ | ⟨hd, tl⟩
    · rw [hq] at he
      simp only [Option.some.injEq] at he
      cases he
      exact ⟨rfl, hki, hr, hw⟩
    · rw [hq] at he
      dsimp only at he
      have hne : hd ≠ i := by
        intro h
        exact hr (by rw [hq, h]; exact List.mem_cons_self _ _)
      obtain ⟨c1, c2, c3, c4⟩ := cps_killed_keep s hd i hne hki hr hw
      rcases hq' : (check_pending_signals s hd).readyQue with _ | ⟨hd', tl'⟩
      · rw [hq'] at he
        simp only [Option.some.injEq] at he
        cases he
        exact ⟨c1, c2, by rw [hq']; simp, c4⟩
      · rw [hq'] at he
        dsimp only at he
        by_cases hh : hd' = hd
        · rw [if_pos hh] at he
          simp only [Option.some.injEq] at he
          cases he
          refine ⟨c1, c2, ?_, c4⟩
          show i ∉ tl'
          intro hmem
          exact c3 (by rw [hq']; exact List.mem_cons_of_mem _ hmem)
        · rw [if_neg hh] at he
          obtain ⟨d1, d2, d3, d4⟩ := ih (check_pending_signals s hd) s1 sel he c2
            (by rw [hq'] at c3 ⊢; exact c3) c4
          exact ⟨by rw [d1, c1], d2, d3, d4⟩

/-- Nothing in `schedule` writes the status field of a KILLED process that is
on neither the ready queue nor the wait list (exits triggered by signal
checks skip KILLED processes, and so does the parent notification). -/
lemma resume_mark_status (s : KState) (i : Nat) :
    (pcbD (resume_mark s) i).status = (pcbD s i).status := by
  unfold resume_mark
  dsimp only
  split
  · rcases (pcbD s s.curr).regContext with _ | fr
    · rfl
    · exact updP_keep PCB.status s s.curr _ rfl i
  · rfl

/-- Nothing in `schedule` writes the status field of a KILLED process that is
on neither the ready queue nor the wait list (exits triggered by signal
checks skip KILLED processes, and so does the parent notification). -/
lemma schedule_killed_status (s s' : KState) (i : Nat)
    (hki : (pcbD s i).state = KILLED) (hr : i ∉ s.readyQue) (hw : i ∉ s.waitList)
    (he : schedule s = some s') :
    (pcbD s' i).status = (pcbD s i).status := by
  unfold schedule at he
  rcases hsl : scheduleLoop SCHED_FUEL s with _ | ⟨s1, sel⟩
  · rw [hsl] at he; simp at he
  · rw [hsl] at he
    simp only [Option.bind_eq_bind, Option.some_bind, Option.some.injEq] at he
    obtain ⟨l1, _, _, _⟩ := scheduleLoop_killed_keep i SCHED_FUEL s s1 sel hsl hki hr hw
    rw [← he, resume_mark_status, pcbD_claim_fg, pcbD_setCurr,
      updP_keep PCB.status _ _ _ rfl i]
    rcases sel with _ | h
    · dsimp only
      split
      · rw [pcbD_set_shutdown]; exact l1
      · exact l1
    · exact l1

lemma find?_congr_mem {α : Type} {p q : α → Bool} :
    ∀ l : List α, (∀ a ∈ l, p a = q a) → l.find? p = l.find? q := by
  intro l
  induction l with
  | nil => intro _; rfl
  | cons a t ih =>
    intro h
    rw [List.find?_cons, List.find?_cons, h a (List.mem_cons_self _ _)]
    cases q a
    · exact ih (fun b hb => h b (List.mem_cons_of_mem _ hb))
    · rfl

/-- A slot untouched by a fold whose steps only update their own index. -/
lemma foldl_guard_updP_notmem (Q : KState → Nat → Prop) [∀ st i, Decidable (Q st i)]
    (f : PCB → PCB) (l : List Nat) (s : KState) (j : Nat) (hj : j ∉ l) :
    pcbD (l.foldl (fun st i => if Q st i then updP st i f else st) s) j = pcbD s j := by
  refine foldl_preserve (fun st => pcbD st j = pcbD s j) _ l ?_ s rfl
  intro st a ha hP
  dsimp only
  split
  · rw [pcbD_updP_other st a _ j (fun h => hj (h ▸ ha))]; exact hP
  · exact hP

/-- Effect of a guarded per-slot fold over distinct indices, when the guard
of each step only reads the slot being updated. -/
lemma foldl_guard_updP (Q : PCB → Prop) [DecidablePred Q] (f : PCB → PCB) :
    ∀ (l : List Nat), l.Nodup → ∀ (s : KState) (j : Nat),
    pcbD (l.foldl (fun st i => if Q (pcbD st i) then updP st i f else st) s) j =
      if j ∈ l ∧ Q (pcbD s j) ∧ j < s.ptable.length then f (pcbD s j) else pcbD s j := by
  intro l
  induction l with
  | nil => intro _ s j; simp
  | cons x t ih =>
    intro hnd s j
    rw [List.foldl_cons]
    rcases List.nodup_cons.mp hnd with ⟨hx, hndt⟩
    by_cases hjx : j = x
    · subst hjx
      rw [foldl_guard_updP_notmem (fun st i => Q (pcbD st i)) f t _ j hx]
      by_cases hQ : Q (pcbD s j)
      · rw [if_pos hQ]
        by_cases hlen : j < s.ptable.length
        · rw [pcbD_updP_self s j f hlen, if_pos ⟨List.mem_cons_self _ _, hQ, hlen⟩]
        · rw [show updP s j f = s from ?_, if_neg (fun hc => hlen hc.2.2)]
          unfold updP
          rw [List.set_eq_of_length_le (Nat.le_of_not_lt hlen)]
      · rw [if_neg hQ, if_neg (fun hc => hQ hc.2.1)]
    · have hstep : ∀ st : KState,
          pcbD (if Q (pcbD st x) then updP st x f else st) j = pcbD st j := by
        intro st
        split
        · exact pcbD_updP_other st x f j hjx
        · rfl
      have hlen : ∀ st : KState,
          (if Q (pcbD st x) then updP st x f else st).ptable.length = st.ptable.length := by
        intro st
        split
        · exact updP_length st x f
        · rfl
      rw [ih hndt _ j, hstep, hlen]
      by_cases hmem : j ∈ t
      · simp [hmem, hjx]
      · simp [hmem, hjx]

/-- Pointwise description of `switch_parent`. -/
lemma switch_parent_pcbD (s : KState) (a b : Int) (j : Nat) :
    pcbD (switch_parent s a b) j =
      if (j ∈ List.range' 1 (NPROC - 1)) ∧
          ((pcbD s j).state ≠ UNUSED ∧ (pcbD s j).ppid = a) ∧ j < s.ptable.length
      then { pcbD s j with ppid := b } else pcbD s j := by
  unfold switch_parent
  exact foldl_guard_updP (fun q => q.state ≠ UNUSED ∧ q.ppid = a)
    (fun q => { q with ppid := b }) _ (List.nodup_range' ..) s j

lemma exit_notify_effect_live (p : PCB) (π : Nat) (s : KState) (pIdx : Nat)
    (hne : π ≠ pIdx) (hπlen : π < s.ptable.length) (hplen : pIdx < s.ptable.length)
    (hlive : (pcbD s π).state ≠ KILLED) :
    (pcbD (exit_notify p (some π) s pIdx) π).signals =
      (pcbD s π).signals ||| (1 <<< SIGCHLD) ∧
    (pcbD (exit_notify p (some π) s pIdx) π).status = p.status ∧
    (pcbD (exit_notify p (some π) s pIdx) pIdx).ppid =
      (if (pcbD s π).wpid ≥ 0 ∧ (pcbD s π).wpid ≠ p.pid then 1 else (pcbD s pIdx).ppid) ∧
    (∀ i, (pcbD (exit_notify p (some π) s pIdx) i).state = (pcbD s i).state) ∧
    (∀ i, i ≠ pIdx → (pcbD (exit_notify p (some π) s pIdx) i).ppid = (pcbD s i).ppid) ∧
    (∀ i, (pcbD (exit_notify p (some π) s pIdx) i).pid = (pcbD s i).pid) := by
  unfold exit_notify
  dsimp only
  rw [if_pos hlive]
  have hbase : pcbD (updP s π (fun q =>
      { q with signals := q.signals ||| (1 <<< SIGCHLD), status := p.status })) π =
      { pcbD s π with signals := (pcbD s π).signals ||| (1 <<< SIGCHLD), status := p.status } :=
    pcbD_updP_self s π _ hπlen
  have hwpid : (pcbD (updP s π (fun q =>
      { q with signals := q.signals ||| (1 <<< SIGCHLD), status := p.status })) π).wpid =
      (pcbD s π).wpid := by rw [hbase]
  rw [hwpid]
  split
  · refine ⟨?_, ?_, ?_, ?_, ?_, ?_⟩
    · rw [pcbD_updP_other _ pIdx _ π hne, hbase]
    · rw [pcbD_updP_other _ pIdx _ π hne, hbase]
    · rw [pcbD_updP_self _ pIdx _ (by simpa using hplen),
        pcbD_updP_other s π _ pIdx (Ne.symm hne)]
    · intro i
      rw [updP_keep PCB.state _ pIdx _ rfl i, updP_keep PCB.state s π _ rfl i]
    · intro i hi
      rw [pcbD_updP_other _ pIdx _ i hi, updP_keep PCB.ppid s π _ rfl i]
    · intro i
      rw [updP_keep PCB.pid _ pIdx _ rfl i, updP_keep PCB.pid s π _ rfl i]
  · refine ⟨?_, ?_, ?_, ?_, ?_, ?_⟩
    · rw [hbase]
    · rw [hbase]
    · rw [updP_keep PCB.ppid s π _ rfl pIdx]
    · intro i
      rw [updP_keep PCB.state s π _ rfl i]
    · intro i _
      rw [updP_keep PCB.ppid s π _ rfl i]
    · intro i
      rw [updP_keep PCB.pid s π _ rfl i]

lemma exit_notify_effect_dead (p : PCB) (parent : Option Nat) (s : KState) (pIdx : Nat)
    (hplen : pIdx < s.ptable.length)
    (hdead : parent = none ∨ ∃ π, parent = some π ∧ (pcbD s π).state = KILLED) :
    (pcbD (exit_notify p parent s pIdx) pIdx).ppid = 1 ∧
    (∀ i, (pcbD (exit_notify p parent s pIdx) i).state = (pcbD s i).state) ∧
    (∀ i, i ≠ pIdx → (pcbD (exit_notify p parent s pIdx) i).ppid = (pcbD s i).ppid) ∧
    (∀ i, (pcbD (exit_notify p parent s pIdx) i).pid = (pcbD s i).pid) := by
  have hgoal : exit_notify p parent s pIdx = updP s pIdx (fun q => { q with ppid := 1 }) := by
    rcases hdead with h | ⟨π, hπ, hk⟩
    · rw [h]; rfl
    · rw [hπ]
      unfold exit_notify
      dsimp only
      rw [if_neg (by simpa using hk)]
  rw [hgoal]
  refine ⟨?_, ?_, ?_, ?_⟩
  · rw [pcbD_updP_self s pIdx _ hplen]
  · intro i
    rw [updP_keep PCB.state s pIdx _ rfl i]
  · intro i hi
    rw [pcbD_updP_other s pIdx _ i hi]
  · intro i
    rw [updP_keep PCB.pid s pIdx _ rfl i]

/-- `get_process` sees through the status/state packing of `exit_pack` on a
slot that was not UNUSED. -/
lemma get_process_exit_pack (s : KState) (pIdx : Nat) (st : Nat) (fh : Bool) (x : Int)
    (hnu : (pcbD s pIdx).state ≠ UNUSED) :
    get_process (exit_pack s pIdx st fh) x = get_process s x := by
  unfold get_process
  apply find?_congr_mem
  intro i _
  unfold exit_pack
  rw [pcbD_updP]
  split
  · next hc =>
    rw [hc.1]
    dsimp only
    have h2 : ((pcbD s pIdx).state != UNUSED) = true := by simpa using hnu
    rw [h2]
    rfl
  · rfl

/-!  ## C4: exit-status packing -/

/-- C4: `exit(p, status, from_handler)` ORs `status & 0x7f` into `p.status`
when `from_handler` is true and `(status & 0xff) << 8` otherwise
(process.c:351), so a signal-kill occupies bits 0-6 of the packed status and a
voluntary exit code occupies bits 8-15 — which is exactly the value `wait`
later reports, since nothing else writes the status of a KILLED process.  The
process must be live and off the scheduling queues, as every exiting process
is (it is the running process, or a queue head already popped). -/
theorem exit_status_packing (s : KState) (pIdx : Nat) (p : PCB) (st : Nat) (fh : Bool)
    (s' : KState) (hp : s.ptable.get? pIdx = some p)
    (hlive : ¬ (p.state = UNUSED ∨ p.state = KILLED))
    (hr : pIdx ∉ s.readyQue) (hw : pIdx ∉ s.waitList)
    (he : exit s pIdx st fh = some s') :
    (pcbD s' pIdx).status =
      p.status ||| (if fh then st &&& 0x7f else (st &&& 0xff) <<< 8) ∧
    st &&& 0x7f < 2 ^ 7 ∧ ((st &&& 0xff) <<< 8) % 2 ^ 8 = 0 ∧
    ((st &&& 0xff) <<< 8) / 2 ^ 8 < 2 ^ 8 := by
  have hlen : pIdx < s.ptable.length := by
    rw [List.get?_eq_getElem?] at hp
    rcases List.getElem?_eq_some.mp hp with ⟨h, _⟩
    exact h
  have hpp : pcbD s pIdx = p := pcbD_eq_of_get? hp
  have hbook := exit_book_self s pIdx st fh hlen hr hw
  unfold exit at he
  rw [hp] at he
  dsimp only at he
  rw [if_neg hlive] at he
  refine ⟨?_, ?_, ?_, ?_⟩
  · cases fh with
    | true =>
      rw [if_pos rfl] at he
      cases he
      rw [hbook.1, hpp]
    | false =>
      rw [if_neg (by simp)] at he
      rw [schedule_killed_status (exit_book s pIdx st false) s' pIdx
        hbook.2.1 hbook.2.2.1 hbook.2.2.2 he, hbook.1, hpp]
  · have h1 : st &&& 0x7f ≤ 0x7f := Nat.and_le_right
    omega
  · rw [Nat.shiftLeft_eq]
    exact Nat.mul_mod_left _ _
  · rw [Nat.shiftLeft_eq, Nat.mul_div_cancel _ (by norm_num)]
    have h1 : st &&& 0xff ≤ 0xff := Nat.and_le_right
    omega

theorem exit_status_packing_witness :
    ∃ s', exit sInit 1 5 true = some s' ∧
      (pcbD s' 1).status = (pcbD sInit 1).status ||| (5 &&& 0x7f) := by
  refine ⟨(exit sInit 1 5 true).getD sInit, by decide, ?_⟩
  have h := exit_status_packing sInit 1 (pcbD sInit 1) 5 true
    ((exit sInit 1 5 true).getD sInit) (by decide) (by decide) (by decide) (by decide)
    (by decide)
  simpa using h.1

lemma exit_notify_length (p : PCB) (parent : Option Nat) (s : KState) (pIdx : Nat) :
    (exit_notify p parent s pIdx).ptable.length = s.ptable.length := by
  unfold exit_notify
  rcases parent with _ | π
  · rw [updP_length]
  · dsimp only
    split
    · split
      · rw [updP_length, updP_length]
      · rw [updP_length]
    · rw [updP_length]

lemma exit_notify_keep_other (p : PCB) (parent : Option Nat) (s : KState) (pIdx : Nat) :
    (∀ i, (pcbD (exit_notify p parent s pIdx) i).state = (pcbD s i).state) ∧
    (∀ i, i ≠ pIdx → (pcbD (exit_notify p parent s pIdx) i).ppid = (pcbD s i).ppid) := by
  unfold exit_notify
  rcases parent with _ | π
  · exact ⟨fun i => updP_keep PCB.state s pIdx _ rfl i,
      fun i hi => congrArg PCB.ppid (pcbD_updP_other s pIdx _ i hi)⟩
  · dsimp only
    split
    · split
      · refine ⟨fun i => ?_, fun i hi => ?_⟩
        · rw [updP_keep PCB.state _ pIdx _ rfl i, updP_keep PCB.state s π _ rfl i]
        · rw [pcbD_updP_other _ pIdx _ i hi, updP_keep PCB.ppid s π _ rfl i]
      · exact ⟨fun i => updP_keep PCB.state s π _ rfl i,
          fun i _ => updP_keep PCB.ppid s π _ rfl i⟩
    · exact ⟨fun i => updP_keep PCB.state s pIdx _ rfl i,
        fun i hi => congrArg PCB.ppid (pcbD_updP_other s pIdx _ i hi)⟩

/-!  ## C7: parent notification and reparenting on exit -/

/-- C7: when a live process `p` exits (process.c:355-367), a parent that
exists and is not KILLED gets SIGCHLD and receives `p`'s packed status; `p`'s
ppid becomes 1 exactly when the parent is absent or KILLED, or the parent's
`wpid` satisfies `wpid ≥ 0 ∧ wpid ≠ p.pid`, and is kept otherwise; and every
other process-table slot whose ppid equals `p.pid` is reparented to 1.
Stated on the signal-handler entry of `exit` (`sig_handler_req = true`), which
performs exactly the bookkeeping, lines 351-379, and no rescheduling. -/
theorem exit_parent_notify_and_reparent (s : KState) (pIdx : Nat) (p : PCB) (st : Nat)
    (s' : KState) (hL : s.ptable.length = NPROC) (hp : s.ptable.get? pIdx = some p)
    (hlive : ¬ (p.state = UNUSED ∨ p.state = KILLED))
    (hnp : p.ppid ≠ p.pid)
    (hr : pIdx ∉ s.readyQue) (hw : pIdx ∉ s.waitList)
    (he : exit s pIdx st true = some s') :
    (∀ π, get_process s p.ppid = some π →
      ((pcbD s π).state ≠ KILLED →
        (pcbD s' π).signals = (pcbD s π).signals ||| (1 <<< SIGCHLD) ∧
        (pcbD s' π).status = p.status ||| (st &&& 0x7f) ∧
        (pcbD s' pIdx).ppid =
          (if (pcbD s π).wpid ≥ 0 ∧ (pcbD s π).wpid ≠ p.pid then 1 else p.ppid)) ∧
      ((pcbD s π).state = KILLED → (pcbD s' pIdx).ppid = 1)) ∧
    (get_process s p.ppid = none → (pcbD s' pIdx).ppid = 1) ∧
    (∀ i, i ∈ List.range' 1 (NPROC - 1) → i ≠ pIdx → (pcbD s i).state ≠ UNUSED →
      (pcbD s i).ppid = p.pid → (pcbD s' i).ppid = 1) := by
  have hlen : pIdx < s.ptable.length := by
    rw [List.get?_eq_getElem?] at hp
    rcases List.getElem?_eq_some.mp hp with ⟨h, _⟩
    exact h
  have hpp0 : pcbD s pIdx = p := pcbD_eq_of_get? hp
  have hnu : (pcbD s pIdx).state ≠ UNUSED := by
    rw [hpp0]; intro hc; exact hlive (Or.inl hc)
  unfold exit at he
  rw [hp] at he
  dsimp only at he
  rw [if_neg hlive, if_pos rfl] at he
  have hs' : s' = exit_book s pIdx st true := by
    cases he; rfl
  subst hs'
  unfold exit_book
  set s1 := exit_pack s pIdx st true with hs1
  set pp := pcbD s1 pIdx with hpp
  set parent := get_process s1 pp.ppid with hparent
  set s2 := exit_notify pp parent s1 pIdx with hs2
  set s3 := switch_parent s2 pp.pid 1 with hs3
  set s4 := fg_handover s3 pp.pid parent with hs4
  set s5 := if ¬ pp.daemon then wake_up s4 FG_PAUSED else s4 with hs5
  have hppv : pp =
      { p with
        status := p.status ||| (st &&& 0x7f)
        state := KILLED
        event := p.pid } := by
    rw [hpp, hs1]
    unfold exit_pack
    rw [pcbD_updP_self _ _ _ hlen, hpp0]
    simp
  have hl1 : s1.ptable.length = s.ptable.length := by rw [hs1]; exact updP_length _ _ _
  have hother1 : ∀ i, i ≠ pIdx → pcbD s1 i = pcbD s i := by
    intro i hi
    rw [hs1]
    exact pcbD_updP_other s pIdx _ i hi
  have hparent' : parent = get_process s p.ppid := by
    rw [hparent, show pp.ppid = p.ppid from by rw [hppv], hs1,
      get_process_exit_pack s pIdx st true p.ppid hnu]
  -- per-field preservation through the tail of the chain (s4 → result)
  have tail_sig : ∀ j,
      (pcbD (wake_up (pushZombie s5 pIdx) ZOMBIE_CLEANUP) j).signals =
        (pcbD s4 j).signals := by
    intro j
    rw [wake_up_keep PCB.signals _ _ (fun q => rfl) (fun q => rfl) j, pcbD_pushZombie, hs5]
    by_cases hd : pp.daemon
    · rw [if_neg (by simp [hd])]
    · rw [if_pos (by simp [hd]), wake_up_keep PCB.signals s4 _ (fun q => rfl) (fun q => rfl) j]
  have tail_stat : ∀ j,
      (pcbD (wake_up (pushZombie s5 pIdx) ZOMBIE_CLEANUP) j).status =
        (pcbD s4 j).status := by
    intro j
    rw [wake_up_keep PCB.status _ _ (fun q => rfl) (fun q => rfl) j, pcbD_pushZombie, hs5]
    by_cases hd : pp.daemon
    · rw [if_neg (by simp [hd])]
    · rw [if_pos (by simp [hd]), wake_up_keep PCB.status s4 _ (fun q => rfl) (fun q => rfl) j]
  have tail_ppid : ∀ j,
      (pcbD (wake_up (pushZombie s5 pIdx) ZOMBIE_CLEANUP) j).ppid =
        (pcbD s4 j).ppid := by
    intro j
    rw [wake_up_keep PCB.ppid _ _ (fun q => rfl) (fun q => rfl) j, pcbD_pushZombie, hs5]
    by_cases hd : pp.daemon
    · rw [if_neg (by simp [hd])]
    · rw [if_pos (by simp [hd]), wake_up_keep PCB.ppid s4 _ (fun q => rfl) (fun q => rfl) j]
  have h4 : ∀ j, pcbD s4 j = pcbD s3 j := by
    intro j
    rw [hs4]
    exact pcbD_fg_handover s3 _ _ j
  have hl2 : s2.ptable.length = s.ptable.length := by
    rw [hs2, exit_notify_length, hl1]
  refine ⟨?_, ?_, ?_⟩
  · -- parent exists
    intro π hπ
    have hπs1 : parent = some π := by rw [hparent']; exact hπ
    have hπlt : π < NPROC ∧ 1 ≤ π ∧ (pcbD s π).state ≠ UNUSED ∧ (pcbD s π).pid = p.ppid := by
      obtain ⟨a, b, c, d, e⟩ := get_process_spec s p.ppid π hπ
      exact ⟨c, b, d, e⟩
    have hπpid : π ≠ pIdx := by
      intro hcon
      apply hnp
      rw [← hπlt.2.2.2, hcon, hpp0]
    have hπlen : π < s.ptable.length := by rw [hL]; exact hπlt.1
    have hs1π : pcbD s1 π = pcbD s π := hother1 π hπpid
    constructor
    · -- parent not KILLED
      intro hpk
      have heff := exit_notify_effect_live pp π s1 pIdx hπpid
        (by rw [hl1]; exact hπlen) (by rw [hl1]; exact hlen)
        (by rw [hs1π]; exact hpk)
      rw [← hπs1, ← hs2] at heff
      obtain ⟨e1, e2, e3, _, _, _⟩ := heff
      have hsw_sig : (pcbD s3 π).signals = (pcbD s2 π).signals := by
        rw [hs3]; exact switch_parent_keep PCB.signals s2 _ 1 (fun q => rfl) π
      have hsw_stat : (pcbD s3 π).status = (pcbD s2 π).status := by
        rw [hs3]; exact switch_parent_keep PCB.status s2 _ 1 (fun q => rfl) π
      refine ⟨?_, ?_, ?_⟩
      · rw [tail_sig π, h4 π, hsw_sig, e1, hs1π]
      · rw [tail_stat π, h4 π, hsw_stat, e2]
        rw [show pp.status = p.status ||| (st &&& 0x7f) from by rw [hppv]]
      · -- ppid of the dying process
        have hppid1 : (pcbD s1 pIdx).ppid = p.ppid := by
          rw [← hpp, hppv]
        have hpid_eq : pp.pid = p.pid := by rw [hppv]
        have hval : (pcbD s2 pIdx).ppid =
            (if (pcbD s π).wpid ≥ 0 ∧ (pcbD s π).wpid ≠ p.pid then 1 else p.ppid) := by
          rw [e3, hs1π, hppid1, hpid_eq]
        have hsw : (pcbD s3 pIdx).ppid = (pcbD s2 pIdx).ppid := by
          rw [hs3, switch_parent_pcbD]
          split
          · next hc =>
            have h1 : (pcbD s2 pIdx).ppid = pp.pid := hc.2.1.2
            show (1 : Int) = (pcbD s2 pIdx).ppid
            rw [hval]
            rw [hval, hpid_eq] at h1
            split at h1
            · rw [if_pos (by assumption)]
            · exact absurd h1 hnp
          · rfl
        rw [tail_ppid pIdx, h4 pIdx, hsw, hval]
    · -- parent KILLED
      intro hpk
      have heff := exit_notify_effect_dead pp parent s1 pIdx (by rw [hl1]; exact hlen)
        (Or.inr ⟨π, hπs1, by rw [hs1π]; exact hpk⟩)
      rw [← hs2] at heff
      have hsw : (pcbD s3 pIdx).ppid = 1 := by
        rw [hs3, switch_parent_pcbD]
        split
        · next hc => rfl
        · exact heff.1
      rw [tail_ppid pIdx, h4 pIdx, hsw]
  · -- no parent
    intro hπ
    have hnone : parent = none := by rw [hparent']; exact hπ
    have heff := exit_notify_effect_dead pp parent s1 pIdx (by rw [hl1]; exact hlen)
      (Or.inl hnone)
    rw [← hs2] at heff
    have hsw : (pcbD s3 pIdx).ppid = 1 := by
      rw [hs3, switch_parent_pcbD]
      split
      · next hc => rfl
      · exact heff.1
    rw [tail_ppid pIdx, h4 pIdx, hsw]
  · -- reparenting of children
    intro i hiR hiP hiU hiPP
    have hs1i : pcbD s1 i = pcbD s i := hother1 i hiP
    have hko := exit_notify_keep_other pp parent s1 pIdx
    rw [← hs2] at hko
    have hstate2 : (pcbD s2 i).state = (pcbD s i).state := by
      rw [hko.1 i, hs1i]
    have hppid2 : (pcbD s2 i).ppid = (pcbD s i).ppid := by
      rw [hko.2 i hiP, hs1i]
    have hilen : i < s2.ptable.length := by
      have h := List.mem_range'.mp hiR
      rw [hl2, hL]
      simp only [NPROC] at h ⊢
      omega
    have hswr : (pcbD s3 i).ppid = 1 := by
      have hcond : (i ∈ List.range' 1 (NPROC - 1)) ∧
          ((pcbD s2 i).state ≠ UNUSED ∧ (pcbD s2 i).ppid = pp.pid) ∧
          i < s2.ptable.length := by
        refine ⟨hiR, ⟨?_, ?_⟩, hilen⟩
        · rw [hstate2]; exact hiU
        · rw [hppid2, hiPP, show pp.pid = p.pid from by rw [hppv]]
      rw [hs3, switch_parent_pcbD, if_pos hcond]
    rw [tail_ppid i, h4 i, hswr]

theorem exit_parent_notify_and_reparent_witness :
    ∃ s', exit sFork 1 0 true = some s' ∧
      (pcbD s' 1).ppid = 1 ∧ (pcbD s' 2).ppid = 1 := by
  have h := exit_parent_notify_and_reparent sFork 1 (pcbD sFork 1) 0
    ((exit sFork 1 0 true).getD sFork) (by decide) (by decide) (by decide) (by decide)
    (by decide) (by decide) (by decide)
  exact ⟨(exit sFork 1 0 true).getD sFork, by decide,
    h.2.1 (by decide), h.2.2 2 (by decide) (by decide) (by decide) (by decide)⟩

/-!  ## C3: the -1 returns of wait -/

lemma get_process_updP_keep (s : KState) (c : Nat) (f : PCB → PCB)
    (hst : ∀ q, (f q).state = q.state) (hpid : ∀ q, (f q).pid = q.pid) (x : Int) :
    get_process (updP s c f) x = get_process s x := by
  unfold get_process
  apply find?_congr_mem
  intro i _
  rw [updP_keep PCB.state s c f (hst _) i, updP_keep PCB.pid s c f (hpid _) i]

/-- C3 (amended): `wait` (process.c:386-417) returns -1 for `pid = 0` or
`pid < -1`; for `pid = -1` it returns -1 when the caller has no live or
zombie child; but for `pid > 0` the existence check is `get_process(pid)` —
any live-or-zombie process with that pid, with no parentage test — so -1 is
returned exactly when no such process exists at all, and never when one
exists, child of the caller or not. -/
theorem wait_minus_one_returns (s : KState) (pid : Int) (options : Nat) :
    ((pid = 0 ∨ pid < -1) → wait s pid options = some (s, WRes.ret (-1))) ∧
    (pid = -1 →
      (List.range' 1 (NPROC - 1)).filter (fun i =>
          (pcbD s i).state != UNUSED &&
          (pcbD s i).ppid == (pcbD s s.curr).pid) = [] →
      wait s pid options =
        some (updP s s.curr (fun q => { q with wpid := pid }), WRes.ret (-1))) ∧
    (0 < pid → get_process s pid = none →
      wait s pid options =
        some (updP s s.curr (fun q => { q with wpid := pid }), WRes.ret (-1))) ∧
    (0 < pid → (get_process s pid).isSome = true →
      ∀ s', wait s pid options ≠ some (s', WRes.ret (-1))) := by
  refine ⟨?_, ?_, ?_, ?_⟩
  · intro h
    unfold wait
    rw [if_pos h]
  · intro hpid hnil
    subst hpid
    unfold wait
    rw [if_neg (by decide : ¬((-1 : Int) = 0 ∨ (-1 : Int) < -1))]
    dsimp only
    rw [if_pos rfl]
    dsimp only
    have hfil : (List.range' 1 (NPROC - 1)).filter (fun i =>
        (pcbD (updP s s.curr (fun q => { q with wpid := (-1 : Int) })) i).state != UNUSED &&
        (pcbD (updP s s.curr (fun q => { q with wpid := (-1 : Int) })) i).ppid ==
          (pcbD (updP s s.curr (fun q => { q with wpid := (-1 : Int) }))
            (updP s s.curr (fun q => { q with wpid := (-1 : Int) })).curr).pid) = [] := by
      have hpt : ∀ i ∈ List.range' 1 (NPROC - 1),
          ((pcbD (updP s s.curr (fun q => { q with wpid := (-1 : Int) })) i).state != UNUSED &&
           (pcbD (updP s s.curr (fun q => { q with wpid := (-1 : Int) })) i).ppid ==
             (pcbD (updP s s.curr (fun q => { q with wpid := (-1 : Int) }))
               (updP s s.curr (fun q => { q with wpid := (-1 : Int) })).curr).pid) =
          ((pcbD s i).state != UNUSED && (pcbD s i).ppid == (pcbD s s.curr).pid) := by
        intro i _
        rw [show (updP s s.curr (fun q => { q with wpid := (-1 : Int) })).curr = s.curr
            from rfl,
          updP_keep PCB.state s s.curr _ rfl i, updP_keep PCB.ppid s s.curr _ rfl i,
          updP_keep PCB.pid s s.curr _ rfl s.curr]
      rw [List.filter_congr hpt, hnil]
    rw [hfil]
    simp
  · intro hpos hnone
    unfold wait
    rw [if_neg (by omega : ¬(pid = 0 ∨ pid < -1))]
    dsimp only
    rw [if_neg (by omega : ¬pid = -1)]
    dsimp only
    rw [get_process_updP_keep s s.curr (fun q => { q with wpid := pid })
      (fun q => rfl) (fun q => rfl) pid, hnone]
    simp
  · intro hpos hsome s' hw
    unfold wait at hw
    rw [if_neg (by omega : ¬(pid = 0 ∨ pid < -1))] at hw
    dsimp only at hw
    rw [if_neg (by omega : ¬pid = -1)] at hw
    dsimp only at hw
    rw [get_process_updP_keep s s.curr (fun q => { q with wpid := pid })
      (fun q => rfl) (fun q => rfl) pid, hsome] at hw
    rw [if_neg (not_not_intro rfl)] at hw
    split at hw
    · split at hw
      · simp only [Option.some.injEq, Prod.mk.injEq, WRes.ret.injEq] at hw
        omega
      · simp only [bind, Option.bind_eq_some] at hw
        obtain ⟨s3, _, hw2⟩ := hw
        simp only [Option.some.injEq, Prod.mk.injEq, WRes.ret.injEq] at hw2
        omega
    · split at hw
      · simp only [Option.some.injEq, Prod.mk.injEq, WRes.ret.injEq] at hw
        omega
      · simp only [Option.map_eq_some'] at hw
        obtain ⟨a, _, heq⟩ := hw
        simp only [Prod.mk.injEq] at heq
        cases heq.2

/-- The -1 return of `wait` at a concrete input: from `sInit` no process with
pid 5 exists, and `wait(5, 0)` reports -1. -/
theorem wait_minus_one_returns_witness :
    wait sInit 5 0 =
      some (updP sInit sInit.curr (fun q => { q with wpid := 5 }), WRes.ret (-1)) :=
  (wait_minus_one_returns sInit 5 0).2.2.1 (by decide) (by decide)

/-- C3, counterexample.  In the reachable state `sBack` the caller is init
(slot 1, pid 1), no process-table slot is a child of init with pid 3, yet
pid 3 exists (the grandchild, a child of pid 2) — and `wait(3, WNOHANG)`
returns 0, not -1: the pid > 0 path of `wait` checks only that some process
with that pid exists, never that it is a child of the caller. -/
theorem wait_foreign_pid_not_rejected :
    Reach sBack ∧ sBack.curr = 1 ∧
    (∀ i, i < NPROC → ¬((pcbD sBack i).state ≠ UNUSED ∧
        (pcbD sBack i).ppid = (pcbD sBack sBack.curr).pid ∧
        (pcbD sBack i).pid = 3)) ∧
    (pcbD sBack 3).pid = 3 ∧ (pcbD sBack 3).state ≠ UNUSED ∧
    wait sBack 3 WNOHANG =
      some (updP sBack sBack.curr (fun q => { q with wpid := 3 }), WRes.ret 0) :=
  ⟨reach_sBack, by decide, by decide, by decide, by decide, by decide⟩

/-!  ## C5: the SIGHUP zombie release -/

/-- C5, code bug.  The inner fd-release loop of the `kill(-1, SIGHUP)` zombie
sweep (process.c:634-648) redeclares the loop index `i`, so instead of
walking the zombie's own `fd_table[0..MAX_OPEN_FILES)` it walks the diagonal
`process_table[i].fd_table[i]`.  In the reachable state `uExitB` the zombie B
(slot 3, ppid 2 ≠ 1) holds fd 0 on entry 0/inode 0 (both at ref_count 2);
the broadcast releases the slot (state UNUSED, stack freed) and resets the
pid counter to 2, yet the zombie's open-file reference is never dropped:
entry 0 and inode 0 still hold ref_count 2 afterwards, leaking both. -/
theorem sighup_zombie_release_skips_fds :
    Reach uExitB ∧
    ((pcbD uExitB 3).state = KILLED ∧ (pcbD uExitB 3).ppid = 2 ∧
      (pcbD uExitB 3).fd_table.getD 0 none = some 0 ∧
      uExitB.gft.get? 0 = some { inode := some 0, ref_count := 2 } ∧
      uExitB.itable.get? 0 = some { dir_index := 0, ref_count := 2 }) ∧
    kill uExitB (-1) 1 = some (uHup, 0) ∧
    ((pcbD uHup 3).state = UNUSED ∧ (pcbD uHup 3).stackAlloc = false ∧
      uHup.pidNum = 2 ∧
      uHup.gft.get? 0 = some { inode := some 0, ref_count := 2 } ∧
      uHup.itable.get? 0 = some { dir_index := 0, ref_count := 2 }) :=
  ⟨reach_uExitB, by decide, by decide, by decide⟩

/-!  ## C6: the shutdown x5 handshake -/

/-- C6, code bug.  On shutdown the scheduler does set the flag
(process.c:171-179), but the x5 := 1 write of `switch_process`
(process.c:142-147) is guarded by `existing->reg_context != NULL` — and the
idle process's `reg_context` is never initialised, because
`alloc_new_process` skips slot 0 and nothing else writes it.  In the
reachable state `uDown` (init exits last, idle has SIGTERM pending, both
queues empty) the shutdown flag is set and idle is current, yet idle's saved
frame pointer is still NULL, so `resume_mark` — the modelled post-switch
write — leaves the state unchanged and x5 is never set. -/
theorem shutdown_x5_never_written :
    Reach uDown ∧ uDown.shutdown = true ∧ uDown.curr = 0 ∧
    (pcbD uDown 0).signals.testBit SIGTERM = true ∧
    uDown.readyQue = [] ∧ uDown.waitList = [] ∧
    (pcbD uDown 0).regContext = none ∧
    resume_mark uDown = uDown :=
  ⟨reach_uDown, by decide, by decide, by decide, by decide, by decide, by decide,
    by decide⟩

/-!  ## C1: open-file reference counts across fork -/

/-- The number of descriptors in `fds` referring to file-table entry `ε`. -/
def countFd (fds : List (Option Nat)) (ε : Nat) : Nat :=
  (fds.filter (fun o => o == some ε)).length

/-- The number of descriptors in `fds` whose file-table entry (looked up in
`g`) refers to inode `j`. -/
def countIno (fds : List (Option Nat)) (g : List FileEntry) (j : Nat) : Nat :=
  (fds.filter (fun o =>
    match o with
    | some e => (g.getD e { inode := none, ref_count := 0 }).inode == some j
    | none => false)).length

lemma getD_set {α : Type} (l : List α) (i : Nat) (a : α) (d : α) (hi : i < l.length)
    (j : Nat) :
    (l.set i a).getD j d = if i = j then a else l.getD j d := by
  simp only [List.getD_eq_getElem?_getD, List.getElem?_set]
  split
  · rfl
  · rfl

lemma countIno_congr (fds : List (Option Nat)) (g1 g2 : List FileEntry) (j : Nat)
    (h : ∀ e, (g1.getD e { inode := none, ref_count := 0 }).inode =
      (g2.getD e { inode := none, ref_count := 0 }).inode) :
    countIno fds g1 j = countIno fds g2 j := by
  unfold countIno
  exact congrArg List.length (List.filter_congr (fun o _ => by
    rcases o with _ | e
    · rfl
    · dsimp only
      rw [h e]))

/-- Effect of the fork fd-sharing loop (process.c:485-492): every descriptor
bumps its entry's ref_count and its inode's ref_count by one each; no inode
pointer changes. -/
lemma acquire_fold_counts :
    ∀ (fds : List (Option Nat)) (st st' : KState),
      fds.foldlM (fun st o =>
        match o with | none => some st | some e => acquireEntry st e) st = some st' →
      st'.gft.length = st.gft.length ∧ st'.itable.length = st.itable.length ∧
      (∀ ε, (st'.gft.getD ε { inode := none, ref_count := 0 }).inode =
        (st.gft.getD ε { inode := none, ref_count := 0 }).inode) ∧
      (∀ ε, (st'.gft.getD ε { inode := none, ref_count := 0 }).ref_count =
        (st.gft.getD ε { inode := none, ref_count := 0 }).ref_count +
          (countFd fds ε : Int)) ∧
      (∀ j, (st'.itable.getD j { dir_index := 0, ref_count := 0 }).ref_count =
        (st.itable.getD j { dir_index := 0, ref_count := 0 }).ref_count +
          (countIno fds st.gft j : Int)) := by
  intro fds
  induction fds with
  | nil =>
    intro st st' h
    rw [List.foldlM_nil] at h
    injection h with h1
    subst h1
    refine ⟨rfl, rfl, fun ε => rfl, fun ε => ?_, fun j => ?_⟩
    · simp [countFd]
    · simp [countIno]
  | cons o t ih =>
    intro st st' h
    rw [List.foldlM_cons] at h
    rcases o with _ | e
    · dsimp only at h
      obtain ⟨st1, hsome, hrest⟩ := Option.bind_eq_some.mp h
      injection hsome with hh
      subst hh
      obtain ⟨l1, l2, l3, l4, l5⟩ := ih st st' hrest
      refine ⟨l1, l2, l3, fun ε => ?_, fun j => ?_⟩
      · rw [l4 ε]
        simp [countFd, List.filter_cons]
      · rw [l5 j]
        simp [countIno, List.filter_cons]
    · dsimp only at h
      obtain ⟨st1, hacq, hrest⟩ := Option.bind_eq_some.mp h
      simp only [acquireEntry, bind, Option.bind_eq_some, Option.some.injEq] at hacq
      obtain ⟨fe, hfe, j0, hj0, ino, hino, hst1⟩ := hacq
      rw [List.get?_eq_getElem?] at hfe hino
      rcases List.getElem?_eq_some.mp hfe with ⟨he_lt, hfe_val⟩
      rcases List.getElem?_eq_some.mp hino with ⟨hj_lt, hino_val⟩
      have hgetDe : st.gft.getD e { inode := none, ref_count := 0 } = fe := by
        rw [List.getD_eq_getElem?_getD, hfe]
        rfl
      have hgetDj : st.itable.getD j0 { dir_index := 0, ref_count := 0 } = ino := by
        rw [List.getD_eq_getElem?_getD, hino]
        rfl
      have hg1 : st1.gft = st.gft.set e { fe with ref_count := fe.ref_count + 1 } := by
        rw [← hst1]
      have hi1 : st1.itable =
          st.itable.set j0 { ino with ref_count := ino.ref_count + 1 } := by
        rw [← hst1]
      obtain ⟨l1, l2, l3, l4, l5⟩ := ih st1 st' hrest
      have hino_field : ∀ ε, (st1.gft.getD ε { inode := none, ref_count := 0 }).inode =
          (st.gft.getD ε { inode := none, ref_count := 0 }).inode := by
        intro ε
        rw [hg1, getD_set _ _ _ _ he_lt ε]
        split
        · next hee => rw [← hee, hgetDe]
        · rfl
      refine ⟨?_, ?_, fun ε => (l3 ε).trans (hino_field ε), fun ε => ?_, fun j => ?_⟩
      · rw [l1, hg1]
        simp
      · rw [l2, hi1]
        simp
      · rw [l4 ε, hg1, getD_set _ _ _ _ he_lt ε]
        by_cases hee : e = ε
        · subst hee
          rw [if_pos rfl, hgetDe]
          have hcnt : countFd (some e :: t) e = countFd t e + 1 := by
            simp [countFd, List.filter_cons]
          rw [hcnt]
          push_cast
          ring
        · rw [if_neg hee]
          have hcnt : countFd (some e :: t) ε = countFd t ε := by
            simp [countFd, List.filter_cons, hee]
          rw [hcnt]
      · rw [l5 j, countIno_congr t st1.gft st.gft j hino_field, hi1,
          getD_set _ _ _ _ hj_lt j]
        by_cases hjj : j0 = j
        · subst hjj
          rw [if_pos rfl, hgetDj]
          have hcnt : countIno (some e :: t) st.gft j0 = countIno t st.gft j0 + 1 := by
            simp [countIno, List.filter_cons, hfe, hj0]
          rw [hcnt]
          push_cast
          ring
        · rw [if_neg hjj]
          have hcnt : countIno (some e :: t) st.gft j = countIno t st.gft j := by
            simp [countIno, List.filter_cons, hfe, hj0, hjj]
          rw [hcnt]

/-- C1 (amended): `fork` shares the parent's open files by taking one
reference per descriptor on both the open-file entry and its inode
(process.c:485-492) — the inode's ref_count grows together with the entry's,
so after open + fork the shared entry has ref_count 2 and its inode also has
ref_count 2 (not 1): the code counts inode references per file-entry
reference, not per pointing entry. -/
theorem fork_shares_open_files (s s' : KState) (r : Int) (ci : Nat)
    (halloc : find_unused_slot s = some ci)
    (h : fork s true = some (s', r)) :
    s'.gft.length = s.gft.length ∧ s'.itable.length = s.itable.length ∧
    (∀ ε, (s'.gft.getD ε { inode := none, ref_count := 0 }).inode =
        (s.gft.getD ε { inode := none, ref_count := 0 }).inode) ∧
    (∀ ε, (s'.gft.getD ε { inode := none, ref_count := 0 }).ref_count =
        (s.gft.getD ε { inode := none, ref_count := 0 }).ref_count +
          (countFd (pcbD s s.curr).fd_table ε : Int)) ∧
    (∀ j, (s'.itable.getD j { dir_index := 0, ref_count := 0 }).ref_count =
        (s.itable.getD j { dir_index := 0, ref_count := 0 }).ref_count +
          (countIno (pcbD s s.curr).fd_table s.gft j : Int)) := by
  unfold fork at h
  rcases halloc2 : alloc_new_process s with _ | ⟨s2, ci'⟩
  · exfalso
    unfold alloc_new_process at halloc2
    rw [halloc] at halloc2
    simp at halloc2
  rw [halloc2] at h
  dsimp only at h
  rw [if_neg (not_not_intro rfl)] at h
  simp only [bind, Option.bind_eq_some, Option.some.injEq, Prod.mk.injEq] at h
  obtain ⟨s6, hfold, pf, hpf, h3, h4⟩ := h
  -- facts about the allocated state s2
  unfold alloc_new_process at halloc2
  rw [halloc] at halloc2
  simp only [Option.some.injEq, Prod.mk.injEq] at halloc2
  obtain ⟨hs2, hci⟩ := halloc2
  have hg2 : s2.gft = s.gft := by
    rw [← hs2]
    rfl
  have hi2 : s2.itable = s.itable := by
    rw [← hs2]
    rfl
  have hc2 : s2.curr = s.curr := by
    rw [← hs2]
    rfl
  have hfd2 : (pcbD s2 s2.curr).fd_table = (pcbD s s.curr).fd_table := by
    rw [hc2, ← hs2]
    exact updP_keep PCB.fd_table s ci (fun q =>
      { q with
        stackAlloc := true, state := INIT, status := 0, signals := 0,
        wpid := 0, pid := s.pidNum,
        regContext := some { x0 := 0, x5 := 0 }, pageMapAlloc := true }) rfl s.curr
  have H := acquire_fold_counts _ _ _ hfold
  simp only [updP_gft, updP_itable, fg_yield_gft, fg_yield_itable, hg2, hi2, hfd2] at H
  have hg' : s'.gft = s6.gft := by
    rw [← h3]
    simp
  have hi' : s'.itable = s6.itable := by
    rw [← h3]
    simp
  obtain ⟨H1, H2, H3, H4, H5⟩ := H
  refine ⟨?_, ?_, fun ε => ?_, fun ε => ?_, fun j => ?_⟩
  · rw [hg', H1]
  · rw [hi', H2]
  · rw [hg', H3 ε]
  · rw [hg', H4 ε]
  · rw [hi', H5 j]

theorem fork_shares_open_files_witness :
    (sFork.gft.getD 0 { inode := none, ref_count := 0 }).ref_count =
      (sOpen.gft.getD 0 { inode := none, ref_count := 0 }).ref_count +
        (countFd (pcbD sOpen sOpen.curr).fd_table 0 : Int) ∧
    (sFork.itable.getD 0 { dir_index := 0, ref_count := 0 }).ref_count =
      (sOpen.itable.getD 0 { dir_index := 0, ref_count := 0 }).ref_count +
        (countIno (pcbD sOpen sOpen.curr).fd_table sOpen.gft 0 : Int) := by
  have h := fork_shares_open_files sOpen sFork 2 2 (by decide) (by decide)
  exact ⟨h.2.2.2.1 0, h.2.2.2.2 0⟩

/-- C1, counterexample.  In the reachable state `sFork` (init opened the
root-directory file at index 0, then forked), parent and child share fd 0 on
open-file entry 0, which has ref_count 2 — but its inode also has
ref_count 2, while only one open-file entry points at it.  Both the claimed
invariant `inode.ref_count = |pointing entries|` and the claimed post-fork
`inode.ref_count = 1` are refuted: fork bumps the inode count once per
descriptor (process.c:485-492). -/
theorem inode_refcount_not_pointer_count :
    Reach sFork ∧
    (pcbD sFork 1).fd_table.getD 0 none = some 0 ∧
    (pcbD sFork 2).fd_table.getD 0 none = some 0 ∧
    sFork.gft.getD 0 { inode := none, ref_count := 0 } =
      { inode := some 0, ref_count := 2 } ∧
    (sFork.gft.filter (fun e => e.inode == some 0)).length = 1 ∧
    sFork.itable.getD 0 { dir_index := 0, ref_count := 0 } =
      { dir_index := 0, ref_count := 2 } :=
  ⟨reach_sFork, by decide, by decide, by decide, by decide, by decide⟩

/-!  ## C8: round-robin scheduling -/

/-- A signal check on a process with no pending signals changes nothing. -/
lemma cps_zero (st : KState) (pIdx : Nat) (h : (pcbD st pIdx).signals = 0) :
    check_pending_signals st pIdx = st := by
  unfold check_pending_signals
  refine foldl_preserve (fun s2 => s2 = st) _ _ ?_ st rfl
  intro s2 sig _ hP
  dsimp only
  subst hP
  rw [h, if_neg (by simp)]

/-- When the head of the ready queue survives its signal check, `schedule`'s
selection loop pops and returns it at once. -/
lemma scheduleLoop_dispatch (fuel : Nat) (s : KState) (hd : Nat) (t : List Nat)
    (hq : s.readyQue = hd :: t) (hcps : check_pending_signals s hd = s) :
    scheduleLoop (fuel + 1) s = some (setReady s t, some hd) := by
  unfold scheduleLoop
  rw [hq]
  dsimp only
  rw [hcps, hq]
  dsimp only
  rw [if_pos rfl]

lemma resume_mark_of_pid_ne (s : KState) (h : (pcbD s s.curr).pid ≠ 0) :
    resume_mark s = s := by
  unfold resume_mark
  dsimp only
  rw [if_neg (fun hc => h hc.2)]

/-- `schedule` on a signal-free ready-queue head: pop it, mark it RUNNING,
make it current (claiming the foreground if eligible); the shutdown check and
the x5 write do not fire for a nonzero pid. -/
lemma schedule_dispatch (s : KState) (hd : Nat) (t : List Nat)
    (hq : s.readyQue = hd :: t) (hcps : check_pending_signals s hd = s)
    (hpid : (pcbD s hd).pid ≠ 0) :
    schedule s = some (claim_fg (setCurr (updP (setReady s t) hd
      (fun q => { q with state := RUNNING })) hd) hd) := by
  have hsl : scheduleLoop SCHED_FUEL s = some (setReady s t, some hd) := by
    rw [show SCHED_FUEL = 63 + 1 from rfl]
    exact scheduleLoop_dispatch 63 s hd t hq hcps
  unfold schedule
  rw [hsl]
  show some (resume_mark (claim_fg (setCurr (updP (setReady s t) hd
      (fun q => { q with state := RUNNING })) hd) hd)) = _
  rw [resume_mark_of_pid_ne]
  simp only [claim_fg_curr, setCurr_curr, pcbD_claim_fg, pcbD_setCurr]
  rw [updP_keep PCB.pid _ hd _ rfl hd, pcbD_setReady]
  exact hpid

/-- The round-robin invariant of C8: `x` is running, `y` and `z` wait in the
ready queue in that order, all three are user processes (nonzero pid) with no
pending signals. -/
def rrInv (s : KState) (x y z : Nat) : Prop :=
  s.readyQue = [y, z] ∧ s.curr = x ∧ (pcbD s x).state = RUNNING ∧
  (pcbD s x).pid ≠ 0 ∧ (pcbD s y).pid ≠ 0 ∧ (pcbD s z).pid ≠ 0 ∧
  (pcbD s x).signals = 0 ∧ (pcbD s y).signals = 0 ∧ (pcbD s z).signals = 0 ∧
  x < s.ptable.length ∧ y < s.ptable.length ∧ z < s.ptable.length

/-- One timer tick rotates the round-robin: the running `x` is re-enqueued at
the tail and the queue head `y` is dispatched. -/
lemma rr_rotate (s : KState) (x y z : Nat) (h : rrInv s x y z) :
    ∃ s', trigger_scheduler s = some s' ∧ rrInv s' y z x := by
  obtain ⟨hq, hc, hxr, hxp, hyp, hzp, hxs, hys, hzs, hxl, hyl, hzl⟩ := h
  have hpid1 : (pcbD (updP s x (fun q => { q with state := READY })) x).pid ≠ 0 := by
    rw [updP_keep PCB.pid s x _ rfl x]
    exact hxp
  have hq2 : (pushReady (updP s x (fun q => { q with state := READY })) x).readyQue
      = y :: [z, x] := by
    simp [hq]
  have hsig2 : ∀ i,
      (pcbD (pushReady (updP s x (fun q => { q with state := READY })) x) i).signals
      = (pcbD s i).signals := by
    intro i
    rw [pcbD_pushReady, updP_keep PCB.signals s x _ rfl i]
  have hpid2 : ∀ i,
      (pcbD (pushReady (updP s x (fun q => { q with state := READY })) x) i).pid
      = (pcbD s i).pid := by
    intro i
    rw [pcbD_pushReady, updP_keep PCB.pid s x _ rfl i]
  have hcps : check_pending_signals
        (pushReady (updP s x (fun q => { q with state := READY })) x) y
      = pushReady (updP s x (fun q => { q with state := READY })) x :=
    cps_zero _ y (by rw [hsig2 y]; exact hys)
  have hsched := schedule_dispatch _ y [z, x] hq2 hcps (by rw [hpid2 y]; exact hyp)
  have htrig : trigger_scheduler s = some (claim_fg (setCurr (updP (setReady
      (pushReady (updP s x (fun q => { q with state := READY })) x) [z, x]) y
      (fun q => { q with state := RUNNING })) y) y) := by
    unfold trigger_scheduler
    rw [hq, if_neg (by simp : ¬([y, z] : List Nat).isEmpty = true)]
    dsimp only
    rw [hc, if_pos hpid1]
    exact hsched
  refine ⟨_, htrig, ?_⟩
  · have hlen5 : y < (setReady (pushReady (updP s x
        (fun q => { q with state := READY })) x) [z, x]).ptable.length := by
      simpa using hyl
    refine ⟨?_, ?_, ?_, ?_, ?_, ?_, ?_, ?_, ?_, ?_, ?_, ?_⟩
    · simp
    · simp
    · rw [pcbD_claim_fg, pcbD_setCurr, pcbD_updP_self _ _ _ hlen5]
    · rw [pcbD_claim_fg, pcbD_setCurr, updP_keep PCB.pid _ y _ rfl y, pcbD_setReady,
        pcbD_pushReady, updP_keep PCB.pid s x _ rfl y]
      exact hyp
    · rw [pcbD_claim_fg, pcbD_setCurr, updP_keep PCB.pid _ y _ rfl z, pcbD_setReady,
        pcbD_pushReady, updP_keep PCB.pid s x _ rfl z]
      exact hzp
    · rw [pcbD_claim_fg, pcbD_setCurr, updP_keep PCB.pid _ y _ rfl x, pcbD_setReady,
        pcbD_pushReady, updP_keep PCB.pid s x _ rfl x]
      exact hxp
    · rw [pcbD_claim_fg, pcbD_setCurr, updP_keep PCB.signals _ y _ rfl y, pcbD_setReady,
        pcbD_pushReady, updP_keep PCB.signals s x _ rfl y]
      exact hys
    · rw [pcbD_claim_fg, pcbD_setCurr, updP_keep PCB.signals _ y _ rfl z, pcbD_setReady,
        pcbD_pushReady, updP_keep PCB.signals s x _ rfl z]
      exact hzs
    · rw [pcbD_claim_fg, pcbD_setCurr, updP_keep PCB.signals _ y _ rfl x, pcbD_setReady,
        pcbD_pushReady, updP_keep PCB.signals s x _ rfl x]
      exact hxs
    · simpa using hyl
    · simpa using hzl
    · simpa using hxl

/-- Iterated timer ticks. -/
def trigN : Nat → KState → Option KState
  | 0, s => some s
  | n + 1, s => (trigger_scheduler s).bind (trigN n)

/-- The process due after `k` rotations of a 3-cycle. -/
def cyc3 (x y z : Nat) : Nat → Nat
  | 0 => x
  | 1 => y
  | _ => z

/-- C8: from a state where `x` runs and `y`, `z` are READY behind it in that
order (no pending signals anywhere among them), `k` successive
`trigger_scheduler` invocations dispatch the three processes in strict FIFO
round-robin order x, y, z, x, … — after `k` ticks the process
`cyc3 x y z (k % 3)` is current and the other two wait in the ready queue in
rotation order, each preempted process having been re-enqueued at the
tail. -/
theorem trigger_round_robin :
    ∀ (k : Nat) (s : KState) (x y z : Nat), rrInv s x y z →
    ∃ s', trigN k s = some s' ∧
      rrInv s' (cyc3 x y z (k % 3)) (cyc3 x y z ((k + 1) % 3))
        (cyc3 x y z ((k + 2) % 3)) := by
  intro k
  induction k with
  | zero =>
    intro s x y z h
    exact ⟨s, rfl, h⟩
  | succ k ih =>
    intro s x y z h
    obtain ⟨s1, htr, h1⟩ := rr_rotate s x y z h
    obtain ⟨s', hN, hinv⟩ := ih s1 y z x h1
    refine ⟨s', ?_, ?_⟩
    · show (trigger_scheduler s).bind (trigN k) = some s'
      rw [htr]
      exact hN
    · have h3 : k % 3 = 0 ∨ k % 3 = 1 ∨ k % 3 = 2 := by omega
      rcases h3 with h3 | h3 | h3
      · rw [h3, (by omega : (k + 1) % 3 = 1), (by omega : (k + 2) % 3 = 2)] at hinv
        rw [(by omega : (k + 1) % 3 = 1), (by omega : (k + 1 + 1) % 3 = 2),
          (by omega : (k + 1 + 2) % 3 = 0)]
        exact hinv
      · rw [h3, (by omega : (k + 1) % 3 = 2), (by omega : (k + 2) % 3 = 0)] at hinv
        rw [(by omega : (k + 1) % 3 = 2), (by omega : (k + 1 + 1) % 3 = 0),
          (by omega : (k + 1 + 2) % 3 = 1)]
        exact hinv
      · rw [h3, (by omega : (k + 1) % 3 = 0), (by omega : (k + 2) % 3 = 1)] at hinv
        rw [(by omega : (k + 1) % 3 = 0), (by omega : (k + 1 + 1) % 3 = 1),
          (by omega : (k + 1 + 2) % 3 = 2)]
        exact hinv

/-!  ## C2: pid uniqueness

The pid-integrity invariant `pidInv` below is preserved by every operation
except the `kill(-1, SIGHUP)` broadcast (which resets the pid counter): pids
are written only by `alloc_new_process`, always with the current counter
value, and the counter only grows.  The `inert` component pins down the
never-allocated slots (pid 0): they are UNUSED, off both scheduling queues
and never current, so no operation can revive them. -/

structure pidInv (s : KState) : Prop where
  len : s.ptable.length = NPROC
  curr_lt : s.curr < NPROC
  num : 2 ≤ s.pidNum
  pid0 : (pcbD s 0).pid = 0
  readyB : ∀ i ∈ s.readyQue, 1 ≤ i ∧ i < NPROC
  waitB : ∀ i ∈ s.waitList, 1 ≤ i ∧ i < NPROC
  inert : ∀ i, 1 ≤ i → i < NPROC → (pcbD s i).pid = 0 →
    (pcbD s i).state = UNUSED ∧ i ∉ s.readyQue ∧ i ∉ s.waitList ∧ i ≠ s.curr
  bound : ∀ i, 1 ≤ i → i < NPROC → (pcbD s i).pid ≠ 0 →
    1 ≤ (pcbD s i).pid ∧ (pcbD s i).pid < s.pidNum
  uniq : ∀ i j, 1 ≤ i → i < NPROC → 1 ≤ j → j < NPROC → i ≠ j →
    (pcbD s i).pid ≠ 0 → (pcbD s i).pid ≠ (pcbD s j).pid

/-- A slot holding a nonzero pid is a real slot of the table. -/
lemma pidInv.lt_of_pid_ne {s : KState} (h : pidInv s) (i : Nat)
    (hp : (pcbD s i).pid ≠ 0) : i < NPROC := by
  by_contra hc
  apply hp
  have : s.ptable.length ≤ i := by rw [h.len]; omega
  rw [show pcbD s i = blankPCB from by
    simp [pcbD, List.getD_eq_getElem?_getD, List.getElem?_eq_none this]]
  rfl

/-- A member of either scheduling queue has a nonzero pid. -/
lemma pidInv.queue_pid {s : KState} (h : pidInv s) (i : Nat)
    (hm : i ∈ s.readyQue ∨ i ∈ s.waitList) : (pcbD s i).pid ≠ 0 := by
  intro hp
  rcases hm with hm | hm
  · obtain ⟨h1, h2⟩ := h.readyB i hm
    exact (h.inert i h1 h2 hp).2.1 hm
  · obtain ⟨h1, h2⟩ := h.waitB i hm
    exact (h.inert i h1 h2 hp).2.2.1 hm

/-- `updP` preserves the invariant when the update keeps the pid and cannot
revive an inert slot. -/
lemma pidInv_updP (s : KState) (k : Nat) (f : PCB → PCB) (h : pidInv s)
    (hpid : ∀ q, (f q).pid = q.pid)
    (hst : (f (pcbD s k)).state = (pcbD s k).state ∨ (f (pcbD s k)).state = UNUSED ∨
      (pcbD s k).pid ≠ 0 ∨ k = 0) :
    pidInv (updP s k f) := by
  have hpe : ∀ i, (pcbD (updP s k f) i).pid = (pcbD s i).pid := by
    intro i
    rw [updP_keep PCB.pid s k f (hpid _) i]
  refine ⟨?_, ?_, ?_, ?_, ?_, ?_, ?_, ?_, ?_⟩
  · rw [updP_length, h.len]
  · exact h.curr_lt
  · exact h.num
  · rw [hpe 0]; exact h.pid0
  · exact h.readyB
  · exact h.waitB
  · intro i h1 h2 hp0
    rw [hpe i] at hp0
    obtain ⟨hu, hr, hw, hc⟩ := h.inert i h1 h2 hp0
    refine ⟨?_, hr, hw, hc⟩
    by_cases hik : i = k
    · subst hik
      rw [pcbD_updP]
      split
      · rcases hst with hst | hst | hst | hst
        · rw [hst]; exact hu
        · exact hst
        · exact absurd hp0 hst
        · omega
      · exact hu
    · rw [pcbD_updP_other s k f i hik]
      exact hu
  · intro i h1 h2
    rw [hpe i]
    intro hp
    rw [show (updP s k f).pidNum = s.pidNum from rfl]
    exact h.bound i h1 h2 hp
  · intro i j h1 h2 h3 h4 h5
    rw [hpe i, hpe j]
    exact h.uniq i j h1 h2 h3 h4 h5

lemma pidInv_pushReady (s : KState) (k : Nat) (h : pidInv s)
    (hb : 1 ≤ k ∧ k < NPROC) (hp : (pcbD s k).pid ≠ 0) : pidInv (pushReady s k) := by
  refine ⟨h.len, h.curr_lt, h.num, h.pid0, ?_, h.waitB, ?_, h.bound, h.uniq⟩
  · intro i hm
    rw [pushReady_readyQue, List.mem_append, List.mem_singleton] at hm
    rcases hm with hm | hm
    · exact h.readyB i hm
    · subst hm; exact hb
  · intro i h1 h2 hp0
    obtain ⟨hu, hr, hw, hc⟩ := h.inert i h1 h2 hp0
    refine ⟨hu, ?_, hw, hc⟩
    rw [pushReady_readyQue, List.mem_append, List.mem_singleton]
    rintro (hm | hm)
    · exact hr hm
    · subst hm; exact hp hp0

lemma pidInv_pushWait (s : KState) (k : Nat) (h : pidInv s)
    (hb : 1 ≤ k ∧ k < NPROC) (hp : (pcbD s k).pid ≠ 0) : pidInv (pushWait s k) := by
  refine ⟨h.len, h.curr_lt, h.num, h.pid0, h.readyB, ?_, ?_, h.bound, h.uniq⟩
  · intro i hm
    rw [pushWait_waitList, List.mem_append, List.mem_singleton] at hm
    rcases hm with hm | hm
    · exact h.waitB i hm
    · subst hm; exact hb
  · intro i h1 h2 hp0
    obtain ⟨hu, hr, hw, hc⟩ := h.inert i h1 h2 hp0
    refine ⟨hu, hr, ?_, hc⟩
    rw [pushWait_waitList, List.mem_append, List.mem_singleton]
    rintro (hm | hm)
    · exact hw hm
    · subst hm; exact hp hp0

lemma pidInv_pushZombie (s : KState) (k : Nat) (h : pidInv s) : pidInv (pushZombie s k) :=
  ⟨h.len, h.curr_lt, h.num, h.pid0, h.readyB, h.waitB, h.inert, h.bound, h.uniq⟩

lemma pidInv_eraseReady (s : KState) (k : Nat) (h : pidInv s) : pidInv (eraseReady s k) := by
  refine ⟨h.len, h.curr_lt, h.num, h.pid0, ?_, h.waitB, ?_, h.bound, h.uniq⟩
  · intro i hm
    exact h.readyB i (List.mem_of_mem_erase hm)
  · intro i h1 h2 hp0
    obtain ⟨hu, hr, hw, hc⟩ := h.inert i h1 h2 hp0
    exact ⟨hu, fun hm => hr (List.mem_of_mem_erase hm), hw, hc⟩

lemma pidInv_eraseWait (s : KState) (k : Nat) (h : pidInv s) : pidInv (eraseWait s k) := by
  refine ⟨h.len, h.curr_lt, h.num, h.pid0, h.readyB, ?_, ?_, h.bound, h.uniq⟩
  · intro i hm
    exact h.waitB i (List.mem_of_mem_erase hm)
  · intro i h1 h2 hp0
    obtain ⟨hu, hr, hw, hc⟩ := h.inert i h1 h2 hp0
    exact ⟨hu, hr, fun hm => hw (List.mem_of_mem_erase hm), hc⟩

lemma pidInv_setReady_sub (s : KState) (l : List Nat) (h : pidInv s)
    (hsub : ∀ i ∈ l, i ∈ s.readyQue) : pidInv (setReady s l) := by
  refine ⟨h.len, h.curr_lt, h.num, h.pid0, ?_, h.waitB, ?_, h.bound, h.uniq⟩
  · intro i hm
    exact h.readyB i (hsub i hm)
  · intro i h1 h2 hp0
    obtain ⟨hu, hr, hw, hc⟩ := h.inert i h1 h2 hp0
    exact ⟨hu, fun hm => hr (hsub i hm), hw, hc⟩

lemma pidInv_setWait_sub (s : KState) (l : List Nat) (h : pidInv s)
    (hsub : ∀ i ∈ l, i ∈ s.waitList) : pidInv (setWait s l) := by
  refine ⟨h.len, h.curr_lt, h.num, h.pid0, h.readyB, ?_, ?_, h.bound, h.uniq⟩
  · intro i hm
    exact h.waitB i (hsub i hm)
  · intro i h1 h2 hp0
    obtain ⟨hu, hr, hw, hc⟩ := h.inert i h1 h2 hp0
    exact ⟨hu, hr, fun hm => hw (hsub i hm), hc⟩

lemma pidInv_appendReady (s : KState) (l : List Nat) (h : pidInv s)
    (hl : ∀ i ∈ l, (1 ≤ i ∧ i < NPROC) ∧ (pcbD s i).pid ≠ 0) :
    pidInv (appendReady s l) := by
  refine ⟨h.len, h.curr_lt, h.num, h.pid0, ?_, h.waitB, ?_, h.bound, h.uniq⟩
  · intro i hm
    rw [appendReady_readyQue, List.mem_append] at hm
    rcases hm with hm | hm
    · exact h.readyB i hm
    · exact (hl i hm).1
  · intro i h1 h2 hp0
    obtain ⟨hu, hr, hw, hc⟩ := h.inert i h1 h2 hp0
    refine ⟨hu, ?_, hw, hc⟩
    rw [appendReady_readyQue, List.mem_append]
    rintro (hm | hm)
    · exact hr hm
    · exact (hl i hm).2 hp0

lemma pidInv_setCurr (s : KState) (k : Nat) (h : pidInv s) (hk : k < NPROC)
    (hkp : k = 0 ∨ (pcbD s k).pid ≠ 0) : pidInv (setCurr s k) := by
  refine ⟨h.len, hk, h.num, h.pid0, h.readyB, h.waitB, ?_, h.bound, h.uniq⟩
  intro i h1 h2 hp0
  obtain ⟨hu, hr, hw, _⟩ := h.inert i h1 h2 hp0
  refine ⟨hu, hr, hw, ?_⟩
  rw [setCurr_curr]
  rcases hkp with hkp | hkp
  · omega
  · intro hik
    subst hik
    exact hkp hp0

lemma pidInv_set_shutdown (s : KState) (h : pidInv s) : pidInv (set_shutdown s) :=
  ⟨h.len, h.curr_lt, h.num, h.pid0, h.readyB, h.waitB, h.inert, h.bound, h.uniq⟩

lemma pidInv_congr {s t : KState} (h : pidInv s) (hp : t.ptable = s.ptable)
    (hr : t.readyQue = s.readyQue) (hw : t.waitList = s.waitList)
    (hc : t.curr = s.curr) (hn : t.pidNum = s.pidNum) : pidInv t := by
  have he : ∀ i, pcbD t i = pcbD s i := pcbD_congr hp
  refine ⟨?_, ?_, ?_, ?_, ?_, ?_, ?_, ?_, ?_⟩
  · rw [hp]; exact h.len
  · rw [hc]; exact h.curr_lt
  · rw [hn]; exact h.num
  · rw [he 0]; exact h.pid0
  · rw [hr]; exact h.readyB
  · rw [hw]; exact h.waitB
  · intro i h1 h2 hp0
    rw [he i] at hp0 ⊢
    rw [hr, hw, hc]
    exact h.inert i h1 h2 hp0
  · intro i h1 h2
    rw [he i, hn]
    exact h.bound i h1 h2
  · intro i j h1 h2 h3 h4 h5
    rw [he i, he j]
    exact h.uniq i j h1 h2 h3 h4 h5

lemma pidInv_claim_fg (s : KState) (k : Nat) (h : pidInv s) : pidInv (claim_fg s k) :=
  pidInv_congr h (claim_fg_ptable s k) (claim_fg_readyQue s k) (claim_fg_waitList s k)
    (claim_fg_curr s k) (claim_fg_pidNum s k)

lemma pidInv_fg_yield (s : KState) (p : Int) (h : pidInv s) : pidInv (fg_yield s p) :=
  pidInv_congr h (fg_yield_ptable s p) (fg_yield_readyQue s p) (fg_yield_waitList s p)
    (fg_yield_curr s p) (fg_yield_pidNum s p)

lemma pidInv_fg_handover (s : KState) (p : Int) (π : Option Nat) (h : pidInv s) :
    pidInv (fg_handover s p π) :=
  pidInv_congr h (fg_handover_ptable s p π) (fg_handover_readyQue s p π)
    (fg_handover_waitList s p π) (fg_handover_curr s p π) (fg_handover_pidNum s p π)

lemma pidInv_resume_mark (s : KState) (h : pidInv s) : pidInv (resume_mark s) := by
  unfold resume_mark
  dsimp only
  split
  · split
    · exact pidInv_updP s s.curr _ h (fun q => rfl) (Or.inl rfl)
    · exact h
  · exact h

lemma exit_notify_pid_keep (p : PCB) (parent : Option Nat) (s : KState) (pIdx i : Nat) :
    (pcbD (exit_notify p parent s pIdx) i).pid = (pcbD s i).pid := by
  unfold exit_notify
  rcases parent with _ | π
  · rw [updP_keep PCB.pid s pIdx _ rfl i]
  · dsimp only
    split
    · split
      · rw [updP_keep PCB.pid _ pIdx _ rfl i, updP_keep PCB.pid s π _ rfl i]
      · rw [updP_keep PCB.pid s π _ rfl i]
    · rw [updP_keep PCB.pid s pIdx _ rfl i]

lemma exit_book_pid_keep (s : KState) (pIdx : Nat) (stc : Nat) (fh : Bool) (i : Nat) :
    (pcbD (exit_book s pIdx stc fh) i).pid = (pcbD s i).pid := by
  unfold exit_book
  set s1 := exit_pack s pIdx stc fh with hs1
  set pp := pcbD s1 pIdx with hpp
  set parent := get_process s1 pp.ppid with hparent
  set s2 := exit_notify pp parent s1 pIdx with hs2
  set s3 := switch_parent s2 pp.pid 1 with hs3
  set s4 := fg_handover s3 pp.pid parent with hs4
  set s5 := if ¬ pp.daemon then wake_up s4 FG_PAUSED else s4 with hs5
  have h1 : (pcbD s1 i).pid = (pcbD s i).pid := by
    rw [hs1]
    unfold exit_pack
    rw [updP_keep PCB.pid s pIdx _ rfl i]
  have h2 : (pcbD s2 i).pid = (pcbD s1 i).pid := by
    rw [hs2, exit_notify_pid_keep]
  have h3 : (pcbD s3 i).pid = (pcbD s2 i).pid := by
    rw [hs3, switch_parent_keep PCB.pid s2 _ 1 (fun q => rfl) i]
  have h4 : (pcbD s4 i).pid = (pcbD s3 i).pid := by
    rw [hs4, pcbD_fg_handover]
  have h5 : (pcbD s5 i).pid = (pcbD s4 i).pid := by
    rw [hs5]
    by_cases hd : pp.daemon
    · rw [if_neg (by simp [hd])]
    · rw [if_pos (by simp [hd]), wake_up_keep PCB.pid s4 _ (fun q => rfl) (fun q => rfl) i]
  rw [wake_up_keep PCB.pid _ _ (fun q => rfl) (fun q => rfl) i, pcbD_pushZombie,
    h5, h4, h3, h2, h1]

lemma pidInv_exit_notify (p : PCB) (parent : Option Nat) (s : KState) (pIdx : Nat)
    (h : pidInv s) : pidInv (exit_notify p parent s pIdx) := by
  unfold exit_notify
  rcases parent with _ | π
  · exact pidInv_updP s pIdx _ h (fun q => rfl) (Or.inl rfl)
  · dsimp only
    split
    · split
      · exact pidInv_updP _ pIdx _
          (pidInv_updP s π _ h (fun q => rfl) (Or.inl rfl)) (fun q => rfl) (Or.inl rfl)
      · exact pidInv_updP s π _ h (fun q => rfl) (Or.inl rfl)
    · exact pidInv_updP s pIdx _ h (fun q => rfl) (Or.inl rfl)

lemma pidInv_switch_parent (s : KState) (a b : Int) (h : pidInv s) :
    pidInv (switch_parent s a b) := by
  unfold switch_parent
  refine foldl_preserve pidInv _ _ ?_ s h
  intro st i _ hP
  dsimp only
  split
  · exact pidInv_updP st i _ hP (fun q => rfl) (Or.inl rfl)
  · exact hP

lemma pidInv_wake_up (s : KState) (e : Int) (h : pidInv s) : pidInv (wake_up s e) := by
  unfold wake_up
  set s1 := s.readyQue.foldl
    (fun st i =>
      if (pcbD st i).event = e then updP st i (fun q => { q with event := NONE_EVT })
      else st) s with hs1
  have H1 : pidInv s1 ∧ s1.waitList = s.waitList ∧
      (∀ j, (pcbD s1 j).pid = (pcbD s j).pid) := by
    rw [hs1]
    refine foldl_preserve (fun st => pidInv st ∧ st.waitList = s.waitList ∧
      (∀ j, (pcbD st j).pid = (pcbD s j).pid)) _ _ ?_ s ⟨h, rfl, fun j => rfl⟩
    intro st a _ hP
    dsimp only
    split
    · refine ⟨pidInv_updP st a _ hP.1 (fun q => rfl) (Or.inl rfl), ?_, ?_⟩
      · rw [updP_waitList, hP.2.1]
      · intro j
        rw [updP_keep PCB.pid st a _ rfl j, hP.2.2 j]
    · exact hP
  obtain ⟨h1, hw1, hp1⟩ := H1
  set p := s1.waitList.partition (fun i => (pcbD s1 i).event == e) with hpart
  have hsub1 : ∀ i ∈ p.1, i ∈ s.waitList := by
    intro i hm
    rw [hpart, List.partition_eq_filter_filter] at hm
    rw [← hw1]
    exact List.mem_of_mem_filter hm
  have hsub2 : ∀ i ∈ p.2, i ∈ s1.waitList := by
    intro i hm
    rw [hpart, List.partition_eq_filter_filter] at hm
    exact List.mem_of_mem_filter hm
  have h2 : pidInv (setWait s1 p.2) := pidInv_setWait_sub s1 p.2 h1 hsub2
  have H3 : pidInv (p.1.foldl
        (fun st i => updP st i (fun q => { q with event := NONE_EVT, state := READY }))
        (setWait s1 p.2)) ∧
      (∀ j, (pcbD (p.1.foldl
        (fun st i => updP st i (fun q => { q with event := NONE_EVT, state := READY }))
        (setWait s1 p.2)) j).pid = (pcbD s j).pid) := by
    refine foldl_preserve (fun st => pidInv st ∧ (∀ j, (pcbD st j).pid = (pcbD s j).pid))
      _ _ ?_ (setWait s1 p.2) ⟨h2, fun j => by rw [pcbD_setWait, hp1 j]⟩
    intro st a ha hP
    have hap : (pcbD st a).pid ≠ 0 := by
      rw [hP.2 a]
      exact h.queue_pid a (Or.inr (hsub1 a ha))
    refine ⟨pidInv_updP st a _ hP.1 (fun q => rfl) (Or.inr (Or.inr (Or.inl hap))), ?_⟩
    intro j
    rw [updP_keep PCB.pid st a _ rfl j, hP.2 j]
  obtain ⟨h3, hp3⟩ := H3
  exact pidInv_appendReady _ p.1 h3 (fun i hm =>
    ⟨h.waitB i (hsub1 i hm), by rw [hp3 i]; exact h.queue_pid i (Or.inr (hsub1 i hm))⟩)

lemma pidInv_exit_book (s : KState) (pIdx : Nat) (stc : Nat) (fh : Bool) (h : pidInv s)
    (hp : (pcbD s pIdx).pid ≠ 0) : pidInv (exit_book s pIdx stc fh) := by
  unfold exit_book
  set s1 := exit_pack s pIdx stc fh with hs1
  set pp := pcbD s1 pIdx with hpp
  set parent := get_process s1 pp.ppid with hparent
  set s2 := exit_notify pp parent s1 pIdx with hs2
  set s3 := switch_parent s2 pp.pid 1 with hs3
  set s4 := fg_handover s3 pp.pid parent with hs4
  set s5 := if ¬ pp.daemon then wake_up s4 FG_PAUSED else s4 with hs5
  have h1 : pidInv s1 := by
    rw [hs1]
    unfold exit_pack
    exact pidInv_updP s pIdx _ h (fun q => rfl) (Or.inr (Or.inr (Or.inl hp)))
  have h2 : pidInv s2 := hs2 ▸ pidInv_exit_notify pp parent s1 pIdx h1
  have h3 : pidInv s3 := hs3 ▸ pidInv_switch_parent s2 _ 1 h2
  have h4 : pidInv s4 := hs4 ▸ pidInv_fg_handover s3 _ parent h3
  have h5 : pidInv s5 := by
    rw [hs5]
    split
    · exact pidInv_wake_up s4 _ h4
    · exact h4
  exact pidInv_wake_up _ _ (pidInv_pushZombie s5 pIdx h5)

lemma sig_action_pid_keep (st : KState) (pIdx sig : Nat) (i : Nat) :
    (pcbD (sig_action st pIdx sig) i).pid = (pcbD st i).pid := by
  unfold sig_action
  dsimp only
  split
  · rw [pcbD_eraseReady]
    split
    · rfl
    · rw [exit_book_pid_keep]
  · split
    · rw [pcbD_pushWait, updP_keep PCB.pid _ pIdx _ rfl i, pcbD_eraseReady]
    · rfl

lemma pidInv_sig_action (st : KState) (pIdx sig : Nat) (h : pidInv st)
    (hp : (pcbD st pIdx).pid ≠ 0) : pidInv (sig_action st pIdx sig) := by
  have hb2 : pIdx < NPROC := h.lt_of_pid_ne pIdx hp
  have hb1 : 1 ≤ pIdx := by
    rcases Nat.eq_zero_or_pos pIdx with h0 | h0
    · rw [h0] at hp
      exact absurd h.pid0 hp
    · exact h0
  unfold sig_action
  dsimp only
  split
  · apply pidInv_eraseReady
    split
    · exact h
    · exact pidInv_exit_book st pIdx _ true h hp
  · split
    · apply pidInv_pushWait
      · refine pidInv_updP _ pIdx _ (pidInv_eraseReady st pIdx h) (fun q => rfl) ?_
        right; right; left
        rw [pcbD_eraseReady]
        exact hp
      · exact ⟨hb1, hb2⟩
      · rw [updP_keep PCB.pid _ pIdx _ rfl pIdx, pcbD_eraseReady]
        exact hp
    · exact h

lemma cps_pid_keep (st : KState) (pIdx : Nat) (i : Nat) :
    (pcbD (check_pending_signals st pIdx) i).pid = (pcbD st i).pid := by
  unfold check_pending_signals
  refine foldl_preserve (fun s2 => (pcbD s2 i).pid = (pcbD st i).pid) _ _ ?_ st rfl
  intro s2 sig _ hP
  dsimp only
  split
  · rw [sig_action_pid_keep, updP_keep PCB.pid s2 pIdx _ rfl i, hP]
  · exact hP

lemma pidInv_cps (st : KState) (pIdx : Nat) (h : pidInv st)
    (hp : (pcbD st pIdx).pid ≠ 0) : pidInv (check_pending_signals st pIdx) := by
  unfold check_pending_signals
  refine (foldl_preserve
    (fun s2 => pidInv s2 ∧ (pcbD s2 pIdx).pid = (pcbD st pIdx).pid) _ _ ?_ st ⟨h, rfl⟩).1
  intro s2 sig _ hP
  dsimp only
  split
  · constructor
    · apply pidInv_sig_action
      · exact pidInv_updP s2 pIdx _ hP.1 (fun q => rfl) (Or.inl rfl)
      · rw [updP_keep PCB.pid s2 pIdx _ rfl pIdx, hP.2]
        exact hp
    · rw [sig_action_pid_keep, updP_keep PCB.pid s2 pIdx _ rfl pIdx, hP.2]
  · exact hP

lemma pidInv_scheduleLoop : ∀ (fuel : Nat) (s : KState) (r : KState × Option Nat),
    pidInv s → scheduleLoop fuel s = some r →
    pidInv r.1 ∧ ∀ hd, r.2 = some hd → (1 ≤ hd ∧ hd < NPROC) ∧ (pcbD r.1 hd).pid ≠ 0 := by
  intro fuel
  induction fuel with
  | zero =>
    intro s r h hr
    simp [scheduleLoop] at hr
  | succ fuel ih =>
    intro s r h hr
    unfold scheduleLoop at hr
    rcases hq : s.readyQue with _ | ⟨hd, t⟩
    · rw [hq] at hr
      dsimp only at hr
      cases hr
      exact ⟨h, fun hh hsel => by cases hsel⟩
    · rw [hq] at hr
      dsimp only at hr
      have hmhd : hd ∈ s.readyQue := by rw [hq]; exact List.mem_cons_self hd t
      have hpidhd : (pcbD s hd).pid ≠ 0 := h.queue_pid hd (Or.inl hmhd)
      have hbhd : 1 ≤ hd ∧ hd < NPROC := h.readyB hd hmhd
      have hcps : pidInv (check_pending_signals s hd) := pidInv_cps s hd h hpidhd
      rcases hq' : (check_pending_signals s hd).readyQue with _ | ⟨hd', t'⟩
      · rw [hq'] at hr
        dsimp only at hr
        cases hr
        exact ⟨hcps, fun hh hsel => by cases hsel⟩
      · rw [hq'] at hr
        dsimp only at hr
        split at hr
        · next heq =>
          cases hr
          refine ⟨pidInv_setReady_sub _ t' hcps
            (fun i hm => by rw [hq']; exact List.mem_cons_of_mem _ hm), ?_⟩
          intro hh hsel
          injection hsel with hsel
          subst hsel
          exact ⟨hbhd, by rw [pcbD_setReady, cps_pid_keep]; exact hpidhd⟩
        · exact ih _ r hcps hr

lemma pidInv_schedule (s s' : KState) (h : pidInv s) (he : schedule s = some s') :
    pidInv s' := by
  unfold schedule at he
  rcases hsl : scheduleLoop SCHED_FUEL s with _ | r
  · rw [hsl] at he
    simp at he
  · rw [hsl] at he
    obtain ⟨hinv, hsel⟩ := pidInv_scheduleLoop SCHED_FUEL s r h hsl
    rcases r with ⟨s1, sel⟩
    rcases sel with _ | hd
    · simp only [Option.some_bind] at he
      cases he
      dsimp only
      apply pidInv_resume_mark
      apply pidInv_claim_fg
      apply pidInv_setCurr
      · refine pidInv_updP _ 0 _ ?_ (fun q => rfl) (Or.inr (Or.inr (Or.inr rfl)))
        split
        · exact pidInv_set_shutdown _ hinv
        · exact hinv
      · decide
      · left
        rfl
    · simp only [Option.some_bind] at he
      cases he
      dsimp only
      obtain ⟨hbhd, hpidhd⟩ := hsel hd rfl
      apply pidInv_resume_mark
      apply pidInv_claim_fg
      apply pidInv_setCurr
      · exact pidInv_updP _ hd _ hinv (fun q => rfl) (Or.inr (Or.inr (Or.inl hpidhd)))
      · exact hbhd.2
      · right
        rw [updP_keep PCB.pid _ hd _ rfl hd]
        exact hpidhd

lemma pidInv_trigger (s s' : KState) (h : pidInv s)
    (he : trigger_scheduler s = some s') : pidInv s' := by
  unfold trigger_scheduler at he
  split at he
  · cases he
    exact h
  · dsimp only at he
    have h1 : pidInv (updP s s.curr (fun q => { q with state := READY })) := by
      refine pidInv_updP s s.curr _ h (fun q => rfl) ?_
      rcases Nat.eq_zero_or_pos s.curr with h0 | h0
      · right; right; right; exact h0
      · by_cases hcp : (pcbD s s.curr).pid = 0
        · exact absurd rfl (h.inert s.curr h0 h.curr_lt hcp).2.2.2
        · right; right; left; exact hcp
    split at he
    · next hpd =>
      refine pidInv_schedule _ _ ?_ he
      refine pidInv_pushReady _ _ h1 ⟨?_, h.curr_lt⟩ hpd
      rcases Nat.eq_zero_or_pos s.curr with h0 | h0
      · exfalso
        apply hpd
        have hkeep := updP_keep PCB.pid s s.curr
          (fun q => { q with state := READY }) rfl s.curr
        rw [hkeep, h0]
        exact h.pid0
      · exact h0
    · exact pidInv_schedule _ _ h1 he

lemma pidInv_sleepOn (s : KState) (e : Int) (s' : KState) (h : pidInv s)
    (hc : s.curr ≠ 0) (he : sleepOn s e = some s') : pidInv s' := by
  unfold sleepOn at he
  dsimp only at he
  have hcp : (pcbD s s.curr).pid ≠ 0 := fun h0 =>
    (h.inert s.curr (Nat.one_le_iff_ne_zero.mpr hc) h.curr_lt h0).2.2.2 rfl
  refine pidInv_schedule _ _ ?_ he
  refine pidInv_pushWait _ _ ?_ ⟨Nat.one_le_iff_ne_zero.mpr hc, h.curr_lt⟩ ?_
  · exact pidInv_updP s s.curr _ h (fun q => rfl) (Or.inr (Or.inr (Or.inl hcp)))
  · rw [updP_keep PCB.pid s s.curr _ rfl s.curr]
    exact hcp

lemma pidInv_exit (s : KState) (stc : Nat) (fh : Bool) (s' : KState) (h : pidInv s)
    (hc : s.curr ≠ 0) (he : exit s s.curr stc fh = some s') : pidInv s' := by
  unfold exit at he
  rcases hg : s.ptable.get? s.curr with _ | p
  · rw [hg] at he
    cases he
    exact h
  · rw [hg] at he
    dsimp only at he
    split at he
    · cases he
      exact h
    · have hcp : (pcbD s s.curr).pid ≠ 0 := fun h0 =>
        (h.inert s.curr (Nat.one_le_iff_ne_zero.mpr hc) h.curr_lt h0).2.2.2 rfl
      have hb : pidInv (exit_book s s.curr stc fh) := pidInv_exit_book s s.curr stc fh h hcp
      split at he
      · cases he
        exact hb
      · exact pidInv_schedule _ _ hb he

lemma pidInv_setZombies (s : KState) (l : List Nat) (h : pidInv s) :
    pidInv (setZombies s l) :=
  ⟨h.len, h.curr_lt, h.num, h.pid0, h.readyB, h.waitB, h.inert, h.bound, h.uniq⟩

lemma releaseFds_frame (fds : List (Option Nat)) (st st' : KState)
    (he : releaseFds st fds = some st') :
    st'.ptable = st.ptable ∧ st'.readyQue = st.readyQue ∧ st'.waitList = st.waitList ∧
    st'.curr = st.curr ∧ st'.pidNum = st.pidNum := by
  unfold releaseFds at he
  refine foldlM_preserve (fun s2 => s2.ptable = st.ptable ∧ s2.readyQue = st.readyQue ∧
    s2.waitList = st.waitList ∧ s2.curr = st.curr ∧ s2.pidNum = st.pidNum) _ _ ?_
    st st' ⟨rfl, rfl, rfl, rfl, rfl⟩ he
  intro s2 o s3 _ hP hstep
  rcases o with _ | e
  · cases hstep
    exact hP
  · unfold releaseEntry at hstep
    simp only [bind, Option.bind_eq_some, Option.some.injEq] at hstep
    obtain ⟨fe, hfe, j, hj, ino, hino, hs3⟩ := hstep
    rw [← hs3]
    split
    · exact hP
    · exact hP

lemma pidInv_wait (s : KState) (pid : Int) (opts : Nat) (s' : KState) (r : WRes)
    (h : pidInv s) (hc : s.curr ≠ 0) (he : wait s pid opts = some (s', r)) : pidInv s' := by
  unfold wait at he
  split at he
  · cases he
    exact h
  · dsimp only at he
    have hx : pidInv (updP s s.curr (fun q => { q with wpid := pid })) :=
      pidInv_updP s s.curr _ h (fun q => rfl) (Or.inl rfl)
    by_cases hpm : pid = -1
    · rw [if_pos hpm] at he
      dsimp only at he
      split at he
      · cases he
        exact hx
      · split at he
        · next zIdx zs' heq =>
          split at he
          · cases he
            exact pidInv_setZombies _ zs' hx
          · simp only [bind, Option.bind_eq_some, Option.some.injEq, Prod.mk.injEq] at he
            obtain ⟨s3, hs3, he4, _⟩ := he
            have h2 : pidInv (updP (setZombies (updP s s.curr
                (fun q => { q with wpid := pid })) zs') zIdx
                (fun q => { q with stackAlloc := false, pageMapAlloc := false })) :=
              pidInv_updP _ zIdx _ (pidInv_setZombies _ zs' hx) (fun q => rfl) (Or.inl rfl)
            have hfr := releaseFds_frame _ _ _ hs3
            have h3 : pidInv s3 :=
              pidInv_congr h2 hfr.1 hfr.2.1 hfr.2.2.1 hfr.2.2.2.1 hfr.2.2.2.2
            have h4 : pidInv (updP s3 zIdx
                (fun q => { q with state := UNUSED, daemon := false, status := 0 })) :=
              pidInv_updP s3 zIdx _ h3 (fun q => rfl) (Or.inr (Or.inl rfl))
            rw [← he4]
            split
            · exact pidInv_wake_up _ _ h4
            · exact h4
        · split at he
          · cases he
            exact hx
          · simp only [Option.map_eq_some'] at he
            obtain ⟨a, ha, hpr⟩ := he
            simp only [Prod.mk.injEq] at hpr
            rw [← hpr.1]
            refine pidInv_sleepOn _ _ _ hx ?_ ha
            rw [updP_curr]
            exact hc
    · rw [if_neg hpm] at he
      dsimp only at he
      split at he
      · cases he
        exact hx
      · split at he
        · next zIdx zs' heq =>
          split at he
          · cases he
            exact pidInv_setZombies _ zs' hx
          · simp only [bind, Option.bind_eq_some, Option.some.injEq, Prod.mk.injEq] at he
            obtain ⟨s3, hs3, he4, _⟩ := he
            have h2 : pidInv (updP (setZombies (updP s s.curr
                (fun q => { q with wpid := pid })) zs') zIdx
                (fun q => { q with stackAlloc := false, pageMapAlloc := false })) :=
              pidInv_updP _ zIdx _ (pidInv_setZombies _ zs' hx) (fun q => rfl) (Or.inl rfl)
            have hfr := releaseFds_frame _ _ _ hs3
            have h3 : pidInv s3 :=
              pidInv_congr h2 hfr.1 hfr.2.1 hfr.2.2.1 hfr.2.2.2.1 hfr.2.2.2.2
            have h4 : pidInv (updP s3 zIdx
                (fun q => { q with state := UNUSED, daemon := false, status := 0 })) :=
              pidInv_updP s3 zIdx _ h3 (fun q => rfl) (Or.inr (Or.inl rfl))
            rw [← he4]
            split
            · exact pidInv_wake_up _ _ h4
            · exact h4
        · split at he
          · cases he
            exact hx
          · simp only [Option.map_eq_some'] at he
            obtain ⟨a, ha, hpr⟩ := he
            simp only [Prod.mk.injEq] at hpr
            rw [← hpr.1]
            refine pidInv_sleepOn _ _ _ hx ?_ ha
            rw [updP_curr]
            exact hc

lemma get_inode_entry_frame (s : KState) (d : Nat) (s1 : KState)
    (he : get_inode_entry s d = some s1) :
    s1.ptable = s.ptable ∧ s1.readyQue = s.readyQue ∧ s1.waitList = s.waitList ∧
    s1.curr = s.curr ∧ s1.pidNum = s.pidNum := by
  unfold get_inode_entry at he
  simp only [bind, Option.bind_eq_some, Option.some.injEq] at he
  obtain ⟨ino, hino, hs1⟩ := he
  rw [← hs1]
  exact ⟨rfl, rfl, rfl, rfl, rfl⟩

lemma pidInv_open_file (s : KState) (sr : Option Nat) (s' : KState) (r : Int)
    (h : pidInv s) (he : open_file s sr = some (s', r)) : pidInv s' := by
  unfold open_file at he
  dsimp only at he
  split at he
  · cases he
    exact h
  · split at he
    · cases he
      exact h
    · split at he
      · cases he
        exact h
      · simp only [bind, Option.bind_eq_some, Option.some.injEq, Prod.mk.injEq] at he
        obtain ⟨s1, hs1, he2, _⟩ := he
        have hfr := get_inode_entry_frame _ _ _ hs1
        have h1 : pidInv s1 :=
          pidInv_congr h hfr.1 hfr.2.1 hfr.2.2.1 hfr.2.2.2.1 hfr.2.2.2.2
        rw [← he2]
        refine pidInv_updP _ s.curr _ ?_ (fun q => rfl) (Or.inl rfl)
        exact pidInv_congr h1 rfl rfl rfl rfl rfl

lemma pidInv_close_file (s : KState) (fd : Int) (s' : KState) (h : pidInv s)
    (he : close_file s fd = some s') : pidInv s' := by
  unfold close_file at he
  split at he
  · cases he
    exact h
  · simp only [bind, Option.bind_eq_some, Option.some.injEq] at he
    obtain ⟨o, ho, e, heo, fe, hfe, j, hj, ino, hino, he2⟩ := he
    split at he2
    · cases he2
    · split at he2
      · injection he2 with he2
        rw [← he2]
        refine pidInv_updP _ s.curr _ ?_ (fun q => rfl) (Or.inl rfl)
        exact pidInv_congr h rfl rfl rfl rfl rfl
      · injection he2 with he2
        rw [← he2]
        exact pidInv_congr h rfl rfl rfl rfl rfl

lemma pidInv_killSlot (st : KState) (i : Nat) (cp : Int) (sg : Nat) (st' : KState)
    (h : pidInv st) (hb : 2 ≤ i ∧ i < NPROC) (hsg : sg ≠ SIGHUP)
    (he : killSlot st i cp sg = some st') : pidInv st' := by
  unfold killSlot at he
  dsimp only at he
  split at he
  · cases he
    exact h
  · split at he
    · next hlive =>
      have hpi : (pcbD st i).pid ≠ 0 := by
        intro h0
        exact hlive (Or.inl (h.inert i (by omega) hb.2 h0).1)
      split at he
      · cases he
        apply pidInv_pushReady
        · refine pidInv_updP _ i _ ?_ (fun q => rfl) ?_
          · exact pidInv_eraseWait _ i
              (pidInv_updP st i _ h (fun q => rfl) (Or.inl rfl))
          · right; right; left
            rw [pcbD_eraseWait, updP_keep PCB.pid st i _ rfl i]
            exact hpi
        · exact ⟨by omega, hb.2⟩
        · rw [updP_keep PCB.pid _ i _ rfl i, pcbD_eraseWait,
            updP_keep PCB.pid st i _ rfl i]
          exact hpi
      · cases he
        exact pidInv_updP st i _ h (fun q => rfl) (Or.inl rfl)
    · split at he
      · next hkill =>
        exact absurd hkill.2 hsg
      · cases he
        exact h

lemma pidInv_kill (s : KState) (pid sig : Int) (s' : KState) (r : Int) (h : pidInv s)
    (hnh : pid ≠ -1 ∨ sig ≠ (1 : Int))
    (he : kill s pid sig = some (s', r)) : pidInv s' := by
  unfold kill at he
  split at he
  · cases he
    exact h
  · next hs =>
    split at he
    · next hpm =>
      have hsg : sig.toNat ≠ SIGHUP := by
        rcases hnh with hnh | hnh
        · exact absurd hpm hnh
        · intro hcon
          apply hnh
          have h0 : ¬(sig < 0 ∨ sig > (TOTAL_SIGNALS : Int) - 1) := hs
          push_neg at h0
          have h1 : sig.toNat = SIGHUP := hcon
          rw [show SIGHUP = 1 from rfl] at h1
          omega
      simp only [bind, Option.bind_eq_some, Option.some.injEq, Prod.mk.injEq] at he
      obtain ⟨s1, hfold, he2, _⟩ := he
      have h1 : pidInv s1 := by
        refine foldlM_preserve pidInv _ _ ?_ s s1 h hfold
        intro st a st2 ha hP hstep
        have hab : 2 ≤ a ∧ a < NPROC := by
          rw [List.mem_range'] at ha
          constructor
          · omega
          · have : NPROC - 2 + 2 = NPROC := by decide
            omega
        exact pidInv_killSlot st a _ _ st2 hP hab hsg hstep
      rw [← he2, if_neg hsg]
      split
      · exact pidInv_updP _ 0 _
          (pidInv_updP s1 1 _ h1 (fun q => rfl) (Or.inl rfl))
          (fun q => rfl) (Or.inl rfl)
      · exact h1
    · split at he
      · cases he
        refine foldl_preserve pidInv _ _ ?_ s h
        intro st a ha hP
        have hab : 2 ≤ a ∧ a < NPROC := by
          rw [List.mem_range'] at ha
          constructor
          · omega
          · have : NPROC - 2 + 2 = NPROC := by decide
            omega
        dsimp only
        split
        · exact hP
        · split
          · next hlv =>
            have hpi : (pcbD st a).pid ≠ 0 := by
              intro h0
              exact hlv.1 (Or.inl (hP.inert a (by omega) hab.2 h0).1)
            split
            · apply pidInv_pushReady
              · refine pidInv_updP _ a _ ?_ (fun q => rfl) ?_
                · exact pidInv_eraseWait _ a
                    (pidInv_updP st a _ hP (fun q => rfl) (Or.inl rfl))
                · right; right; left
                  rw [pcbD_eraseWait, updP_keep PCB.pid st a _ rfl a]
                  exact hpi
              · exact ⟨by omega, hab.2⟩
              · rw [updP_keep PCB.pid _ a _ rfl a, pcbD_eraseWait,
                  updP_keep PCB.pid st a _ rfl a]
                exact hpi
            · exact pidInv_updP st a _ hP (fun q => rfl) (Or.inl rfl)
          · exact hP
      · rcases hg : get_process s pid with _ | t
        · rw [hg] at he
          cases he
          exact h
        · rw [hg] at he
          dsimp only at he
          obtain ⟨_, ht1, ht2, htl, htpid⟩ := get_process_spec s pid t hg
          have htp : (pcbD s t).pid ≠ 0 := by
            intro h0
            exact htl (h.inert t ht1 ht2 h0).1
          split at he
          · cases he
            apply pidInv_pushReady
            · refine pidInv_updP _ t _ ?_ (fun q => rfl) ?_
              · exact pidInv_eraseWait _ t
                  (pidInv_updP s t _ h (fun q => rfl) (Or.inl rfl))
              · right; right; left
                rw [pcbD_eraseWait, updP_keep PCB.pid s t _ rfl t]
                exact htp
            · exact ⟨ht1, ht2⟩
            · rw [updP_keep PCB.pid _ t _ rfl t, pcbD_eraseWait,
                updP_keep PCB.pid s t _ rfl t]
              exact htp
          · cases he
            exact pidInv_updP s t _ h (fun q => rfl) (Or.inl rfl)

lemma acquire_fold_frame (fds : List (Option Nat)) (st st' : KState)
    (he : fds.foldlM (fun st o =>
      match o with | none => some st | some e => acquireEntry st e) st = some st') :
    st'.ptable = st.ptable ∧ st'.readyQue = st.readyQue ∧ st'.waitList = st.waitList ∧
    st'.curr = st.curr ∧ st'.pidNum = st.pidNum := by
  refine foldlM_preserve (fun s2 => s2.ptable = st.ptable ∧ s2.readyQue = st.readyQue ∧
    s2.waitList = st.waitList ∧ s2.curr = st.curr ∧ s2.pidNum = st.pidNum) _ _ ?_
    st st' ⟨rfl, rfl, rfl, rfl, rfl⟩ he
  intro s2 o s3 _ hP hstep
  rcases o with _ | e
  · cases hstep
    exact hP
  · unfold acquireEntry at hstep
    simp only [bind, Option.bind_eq_some, Option.some.injEq] at hstep
    obtain ⟨fe, hfe, j, hj, ino, hino, hs3⟩ := hstep
    rw [← hs3]
    exact hP

lemma pidInv_fork (s : KState) (ok : Bool) (s' : KState) (r : Int) (h : pidInv s)
    (he : fork s ok = some (s', r)) : pidInv s' := by
  unfold fork at he
  rcases ha : alloc_new_process s with _ | ⟨s2, ci⟩
  · rw [ha] at he
    cases he
    exact h
  · rw [ha] at he
    dsimp only at he
    unfold alloc_new_process at ha
    rcases hf : find_unused_slot s with _ | ci0
    · rw [hf] at ha
      cases ha
    · rw [hf] at ha
      simp only [Option.some.injEq, Prod.mk.injEq] at ha
      obtain ⟨hs2, hci⟩ := ha
      subst hci
      have hcib : 1 ≤ ci0 ∧ ci0 < NPROC := by
        have hm := List.mem_of_find?_eq_some hf
        rw [List.mem_range'] at hm
        constructor
        · omega
        · have : NPROC - 1 + 1 = NPROC := by decide
          omega
      -- the allocated state satisfies the invariant, with the new pid = s.pidNum
      have hpe : ∀ i, i ≠ ci0 → pcbD s2 i = pcbD s i := by
        intro i hi
        rw [← hs2]
        exact pcbD_updP_other s ci0 (fun q =>
          { q with
            stackAlloc := true, state := INIT, status := 0, signals := 0,
            wpid := 0, pid := s.pidNum,
            regContext := some { x0 := 0, x5 := 0 }, pageMapAlloc := true }) i hi
      have hlen2 : s2.ptable.length = s.ptable.length := by
        rw [← hs2]
        exact updP_length s ci0 (fun q =>
          { q with
            stackAlloc := true, state := INIT, status := 0, signals := 0,
            wpid := 0, pid := s.pidNum,
            regContext := some { x0 := 0, x5 := 0 }, pageMapAlloc := true })
      have hpci : (pcbD s2 ci0).pid = s.pidNum := by
        rw [← hs2]
        have hlt : ci0 < s.ptable.length := by rw [h.len]; exact hcib.2
        rw [show pcbD ({ updP s ci0 (fun q =>
          { q with
            stackAlloc := true, state := INIT, status := 0, signals := 0,
            wpid := 0, pid := s.pidNum,
            regContext := some { x0 := 0, x5 := 0 }, pageMapAlloc := true }) with
          pidNum := s.pidNum + 1 } : KState) ci0 = pcbD (updP s ci0 (fun q =>
          { q with
            stackAlloc := true, state := INIT, status := 0, signals := 0,
            wpid := 0, pid := s.pidNum,
            regContext := some { x0 := 0, x5 := 0 }, pageMapAlloc := true })) ci0 from rfl,
          pcbD_updP_self _ _ _ hlt]
      have hn2 : s2.pidNum = s.pidNum + 1 := by rw [← hs2]
      have hq2r : s2.readyQue = s.readyQue := by rw [← hs2]; rfl
      have hq2w : s2.waitList = s.waitList := by rw [← hs2]; rfl
      have hc2 : s2.curr = s.curr := by rw [← hs2]; rfl
      have hpinz : (pcbD s2 ci0).pid ≠ 0 := by
        rw [hpci]
        have := h.num
        omega
      have h2 : pidInv s2 := by
        refine ⟨?_, ?_, ?_, ?_, ?_, ?_, ?_, ?_, ?_⟩
        · rw [hlen2, h.len]
        · rw [hc2]; exact h.curr_lt
        · rw [hn2]; have := h.num; omega
        · rw [hpe 0 (by omega)]; exact h.pid0
        · rw [hq2r]; exact h.readyB
        · rw [hq2w]; exact h.waitB
        · intro i h1 h2' hp0
          by_cases hic : i = ci0
          · subst hic
            exact absurd hp0 hpinz
          · rw [hpe i hic] at hp0
            obtain ⟨hu, hr, hw, hcx⟩ := h.inert i h1 h2' hp0
            rw [hpe i hic, hq2r, hq2w, hc2]
            exact ⟨hu, hr, hw, hcx⟩
        · intro i h1 h2' hp
          by_cases hic : i = ci0
          · subst hic
            rw [hpci, hn2]
            have := h.num
            constructor
            · omega
            · omega
          · rw [hpe i hic] at hp ⊢
            rw [hn2]
            obtain ⟨ha1, ha2⟩ := h.bound i h1 h2' hp
            exact ⟨ha1, by omega⟩
        · intro i j h1 h2' h3 h4 h5 hp
          by_cases hic : i = ci0 <;> by_cases hjc : j = ci0
          · exact absurd (hic.trans hjc.symm) h5
          · subst hic
            rw [hpci, hpe j hjc]
            by_cases hjp : (pcbD s j).pid = 0
            · rw [hjp]
              have := h.num
              omega
            · obtain ⟨_, hlt⟩ := h.bound j h3 h4 hjp
              omega
          · subst hjc
            rw [hpe i hic] at hp ⊢
            rw [hpci]
            obtain ⟨_, hlt⟩ := h.bound i h1 h2' hp
            omega
          · rw [hpe i hic] at hp ⊢
            rw [hpe j hjc]
            exact h.uniq i j h1 h2' h3 h4 h5 hp
      have h3 : pidInv (updP s2 ci0 (fun q =>
          { q with ppid := (pcbD s2 s2.curr).pid })) :=
        pidInv_updP s2 ci0 _ h2 (fun q => rfl) (Or.inl rfl)
      have h4 : pidInv (fg_yield (updP s2 ci0 (fun q =>
          { q with ppid := (pcbD s2 s2.curr).pid })) (pcbD s2 s2.curr).pid) :=
        pidInv_fg_yield _ _ h3
      split at he
      · cases he
        exact h4
      · simp only [bind, Option.bind_eq_some, Option.some.injEq, Prod.mk.injEq] at he
        obtain ⟨s6, hfold, pf, hpf, hfin, _⟩ := he
        have h5 : pidInv (updP (fg_yield (updP s2 ci0 (fun q =>
            { q with ppid := (pcbD s2 s2.curr).pid })) (pcbD s2 s2.curr).pid) ci0
            (fun q => { q with fd_table := (pcbD s2 s2.curr).fd_table })) :=
          pidInv_updP _ ci0 _ h4 (fun q => rfl) (Or.inl rfl)
        have hfr := acquire_fold_frame _ _ _ hfold
        have h6 : pidInv s6 :=
          pidInv_congr h5 hfr.1 hfr.2.1 hfr.2.2.1 hfr.2.2.2.1 hfr.2.2.2.2
        have hp6 : (pcbD s6 ci0).pid = s.pidNum := by
          rw [pcbD_congr hfr.1 ci0,
            updP_keep PCB.pid _ ci0 (fun q =>
              { q with fd_table := (pcbD s2 s2.curr).fd_table }) rfl ci0, pcbD_fg_yield,
            updP_keep PCB.pid s2 ci0 (fun q =>
              { q with ppid := (pcbD s2 s2.curr).pid }) rfl ci0, hpci]
        have h7 : pidInv (updP s6 ci0 (fun q =>
            { q with regContext := some { pf with x0 := 0 } })) :=
          pidInv_updP s6 ci0 _ h6 (fun q => rfl) (Or.inl rfl)
        have hp7 : (pcbD (updP s6 ci0 (fun q =>
            { q with regContext := some { pf with x0 := 0 } })) ci0).pid = s.pidNum := by
          rw [updP_keep PCB.pid s6 ci0 (fun q =>
            { q with regContext := some { pf with x0 := 0 } }) rfl ci0, hp6]
        have h8 : pidInv (updP (updP s6 ci0 (fun q =>
            { q with regContext := some { pf with x0 := 0 } })) ci0
            (fun q => { q with state := READY })) := by
          refine pidInv_updP _ ci0 _ h7 (fun q => rfl) ?_
          right; right; left
          rw [hp7]
          have := h.num
          omega
        have hp8 : (pcbD (updP (updP s6 ci0 (fun q =>
            { q with regContext := some { pf with x0 := 0 } })) ci0
            (fun q => { q with state := READY })) ci0).pid = s.pidNum := by
          rw [updP_keep PCB.pid _ ci0 (fun q =>
            { q with state := READY }) rfl ci0, hp7]
        rw [← hfin]
        refine pidInv_pushReady _ ci0 h8 hcib ?_
        rw [hp8]
        have := h.num
        omega

lemma pidInv_init : pidInv init_state := by
  refine ⟨by decide, by decide, by decide, by decide, by decide, by decide, ?_, ?_, ?_⟩
  · intro i h1 h2
    have h2' : i < 8 := h2
    interval_cases i <;> decide
  · intro i h1 h2
    have h2' : i < 8 := h2
    interval_cases i <;> decide
  · intro i j h1 h2 h3 h4
    have h2' : i < 8 := h2
    have h4' : j < 8 := h4
    interval_cases i <;> interval_cases j <;> decide

/-- Every operation other than the SIGHUP broadcast preserves `pidInv`. -/
lemma pidInv_stepNH {s s' : KState} (hst : StepNH s s') (h : pidInv s) : pidInv s' := by
  cases hst with
  | fork ok t r hc he => exact pidInv_fork _ ok _ r h he
  | openf sr t r hc he => exact pidInv_open_file _ sr _ r h he
  | closef fd t hc he => exact pidInv_close_file _ fd _ h he
  | exit stc t hc he => exact pidInv_exit _ stc false _ h hc he
  | wait pid opts t r hc he => exact pidInv_wait _ pid opts _ r h hc he
  | kill pid sig t r hc hnh he => exact pidInv_kill _ pid sig _ r h hnh he
  | trigger t he => exact pidInv_trigger _ _ h he
  | sleep e t hc he => exact pidInv_sleepOn _ e _ h hc he
  | wake e => exact pidInv_wake_up _ e h

lemma pidInv_reachNH {s : KState} (h : ReachNH s) : pidInv s := by
  induction h with
  | init => exact pidInv_init
  | step h1 h2 ih => exact pidInv_stepNH h2 ih

/-- C2 (amended): in every state reachable WITHOUT a `kill(-1, SIGHUP)`
broadcast, no two process-table slots whose state is not UNUSED share a pid:
`alloc_new_process` hands out pids from the monotonic counter
(process.c:63-64), every live slot's pid stays below the counter, and the
counter never decreases.  The SIGHUP broadcast's counter reset back to 2
(process.c:659-661) is excluded — and must be, as the counterexample shows:
after it, fork reissues an in-use pid. -/
theorem pid_uniqueness_without_sighup (s : KState) (h : ReachNH s) :
    ∀ i j, i < NPROC → j < NPROC → i ≠ j →
      (pcbD s i).state ≠ UNUSED → (pcbD s j).state ≠ UNUSED →
      (pcbD s i).pid ≠ (pcbD s j).pid := by
  have hp := pidInv_reachNH h
  intro i j hi hj hij hui huj
  have hlz : ∀ k, 1 ≤ k → k < NPROC → (pcbD s k).state ≠ UNUSED →
      (pcbD s k).pid ≠ 0 := by
    intro k h1 h2 hu hk0
    exact hu (hp.inert k h1 h2 hk0).1
  rcases Nat.eq_zero_or_pos i with hi0 | hi0
  · subst hi0
    rcases Nat.eq_zero_or_pos j with hj0 | hj0
    · omega
    · rw [hp.pid0]
      exact fun hc => hlz j hj0 hj huj hc.symm
  · rcases Nat.eq_zero_or_pos j with hj0 | hj0
    · subst hj0
      rw [hp.pid0]
      exact hlz i hi0 hi hui
    · exact hp.uniq i j hi0 hi hj0 hj hij (hlz i hi0 hi hui)

lemma reachNH_sInit : ReachNH sInit :=
  ReachNH.step ReachNH.init (StepNH.trigger _ _ (by decide))

lemma reachNH_sOpen : ReachNH sOpen :=
  ReachNH.step reachNH_sInit (StepNH.openf _ (some 0) _ 0 (by decide) (by decide))

lemma reachNH_sFork : ReachNH sFork :=
  ReachNH.step reachNH_sOpen (StepNH.fork _ true _ 2 (by decide) (by decide))

theorem pid_uniqueness_without_sighup_witness :
    (pcbD sFork 1).state ≠ UNUSED ∧ (pcbD sFork 2).state ≠ UNUSED ∧
    (pcbD sFork 1).pid ≠ (pcbD sFork 2).pid := by
  refine ⟨by decide, by decide, ?_⟩
  exact pid_uniqueness_without_sighup sFork reachNH_sFork 1 2 (by decide) (by decide)
    (by decide) (by decide) (by decide)

/-- C2, counterexample.  `kill(-1, SIGHUP)` resets the pid counter to 2
(process.c:659-661) while the shell (slot 2, pid 2) is still live; the next
fork allocates slot 3 and hands it pid 2 again: two live slots share a pid
in the reachable state `sFork2`. -/
theorem sighup_reset_duplicates_pids :
    Reach sFork2 ∧
    (pcbD sFork2 2).state ≠ UNUSED ∧ (pcbD sFork2 3).state ≠ UNUSED ∧
    (pcbD sFork2 2).pid = 2 ∧ (pcbD sFork2 3).pid = 2 :=
  ⟨reach_sFork2, by decide, by decide, by decide, by decide⟩

/-- Round robin at a concrete reachable input: in `sBack` init (slot 1) runs
with slots 3 and 2 READY in that order; four ticks later slot 3 (= cyc3 at
index 4 % 3 = 1) is the running process. -/
theorem trigger_round_robin_witness :
    ∃ s', trigN 4 sBack = some s' ∧ s'.curr = 3 ∧ (pcbD s' 3).state = RUNNING := by
  obtain ⟨s', hs', hinv⟩ := trigger_round_robin 4 sBack 1 3 2
    ⟨by decide, by decide, by decide, by decide, by decide, by decide, by decide,
      by decide, by decide, by decide, by decide, by decide⟩
  exact ⟨s', hs', hinv.2.1, hinv.2.2.1⟩

end Frostbyte
